import Mathlib

/-!
# Verification of the hashstash content-addressed object store

This file gives a shallow embedding of the hashstash library
(`src/lib.rs`, `src/stasher.rs`, `src/unstasher.rs`, `src/valuetypes.rs`,
`src/cache.rs`) and proves or refutes the frozen claims about it.

Modelling conventions:
* Machine integers are `Nat` with explicit reductions (`% 256`, `% 2^16`,
  `% 2^32`) where the Rust code relies on a fixed width.
* The external `seahash::SeaHasher` is an opaque third-party hash.  It is
  modelled as an idealised collision-free hasher: the hasher state is the
  list of write events performed on it and `finish` is an injective
  encoding of that list into `Nat`.  All structural facts proved about
  hashing (determinism, XOR combination of unordered sequences, order
  sensitivity of ordered sequences) depend only on the write-event
  structure, which is taken verbatim from the source.
* A `Stashable` object is represented by the sequence of declarations its
  `stash` method performs, the inductive type `Decl`.  A declaration both
  carries the field values (used when hashing/serializing) and the field
  types (used as the read script when unstashing).
* Rust panics (`unwrap`, `debug_assert`, unchecked slice reads) are
  modelled as `Option.none`; recoverable `Result` errors are `Except`.
-/

set_option maxHeartbeats 1000000

namespace Hashstash

/-- Errors that can happen while unstashing, from `unstasher.rs`. -/
inductive UnstashError where
  | WrongValueType
  | OutOfData
  | Corrupted
  | NotFinished
  | BadValue
  deriving DecidableEq, Repr

/-- The set of primitive fixed-size types, from `valuetypes.rs`. -/
inductive PrimitiveType where
  | Bool
  | U8
  | I8
  | U16
  | I16
  | U32
  | I32
  | U64
  | I64
  | F32
  | F64
  deriving DecidableEq, Repr

/-- The set of value types, from `valuetypes.rs`.  The `ArrayOfObjects`
variant is referenced throughout `stasher.rs` and `unstasher.rs` but its
declaration is missing from the `valuetypes.rs` snapshot.
Modelled from the spec: array-of-objects is a `0x3`-family tag with a
length, distinct from the plain object reference `0x30`; we assign it the
byte `0x31`. -/
inductive ValueType where
  | Primitive (t : PrimitiveType)
  | Array (t : PrimitiveType)
  | String
  | StashedObject
  | ArrayOfObjects
  deriving DecidableEq, Repr

/-- `PrimitiveType::to_nibble` from `valuetypes.rs`. -/
def PrimitiveType.to_nibble : PrimitiveType → Nat
  | .Bool => 0x01
  | .U8 => 0x02
  | .I8 => 0x03
  | .U16 => 0x04
  | .I16 => 0x05
  | .U32 => 0x06
  | .I32 => 0x07
  | .U64 => 0x08
  | .I64 => 0x09
  | .F32 => 0x0A
  | .F64 => 0x0B

/-- `PrimitiveType::from_nibble` from `valuetypes.rs`. -/
def PrimitiveType.from_nibble (byte : Nat) : Except UnstashError PrimitiveType :=
  match byte with
  | 0x01 => .ok .Bool
  | 0x02 => .ok .U8
  | 0x03 => .ok .I8
  | 0x04 => .ok .U16
  | 0x05 => .ok .I16
  | 0x06 => .ok .U32
  | 0x07 => .ok .I32
  | 0x08 => .ok .U64
  | 0x09 => .ok .I64
  | 0x0A => .ok .F32
  | 0x0B => .ok .F64
  | _ => .error .Corrupted

/-- The number of bytes occupied by a primitive value
(`PrimitiveReadWrite::SIZE` in `valuetypes.rs`). -/
def PrimitiveType.size : PrimitiveType → Nat
  | .Bool => 1
  | .U8 => 1
  | .I8 => 1
  | .U16 => 2
  | .I16 => 2
  | .U32 => 4
  | .I32 => 4
  | .U64 => 8
  | .I64 => 8
  | .F32 => 4
  | .F64 => 8

/-- `ValueType::to_byte` from `valuetypes.rs` (with the spec-modelled
`ArrayOfObjects` byte). -/
def ValueType.to_byte : ValueType → Nat
  | .Primitive t => 0x00 ||| t.to_nibble
  | .Array t => 0x10 ||| t.to_nibble
  | .String => 0x20
  | .StashedObject => 0x30
  | .ArrayOfObjects => 0x31

/-- `ValueType::from_byte` from `valuetypes.rs` (with the spec-modelled
`ArrayOfObjects` byte). -/
def ValueType.from_byte (byte : Nat) : Except UnstashError ValueType :=
  let hi_nibble := byte &&& 0xF0
  let lo_nibble := byte &&& 0x0F
  match hi_nibble with
  | 0x00 => (PrimitiveType.from_nibble lo_nibble).map ValueType.Primitive
  | 0x10 => (PrimitiveType.from_nibble lo_nibble).map ValueType.Array
  | 0x20 => .ok .String
  | 0x30 => if lo_nibble = 1 then .ok .ArrayOfObjects else .ok .StashedObject
  | _ => .error .Corrupted

/-- Big-endian byte encoding of `x` into `n` bytes (Rust `to_be_bytes`,
truncating to the low `8 * n` bits like the fixed-width integer does). -/
def beBytes : Nat → Nat → List Nat
  | 0, _ => []
  | n + 1, x => beBytes n (x / 256) ++ [x % 256]

/-- Big-endian interpretation of a byte list (Rust `from_be_bytes`). -/
def beToNat (bs : List Nat) : Nat := bs.foldl (fun a b => a * 256 + b) 0

theorem beBytes_length (n x : Nat) : (beBytes n x).length = n := by
  induction n generalizing x with
  | zero => rfl
  | succ n ih => simp [beBytes, ih]

/-- Whether order matters for an array of stashed objects
(`Order` in `stasher.rs`). -/
inductive Order where
  | Ordered
  | Unordered
  deriving DecidableEq, Repr

/-- One write performed on the `seahash::SeaHasher`.  `raw` is
`Hasher::write` (byte values reduced mod 256), `word64` is `write_u64`,
`word32` is `write_u32`. -/
inductive HEvent where
  | raw (bs : List Nat)
  | word64 (x : Nat)
  | word32 (x : Nat)
  deriving DecidableEq, Repr

/-- Injective encoding of a byte list (digits in `1..256`, base 257). -/
def encBytes (bs : List Nat) : Nat := bs.foldl (fun a b => a * 257 + (b + 1)) 0

/-- Injective encoding of a single hash-write event. -/
def encE : HEvent → Nat
  | .raw bs => 3 * encBytes bs
  | .word64 x => 3 * x + 1
  | .word32 x => 3 * x + 2

/-- `SeaHasher::finish`, modelled as an injective encoding of the list of
writes performed on the hasher (the idealised collision-free hash). -/
def finishH (trace : List HEvent) : Nat :=
  Nat.pair trace.length (trace.foldl (fun a e => Nat.pair a (encE e)) 0)

/-- The hashing backend of a `Stasher` (`HashingStasher` in
`stasher.rs`): the hasher it writes to, plus the XOR accumulator used for
unordered sequences. -/
structure HashingStasher where
  trace : List HEvent
  current_unordered_hash : Option Nat
  deriving DecidableEq, Repr

/-- `Hasher::write` on the hashing backend. -/
def HashingStasher.write_raw_bytes (hs : HashingStasher) (bs : List Nat) : HashingStasher :=
  { hs with trace := hs.trace ++ [.raw (bs.map (· % 256))] }

/-- `Hasher::write_u64` on the hashing backend. -/
def HashingStasher.write_u64 (hs : HashingStasher) (x : Nat) : HashingStasher :=
  { hs with trace := hs.trace ++ [.word64 x] }

/-- `Hasher::write_u32` on the hashing backend. -/
def HashingStasher.write_u32 (hs : HashingStasher) (x : Nat) : HashingStasher :=
  { hs with trace := hs.trace ++ [.word32 x] }

/-- `StasherBackend::stash_dependency` in hashing mode (`stasher.rs`):
given the already-computed `ObjectHash` of the nested object, either XOR
it into the open unordered accumulator or write it to the hasher. -/
def HashingStasher.stash_dependency (hs : HashingStasher) (h : Nat) : HashingStasher :=
  match hs.current_unordered_hash with
  | some u => { hs with current_unordered_hash := some (u ^^^ h) }
  | none => hs.write_u64 h

/-- `StasherBackend::begin_sequence` in hashing mode (`stasher.rs`). -/
def HashingStasher.begin_sequence (hs : HashingStasher) (ord : Order) : HashingStasher :=
  match ord with
  | .Unordered => { hs with current_unordered_hash := some 0 }
  | .Ordered => hs

/-- `StasherBackend::end_sequence` in hashing mode (`stasher.rs`): flush
the unordered accumulator if one is open, then hash the length (a `u32`
in the source). -/
def HashingStasher.end_sequence (hs : HashingStasher) (len : Nat) : HashingStasher :=
  let hs' : HashingStasher :=
    match hs.current_unordered_hash with
    | some u => { trace := hs.trace ++ [.word64 u], current_unordered_hash := none }
    | none => hs
  hs'.write_u32 (len % 2 ^ 32)

/-- The sequence of declarations a `Stashable::stash` implementation
performs against its `Stasher` — the embedding of one object's contents.
Primitive declarations carry their value; `stringV` carries the UTF-8
bytes of the string; `object` and `arrayOfObjects` carry the declaration
sequences of the nested objects.  A representative subset of the
primitive types (`bool`, `u8`, `u32`, `u64`) and primitive arrays (`u8`)
is embedded; the remaining widths differ only in byte count. -/
inductive Decl where
  | primBool (b : Bool)
  | primU8 (x : Nat)
  | primU32 (x : Nat)
  | primU64 (x : Nat)
  | stringV (bs : List Nat)
  | arrayU8 (xs : List Nat)
  | object (fields : List Decl)
  | arrayOfObjects (ord : Order) (elems : List (List Decl))

mutual

/-- `ObjectHash::with_stasher` (`lib.rs`): run the declarations against a
fresh hasher and finish it. -/
def object_hash (ds : List Decl) : Nat :=
  finishH (hash_fields { trace := [], current_unordered_hash := none } ds).trace
termination_by (sizeOf ds, 1)

/-- Run a sequence of declarations against the hashing backend. -/
def hash_fields (hs : HashingStasher) (ds : List Decl) : HashingStasher :=
  match ds with
  | [] => hs
  | d :: ds => hash_fields (hash_field hs d) ds
termination_by (sizeOf ds, 0)

/-- One declaration against the hashing backend: each arm mirrors the
corresponding `Stasher` method in `stasher.rs` (tag byte, then value
bytes / sequence / dependency). -/
def hash_field (hs : HashingStasher) (d : Decl) : HashingStasher :=
  match d with
  | .primBool b =>
    (hs.write_raw_bytes [(ValueType.Primitive .Bool).to_byte]).write_raw_bytes
      [if b then 1 else 0]
  | .primU8 x =>
    (hs.write_raw_bytes [(ValueType.Primitive .U8).to_byte]).write_raw_bytes (beBytes 1 x)
  | .primU32 x =>
    (hs.write_raw_bytes [(ValueType.Primitive .U32).to_byte]).write_raw_bytes (beBytes 4 x)
  | .primU64 x =>
    (hs.write_raw_bytes [(ValueType.Primitive .U64).to_byte]).write_raw_bytes (beBytes 8 x)
  | .stringV bs =>
    let hs1 := hs.write_raw_bytes [ValueType.String.to_byte]
    let hs2 := hs1.begin_sequence .Ordered
    let hs3 := hs2.write_raw_bytes bs
    hs3.end_sequence bs.length
  | .arrayU8 xs =>
    let hs1 := hs.write_raw_bytes [(ValueType.Array .U8).to_byte]
    let hs2 := hs1.begin_sequence .Ordered
    let hs3 := xs.foldl (fun h x => h.write_raw_bytes (beBytes 1 x)) hs2
    hs3.end_sequence xs.length
  | .object fields =>
    let hs1 := hs.write_raw_bytes [ValueType.StashedObject.to_byte]
    hs1.stash_dependency (object_hash fields)
  | .arrayOfObjects ord elems =>
    let hs1 := hs.write_raw_bytes [ValueType.ArrayOfObjects.to_byte]
    let hs2 := hs1.begin_sequence ord
    let hs3 := hash_elems hs2 elems
    hs3.end_sequence elems.length
termination_by (sizeOf d, 2)

/-- Hash the elements of an array of objects: each element is hashed with
a fresh stasher (`ObjectHash::with_stasher` inside `stash_dependency`)
and the result folded into the current sequence. -/
def hash_elems (hs : HashingStasher) (es : List (List Decl)) : HashingStasher :=
  match es with
  | [] => hs
  | e :: es => hash_elems (hs.stash_dependency (object_hash e)) es
termination_by (sizeOf es, 3)

end

/-- The serialized contents of an object (`StashedObject` in `lib.rs`).
`reference_count` is a `Cell<u16>` in the source; it is modelled as a
`Nat` kept below `2 ^ 16` by reducing every increment mod `2 ^ 16`
(two's-complement wrap-around of the unchecked `+ 1`). -/
structure StashedObject where
  bytes : List Nat
  reference_count : Nat
  dependencies : List Nat
  deriving DecidableEq, Repr

/-- `StashMap` (`lib.rs`): a `HashMap<ObjectHash, StashedObject>`,
modelled as an association list with unique keys (maintained by
construction: insertion happens only after a failed lookup). -/
abbrev StashMap := List (Nat × StashedObject)

/-- `HashMap::get`: first (and, by the key-uniqueness invariant, only)
binding of the hash. -/
def lookupObj (m : StashMap) (h : Nat) : Option StashedObject :=
  match m with
  | [] => none
  | (k, o) :: rest => if k = h then some o else lookupObj rest h

/-- `Cell::set` on the reference count of the entry with hash `h`. -/
def setRefcount (m : StashMap) (h : Nat) (rc : Nat) : StashMap :=
  match m with
  | [] => []
  | (k, o) :: rest =>
    if k = h then (k, { o with reference_count := rc }) :: rest
    else (k, o) :: setRefcount rest h rc

/-- `HashMap::insert` of a fresh key. -/
def insertObj (m : StashMap) (h : Nat) (o : StashedObject) : StashMap := m ++ [(h, o)]

/-- `HashMap::remove(&hash).unwrap()`: `none` models the panic when the
hash is absent. -/
def removeObj (m : StashMap) (h : Nat) : Option StashMap :=
  match m with
  | [] => none
  | (k, o) :: rest =>
    if k = h then some rest
    else (removeObj rest h).map (fun r => (k, o) :: r)

/-- `Stash::num_objects`. -/
def num_objects (m : StashMap) : Nat := m.length

/-- Total of all reference counts: the termination measure for the
cascading release. -/
def sumRefcounts (m : StashMap) : Nat := (m.map (fun p => p.2.reference_count)).sum

/-- Serializer write of raw bytes (`SerializingStasher`'s
`data.extend_from_slice`); byte values are reduced mod 256 as `u8`s. -/
def swrite (data : List Nat) (bs : List Nat) : List Nat := data ++ bs.map (· % 256)

/-- `StasherBackend::end_sequence` in serializing mode: write the
big-endian `u32` length at the bookmarked placeholder position
(`data[bookmark + i] = b` for each byte). -/
def patch_u32 (data : List Nat) (bookmark : Nat) (len : Nat) : List Nat :=
  (List.enum (beBytes 4 len)).foldl (fun d p => d.set (bookmark + p.1) p.2) data

mutual

/-- `StashMap::stash_and_add_reference` (`lib.rs`): hash first; on a hit
bump the existing entry's refcount (an unchecked `u16 + 1`, wrapping mod
`2 ^ 16`) and do no serialization work; on a miss run the serializing
backend (which recursively stashes nested objects) and insert a new
entry with refcount 1. -/
def stash_and_add_reference (m : StashMap) (ds : List Decl) : Nat × StashMap :=
  let hash := object_hash ds
  match lookupObj m hash with
  | some stashed_object =>
    (hash, setRefcount m hash ((stashed_object.reference_count + 1) % 2 ^ 16))
  | none =>
    let r := serialize_fields m [] [] ds
    (hash, insertObj r.2.2 hash ⟨r.1, 1, r.2.1⟩)
termination_by (sizeOf ds, 1)

/-- Run a sequence of declarations against the serializing backend,
threading the written bytes, the dependency list and the stashmap. -/
def serialize_fields (m : StashMap) (data deps : List Nat) (ds : List Decl) :
    List Nat × List Nat × StashMap :=
  match ds with
  | [] => (data, deps, m)
  | d :: ds =>
    let r := serialize_field m data deps d
    serialize_fields r.2.2 r.1 r.2.1 ds
termination_by (sizeOf ds, 0)

/-- One declaration against the serializing backend: each arm mirrors the
corresponding `Stasher` method in `stasher.rs` (tag byte, then value
bytes; sequences reserve a 4-byte placeholder and backpatch the length;
nested objects are stashed into the map and their hash recorded as a
dependency). -/
def serialize_field (m : StashMap) (data deps : List Nat) (d : Decl) :
    List Nat × List Nat × StashMap :=
  match d with
  | .primBool b =>
    (swrite (swrite data [(ValueType.Primitive .Bool).to_byte]) [if b then 1 else 0], deps, m)
  | .primU8 x =>
    (swrite (swrite data [(ValueType.Primitive .U8).to_byte]) (beBytes 1 x), deps, m)
  | .primU32 x =>
    (swrite (swrite data [(ValueType.Primitive .U32).to_byte]) (beBytes 4 x), deps, m)
  | .primU64 x =>
    (swrite (swrite data [(ValueType.Primitive .U64).to_byte]) (beBytes 8 x), deps, m)
  | .stringV bs =>
    let data1 := swrite data [ValueType.String.to_byte]
    let bookmark := data1.length
    let data2 := data1 ++ [0, 0, 0, 0]
    let data3 := swrite data2 bs
    (patch_u32 data3 bookmark bs.length, deps, m)
  | .arrayU8 xs =>
    let data1 := swrite data [(ValueType.Array .U8).to_byte]
    let bookmark := data1.length
    let data2 := data1 ++ [0, 0, 0, 0]
    let data3 := xs.foldl (fun dacc x => swrite dacc (beBytes 1 x)) data2
    (patch_u32 data3 bookmark xs.length, deps, m)
  | .object fields =>
    let data1 := swrite data [ValueType.StashedObject.to_byte]
    let r := stash_and_add_reference m fields
    (data1, deps ++ [r.1], r.2)
  | .arrayOfObjects _ord elems =>
    let data1 := swrite data [ValueType.ArrayOfObjects.to_byte]
    let bookmark := data1.length
    let data2 := data1 ++ [0, 0, 0, 0]
    let r := serialize_elems m deps elems
    (patch_u32 data2 bookmark elems.length, r.1, r.2)
termination_by (sizeOf d, 2)

/-- Stash each element of an array of objects into the map, recording
each element's hash as a dependency. -/
def serialize_elems (m : StashMap) (deps : List Nat) (es : List (List Decl)) :
    List Nat × StashMap :=
  match es with
  | [] => (deps, m)
  | e :: es =>
    let r := stash_and_add_reference m e
    serialize_elems r.2 (deps ++ [r.1]) es
termination_by (sizeOf es, 3)

end

/-- `Stash::stash` (`lib.rs`): stash into the shared map; the returned
handle carries the hash. -/
def Stash.stash (m : StashMap) (ds : List Decl) : Nat × StashMap :=
  stash_and_add_reference m ds

/-- `n` repeated `Stash::stash` calls of the same content, starting from
the empty stash. -/
def stashN (ds : List Decl) : Nat → StashMap
  | 0 => []
  | n + 1 => (Stash.stash (stashN ds n) ds).2

/-- `StashMap::add_reference` (`lib.rs`), also the effect of
`StashHandle::clone`: bump the refcount of an existing entry (`none`
models the `unwrap` panic on a missing hash).  The `+ 1` is the same
unchecked `u16` increment as in `stash_and_add_reference`. -/
def add_reference (m : StashMap) (h : Nat) : Option StashMap :=
  (lookupObj m h).map (fun o => setRefcount m h ((o.reference_count + 1) % 2 ^ 16))

/-- The bytes one declaration contributes to the serialized payload.
Nested objects contribute only their tag byte — their contents live in
their own entries and their hash goes to the dependency list. -/
def field_bytes : Decl → List Nat
  | .primBool b => [(ValueType.Primitive .Bool).to_byte, if b then 1 else 0]
  | .primU8 x => (ValueType.Primitive .U8).to_byte :: beBytes 1 x
  | .primU32 x => (ValueType.Primitive .U32).to_byte :: beBytes 4 x
  | .primU64 x => (ValueType.Primitive .U64).to_byte :: beBytes 8 x
  | .stringV bs => ValueType.String.to_byte :: (beBytes 4 bs.length ++ bs.map (· % 256))
  | .arrayU8 xs => (ValueType.Array .U8).to_byte :: (beBytes 4 xs.length ++ xs.map (· % 256))
  | .object _ => [ValueType.StashedObject.to_byte]
  | .arrayOfObjects _ elems => ValueType.ArrayOfObjects.to_byte :: beBytes 4 elems.length

/-- The full serialized payload of a declaration sequence (a pure
function of the content; proved below to agree with the serializing
backend). -/
def serial_bytes (ds : List Decl) : List Nat := ds.flatMap field_bytes

/-- The dependency hashes one declaration records, in traversal order. -/
def field_deps : Decl → List Nat
  | .object fields => [object_hash fields]
  | .arrayOfObjects _ elems => elems.map object_hash
  | _ => []

/-- The full dependency list of a declaration sequence. -/
def serial_deps (ds : List Decl) : List Nat := ds.flatMap field_deps

mutual

/-- All hashes of transitively nested objects of a declaration sequence
(the keys that serializing it can touch in the map). -/
def nestedClosure (ds : List Decl) : List Nat :=
  match ds with
  | [] => []
  | d :: ds => fieldClosure d ++ nestedClosure ds
termination_by (sizeOf ds, 0)

/-- Transitively nested hashes of one declaration. -/
def fieldClosure (d : Decl) : List Nat :=
  match d with
  | .object fields => object_hash fields :: nestedClosure fields
  | .arrayOfObjects _ elems => elemsClosure elems
  | _ => []
termination_by (sizeOf d, 1)

/-- Transitively nested hashes of an array of objects. -/
def elemsClosure (es : List (List Decl)) : List Nat :=
  match es with
  | [] => []
  | e :: es => (object_hash e :: nestedClosure e) ++ elemsClosure es
termination_by (sizeOf es, 2)

end

theorem lookupObj_reference_le_sum (m : StashMap) (h : Nat) (o : StashedObject)
    (hm : lookupObj m h = some o) : o.reference_count ≤ sumRefcounts m := by
  induction m with
  | nil => simp [lookupObj] at hm
  | cons p rest ih =>
    obtain ⟨k, o'⟩ := p
    by_cases hk : k = h
    · simp [lookupObj, hk] at hm
      subst hm
      simp [sumRefcounts]
    · simp [lookupObj, hk] at hm
      have := ih hm
      simp [sumRefcounts] at this ⊢
      omega

theorem sumRefcounts_setRefcount (m : StashMap) (h : Nat) (rc : Nat) (o : StashedObject)
    (hm : lookupObj m h = some o) :
    sumRefcounts (setRefcount m h rc) = sumRefcounts m - o.reference_count + rc := by
  induction m with
  | nil => simp [lookupObj] at hm
  | cons p rest ih =>
    obtain ⟨k, o'⟩ := p
    by_cases hk : k = h
    · simp [lookupObj, hk] at hm
      subst hm
      simp [setRefcount, hk, sumRefcounts]
      omega
    · simp [lookupObj, hk] at hm
      have hle := lookupObj_reference_le_sum rest h o hm
      have ihr := ih hm
      simp only [sumRefcounts, setRefcount, hk, if_false, List.map_cons, List.sum_cons] at *
      omega

mutual

/-- The nested function `decrease_refcounts_recursive` of
`StashMap::remove_reference` (`lib.rs`): look up the entry (panic when
absent), `debug_assert!(refcount > 0)` (modelled as a checked failure),
decrement the refcount, and when it reaches zero record the hash for
removal and recurse into each recorded dependency.  The subtype on the
result carries the strict decrease of the total refcount used for
termination. -/
def decrease_refcounts_recursive (m : StashMap) (h : Nat) (acc : List Nat) :
    Option { r : StashMap × List Nat // sumRefcounts r.1 < sumRefcounts m } :=
  match hm : lookupObj m h with
  | none => none
  | some obj =>
    if hrc : obj.reference_count = 0 then none
    else
      let refcount := obj.reference_count - 1
      let m' := setRefcount m h refcount
      have hsum : sumRefcounts m' < sumRefcounts m := by
        have hle := lookupObj_reference_le_sum m h obj hm
        have heq := sumRefcounts_setRefcount m h refcount obj hm
        simp only [m', refcount] at *
        omega
      if refcount = 0 then
        match decrease_refcounts_deps m' obj.dependencies (acc ++ [h]) with
        | none => none
        | some ⟨r, hr⟩ => some ⟨r, lt_of_le_of_lt hr hsum⟩
      else
        some ⟨(m', acc), hsum⟩
termination_by (sumRefcounts m, 0)
decreasing_by
  exact Prod.Lex.left _ _ hsum

/-- The `for dependency in &object.dependencies` loop of
`decrease_refcounts_recursive`. -/
def decrease_refcounts_deps (m : StashMap) (deps : List Nat) (acc : List Nat) :
    Option { r : StashMap × List Nat // sumRefcounts r.1 ≤ sumRefcounts m } :=
  match deps with
  | [] => some ⟨(m, acc), le_refl _⟩
  | _dep :: rest =>
    match decrease_refcounts_recursive m _dep acc with
    | none => none
    | some ⟨r1, h1⟩ =>
      match decrease_refcounts_deps r1.1 rest r1.2 with
      | none => none
      | some ⟨r, hr⟩ => some ⟨r, le_trans hr (le_of_lt h1)⟩
termination_by (sumRefcounts m, 1 + deps.length)
decreasing_by
  · exact Prod.Lex.right _ (by omega)
  · exact Prod.Lex.left _ _ h1

end

/-- The `for hash in objects_to_remove` removal loop at the end of
`StashMap::remove_reference` (each removal `unwrap`s). -/
def removeAll (m : StashMap) (hs : List Nat) : Option StashMap :=
  match hs with
  | [] => some m
  | h :: rest =>
    match removeObj m h with
    | none => none
    | some m' => removeAll m' rest

/-- `StashMap::remove_reference` (`lib.rs`): decrement, cascade, then
remove every hash whose refcount reached zero.  `none` models a panic
(missing hash or `debug_assert` failure). -/
def remove_reference (m : StashMap) (h : Nat) : Option StashMap :=
  match decrease_refcounts_recursive m h [] with
  | none => none
  | some r => removeAll r.val.1 r.val.2

/-- The read cursor of an `UnstasherBackend` (`unstasher.rs`): the
remaining bytes and the remaining dependency hashes.  The stashmap the
backend also holds is passed separately to the reading functions. -/
structure UB where
  bytes : List Nat
  dependencies : List Nat
  deriving DecidableEq, Repr

/-- `UnstasherBackend::is_finished`. -/
def UB.is_finished (ub : UB) : Bool := ub.bytes.isEmpty && ub.dependencies.isEmpty

/-- `UnstasherBackend::read_raw_bytes`: `split_at_checked`, `Corrupted`
when fewer than `len` bytes remain (cursor untouched on failure). -/
def UB.read_raw_bytes (ub : UB) (len : Nat) : Except UnstashError (List Nat) × UB :=
  if len ≤ ub.bytes.length then
    (.ok (ub.bytes.take len), { ub with bytes := ub.bytes.drop len })
  else (.error .Corrupted, ub)

/-- `UnstasherBackend::read_byte`: `OutOfData` on an empty stream. -/
def UB.read_byte (ub : UB) : Except UnstashError Nat × UB :=
  match ub.bytes with
  | [] => (.error .OutOfData, ub)
  | b :: rest => (.ok b, { ub with bytes := rest })

/-- `UnstasherBackend::peek_byte`. -/
def UB.peek_byte (ub : UB) : Except UnstashError Nat :=
  match ub.bytes with
  | [] => .error .OutOfData
  | b :: _ => .ok b

/-- `UnstasherBackend::read_value_type`: consume one byte and decode it.
On a decode failure the byte remains consumed (the caller's
`reset_on_error` is responsible for rewinding). -/
def UB.read_value_type (ub : UB) : Except UnstashError ValueType × UB :=
  match ub.read_byte with
  | (.error e, ub') => (.error e, ub')
  | (.ok b, ub') => (ValueType.from_byte b, ub')

/-- `UnstasherBackend::read_value_length`: `Corrupted` when fewer than 4
bytes remain, otherwise the big-endian `u32`. -/
def UB.read_value_length (ub : UB) : Except UnstashError Nat × UB :=
  if ub.bytes.length < 4 then (.error .Corrupted, ub)
  else (.ok (beToNat (ub.bytes.take 4)), { ub with bytes := ub.bytes.drop 4 })

/-- `UnstasherBackend::read_dependency`: pop the next dependency hash,
`Corrupted` when the dependency list is exhausted. -/
def UB.read_dependency (ub : UB) : Except UnstashError Nat × UB :=
  match ub.dependencies with
  | [] => (.error .Corrupted, ub)
  | h :: rest => (.ok h, { ub with dependencies := rest })

/-- `UnstasherBackend::reset_on_error`: run the operation and restore the
cursor (bytes and dependencies) to its pre-attempt position if it
returned an error.  A panic (`none`) propagates. -/
def reset_on_error {α : Type} (f : UB → Option (Except UnstashError α × UB)) (ub : UB) :
    Option (Except UnstashError α × UB) :=
  match f ub with
  | none => none
  | some (.error e, _) => some (.error e, ub)
  | some (.ok a, ub') => some (.ok a, ub')

/-- `UnstasherBackend::read_primitive`: check the tag, then read the
value bytes via `PrimitiveReadWrite::read_raw_bytes_from`, which is
unchecked in the source (`split_first_chunk().unwrap()`) and panics
(`none`) when fewer than `SIZE` bytes remain. -/
def UB.read_primitive (ub : UB) (t : PrimitiveType) :
    Option (Except UnstashError Nat × UB) :=
  reset_on_error
    (fun ub =>
      match ub.read_value_type with
      | (.error e, ub1) => some (.error e, ub1)
      | (.ok vt, ub1) =>
        if vt ≠ ValueType.Primitive t then some (.error .WrongValueType, ub1)
        else if ub1.bytes.length < t.size then none
        else some (.ok (beToNat (ub1.bytes.take t.size)), { ub1 with bytes := ub1.bytes.drop t.size }))
    ub

/-- Collect `len` big-endian values of `size` bytes each from the front
of the stream (the `PrimitiveIterator` of `unstasher.rs`). -/
def takeChunks (bs : List Nat) (size : Nat) : Nat → List Nat
  | 0 => []
  | n + 1 => beToNat (bs.take size) :: takeChunks (bs.drop size) size n

/-- `UnstasherBackend::read_primitive_array_vec`: check the tag, read the
length prefix, check the payload length (`Corrupted` when short), and
collect the elements. -/
def UB.read_primitive_array (ub : UB) (t : PrimitiveType) :
    Option (Except UnstashError (List Nat) × UB) :=
  reset_on_error
    (fun ub =>
      match ub.read_value_type with
      | (.error e, ub1) => some (.error e, ub1)
      | (.ok vt, ub1) =>
        if vt ≠ ValueType.Array t then some (.error .WrongValueType, ub1)
        else
          match ub1.read_value_length with
          | (.error e, ub2) => some (.error e, ub2)
          | (.ok len, ub2) =>
            if ub2.bytes.length < len * t.size then some (.error .Corrupted, ub2)
            else
              some (.ok (takeChunks ub2.bytes t.size len),
                { ub2 with bytes := ub2.bytes.drop (len * t.size) }))
    ub

/-- UTF-8 validity of a byte list, per Rust's `str::from_utf8` ranges
(rejecting continuation-byte leads, overlong encodings, surrogates and
values above `0x10FFFF`). -/
def utf8Valid : List Nat → Bool
  | [] => true
  | b :: rest =>
    if b < 0x80 then utf8Valid rest
    else if b < 0xC2 then false
    else if b < 0xE0 then
      match rest with
      | b1 :: rest' => decide (0x80 ≤ b1 ∧ b1 < 0xC0) && utf8Valid rest'
      | [] => false
    else if b < 0xF0 then
      match rest with
      | b1 :: b2 :: rest' =>
        (if b = 0xE0 then decide (0xA0 ≤ b1 ∧ b1 < 0xC0)
         else if b = 0xED then decide (0x80 ≤ b1 ∧ b1 < 0xA0)
         else decide (0x80 ≤ b1 ∧ b1 < 0xC0)) &&
        decide (0x80 ≤ b2 ∧ b2 < 0xC0) && utf8Valid rest'
      | _ => false
    else if b < 0xF5 then
      match rest with
      | b1 :: b2 :: b3 :: rest' =>
        (if b = 0xF0 then decide (0x90 ≤ b1 ∧ b1 < 0xC0)
         else if b = 0xF4 then decide (0x80 ≤ b1 ∧ b1 < 0x90)
         else decide (0x80 ≤ b1 ∧ b1 < 0xC0)) &&
        decide (0x80 ≤ b2 ∧ b2 < 0xC0) && decide (0x80 ≤ b3 ∧ b3 < 0xC0) && utf8Valid rest'
      | _ => false
    else false

/-- `UnstasherBackend::string`: check the tag, read the length prefix,
read that many raw bytes (`Corrupted` when short), and validate UTF-8
(`Corrupted` when invalid). -/
def UB.read_string (ub : UB) : Option (Except UnstashError (List Nat) × UB) :=
  reset_on_error
    (fun ub =>
      match ub.read_value_type with
      | (.error e, ub1) => some (.error e, ub1)
      | (.ok vt, ub1) =>
        if vt ≠ ValueType.String then some (.error .WrongValueType, ub1)
        else
          match ub1.read_value_length with
          | (.error e, ub2) => some (.error e, ub2)
          | (.ok len, ub2) =>
            match ub2.read_raw_bytes len with
            | (.error e, ub3) => some (.error e, ub3)
            | (.ok slice, ub3) =>
              if utf8Valid slice then some (.ok slice, ub3)
              else some (.error .Corrupted, ub3))
    ub

/-- `UnstasherBackend::read_array_of_object_iter` (`unstasher.rs`): the
rollback-wrapped prefix of an object-array read — tag byte, four-byte
length, and `split_at_checked` on the dependency list, yielding the
popped element hashes.  Only this prefix sits inside `reset_on_error`;
the element reads that `read_array_of_object_vec` performs afterwards do
not. -/
def read_array_of_object_header (ub : UB) : Option (Except UnstashError (List Nat) × UB) :=
  reset_on_error
    (fun ub =>
      match ub.read_value_type with
      | (.error e, ub1) => some (.error e, ub1)
      | (.ok vt, ub1) =>
        if vt ≠ ValueType.ArrayOfObjects then some (.error .WrongValueType, ub1)
        else
          match ub1.read_value_length with
          | (.error e, ub2) => some (.error e, ub2)
          | (.ok len, ub2) =>
            if len ≤ ub2.dependencies.length then
              some (.ok (ub2.dependencies.take len),
                { ub2 with dependencies := ub2.dependencies.drop len })
            else some (.error .Corrupted, ub2))
    ub

mutual

/-- The canonical `Unstashable::unstash` reader for one declared field:
it reads exactly the value the declaration `shape` declares (the shape's
own values are ignored) through the `Unstasher` operations of
`unstasher.rs`, returning the freshly built value. -/
def read_field (m : StashMap) (shape : Decl) (ub : UB) :
    Option (Except UnstashError Decl × UB) :=
  match shape with
  | .primBool _ =>
    match ub.read_primitive .Bool with
    | none => none
    | some (.error e, ub') => some (.error e, ub')
    | some (.ok v, ub') => some (.ok (.primBool (v == 1)), ub')
  | .primU8 _ =>
    match ub.read_primitive .U8 with
    | none => none
    | some (.error e, ub') => some (.error e, ub')
    | some (.ok v, ub') => some (.ok (.primU8 v), ub')
  | .primU32 _ =>
    match ub.read_primitive .U32 with
    | none => none
    | some (.error e, ub') => some (.error e, ub')
    | some (.ok v, ub') => some (.ok (.primU32 v), ub')
  | .primU64 _ =>
    match ub.read_primitive .U64 with
    | none => none
    | some (.error e, ub') => some (.error e, ub')
    | some (.ok v, ub') => some (.ok (.primU64 v), ub')
  | .stringV _ =>
    match ub.read_string with
    | none => none
    | some (.error e, ub') => some (.error e, ub')
    | some (.ok bs, ub') => some (.ok (.stringV bs), ub')
  | .arrayU8 _ =>
    match ub.read_primitive_array .U8 with
    | none => none
    | some (.error e, ub') => some (.error e, ub')
    | some (.ok xs, ub') => some (.ok (.arrayU8 xs), ub')
  | .object sub =>
    -- `UnstasherBackend::object_proxy`: tag, dependency hash, then
    -- `StashMap::unstash` of the nested object.
    reset_on_error
      (fun ub =>
        match ub.read_value_type with
        | (.error e, ub1) => some (.error e, ub1)
        | (.ok vt, ub1) =>
          if vt ≠ ValueType.StashedObject then some (.error .WrongValueType, ub1)
          else
            match ub1.read_dependency with
            | (.error e, ub2) => some (.error e, ub2)
            | (.ok h, ub2) =>
              match map_unstash_with m h sub with
              | none => none
              | some (.error e) => some (.error e, ub2)
              | some (.ok vals) => some (.ok (.object vals), ub2))
      ub
  | .arrayOfObjects ord elemShapes =>
    -- `UnstasherBackend::read_array_of_object_iter`: `reset_on_error`
    -- covers only the tag, the length and the `split_at_checked` on the
    -- dependency list; `read_array_of_object_vec` then `collect`s the
    -- elements (one `StashMap::unstash` per popped hash) after the
    -- rollback wrapper has already returned, so a failing element leaves
    -- the tag, length and popped dependencies consumed.
    match read_array_of_object_header ub with
    | none => none
    | some (.error e, ub') => some (.error e, ub')
    | some (.ok hashes, ub') =>
      match read_elems m elemShapes hashes with
      | none => none
      | some (.error e) => some (.error e, ub')
      | some (.ok vals) => some (.ok (.arrayOfObjects ord vals), ub')
termination_by (sizeOf shape, 2)

/-- The canonical reader for a whole declared field sequence. -/
def read_fields (m : StashMap) (shapes : List Decl) (ub : UB) :
    Option (Except UnstashError (List Decl) × UB) :=
  match shapes with
  | [] => some (.ok [], ub)
  | shape :: shapes =>
    match read_field m shape ub with
    | none => none
    | some (.error e, ub') => some (.error e, ub')
    | some (.ok v, ub') =>
      match read_fields m shapes ub' with
      | none => none
      | some (.error e, ub'') => some (.error e, ub'')
      | some (.ok vs, ub'') => some (.ok (v :: vs), ub'')
termination_by (sizeOf shapes, 0)

/-- Unstash each element hash of an array of objects.  The per-element
shapes are consumed positionally (the source's reader closure is an
`FnMut` called once per popped hash); a hash beyond the declared element
shapes is a client-side shape mismatch reported as `BadValue`. -/
def read_elems (m : StashMap) (shapes : List (List Decl)) (hashes : List Nat) :
    Option (Except UnstashError (List (List Decl))) :=
  match hashes with
  | [] => some (.ok [])
  | h :: hs =>
    match shapes with
    | [] => some (.error .BadValue)
    | s :: ss =>
      match map_unstash_with m h s with
      | none => none
      | some (.error e) => some (.error e)
      | some (.ok v) =>
        match read_elems m ss hs with
        | none => none
        | some (.error e) => some (.error e)
        | some (.ok vs) => some (.ok (v :: vs))
termination_by (sizeOf shapes, 3)

/-- `StashMap::unstash` applied to the canonical reader: look the entry
up (panicking when absent), run the reader over its bytes and
dependencies, and fail with `NotFinished` unless both were fully
consumed. -/
def map_unstash_with (m : StashMap) (h : Nat) (shapes : List Decl) :
    Option (Except UnstashError (List Decl)) :=
  match lookupObj m h with
  | none => none
  | some obj =>
    match read_fields m shapes ⟨obj.bytes, obj.dependencies⟩ with
    | none => none
    | some (.error e, _) => some (.error e)
    | some (.ok vals, ub') =>
      if ub'.is_finished then some (.ok vals) else some (.error .NotFinished)
termination_by (sizeOf shapes, 1)

end

/-- `StashMap::unstash` (`lib.rs`) for an arbitrary reader function:
look the entry up (panicking when absent), run the reader, and fail with
`NotFinished` unless the reader consumed every byte and dependency. -/
def StashMap.unstash {α : Type} (m : StashMap) (h : Nat)
    (f : UB → Option (Except UnstashError α × UB)) : Option (Except UnstashError α) :=
  match lookupObj m h with
  | none => none
  | some obj =>
    match f ⟨obj.bytes, obj.dependencies⟩ with
    | none => none
    | some (.error e, _) => some (.error e)
    | some (.ok a, ub') =>
      if ub'.is_finished then some (.ok a) else some (.error .NotFinished)

/-- The two phases of in-place unstashing (`InplaceUnstashPhase`). -/
inductive InplaceUnstashPhase where
  | Validate
  | Write
  deriving DecidableEq, Repr

/-- `reset_on_error` as used around the in-place operations: the byte
and dependency cursors are rolled back on error, but mutations already
made to the target are not. -/
def reset_on_error_in {τ : Type} (f : UB → Option (Except UnstashError Unit × UB × τ))
    (ub : UB) : Option (Except UnstashError Unit × UB × τ) :=
  match f ub with
  | none => none
  | some (.error e, _, t) => some (.error e, ub, t)
  | some (.ok a, ub', t) => some (.ok a, ub', t)

mutual

/-- The canonical `UnstashableInplace::unstash_inplace` reader for one
field, through the phase-aware `InplaceUnstasher` operations of
`unstasher.rs`: every value is read in both phases, but the target is
only assigned when the phase is `Write`.  The result carries the
(possibly partially updated) target alongside the cursor. -/
def read_field_inplace (m : StashMap) (phase : InplaceUnstashPhase) (t : Decl) (ub : UB) :
    Option (Except UnstashError Unit × UB × Decl) :=
  match t with
  | .primBool b =>
    -- `InplaceUnstasher::read_primitive_inplace`
    match ub.read_primitive .Bool with
    | none => none
    | some (.error e, ub') => some (.error e, ub', .primBool b)
    | some (.ok y, ub') =>
      some (.ok (), ub', if phase = .Write then .primBool (y == 1) else .primBool b)
  | .primU8 x =>
    match ub.read_primitive .U8 with
    | none => none
    | some (.error e, ub') => some (.error e, ub', .primU8 x)
    | some (.ok y, ub') =>
      some (.ok (), ub', if phase = .Write then .primU8 y else .primU8 x)
  | .primU32 x =>
    match ub.read_primitive .U32 with
    | none => none
    | some (.error e, ub') => some (.error e, ub', .primU32 x)
    | some (.ok y, ub') =>
      some (.ok (), ub', if phase = .Write then .primU32 y else .primU32 x)
  | .primU64 x =>
    match ub.read_primitive .U64 with
    | none => none
    | some (.error e, ub') => some (.error e, ub', .primU64 x)
    | some (.ok y, ub') =>
      some (.ok (), ub', if phase = .Write then .primU64 y else .primU64 x)
  | .stringV bs =>
    -- `InplaceUnstasher::string_inplace`
    match ub.read_string with
    | none => none
    | some (.error e, ub') => some (.error e, ub', .stringV bs)
    | some (.ok s, ub') =>
      some (.ok (), ub', if phase = .Write then .stringV s else .stringV bs)
  | .arrayU8 xs =>
    -- `InplaceUnstasher::read_primitive_array_vec_inplace`
    match ub.read_primitive_array .U8 with
    | none => none
    | some (.error e, ub') => some (.error e, ub', .arrayU8 xs)
    | some (.ok v, ub') =>
      some (.ok (), ub', if phase = .Write then .arrayU8 v else .arrayU8 xs)
  | .object sub =>
    -- `InplaceUnstasher::object_inplace` → `UnstasherBackend::object_inplace`:
    -- tag, dependency, then `StashMap::unstash_inplace` with the same phase.
    reset_on_error_in
      (fun ub =>
        match ub.read_value_type with
        | (.error e, ub1) => some (.error e, ub1, Decl.object sub)
        | (.ok vt, ub1) =>
          if vt ≠ ValueType.StashedObject then some (.error .WrongValueType, ub1, Decl.object sub)
          else
            match ub1.read_dependency with
            | (.error e, ub2) => some (.error e, ub2, Decl.object sub)
            | (.ok h, ub2) =>
              match map_unstash_inplace m h phase sub with
              | none => none
              | some (.error e, sub') => some (.error e, ub2, Decl.object sub')
              | some (.ok _, sub') => some (.ok (), ub2, Decl.object sub'))
      ub
  | .arrayOfObjects ord elems =>
    -- `InplaceUnstasher::array_of_objects_vec_inplace`: delegates to
    -- `read_array_of_object_vec`, whose `reset_on_error` covers only the
    -- tag, the length and the dependency split; the element reads run
    -- after the rollback wrapper has returned and are not rolled back.
    -- The vector is assigned only in the `Write` phase.
    match read_array_of_object_header ub with
    | none => none
    | some (.error e, ub') => some (.error e, ub', Decl.arrayOfObjects ord elems)
    | some (.ok hashes, ub') =>
      match read_elems m elems hashes with
      | none => none
      | some (.error e) => some (.error e, ub', Decl.arrayOfObjects ord elems)
      | some (.ok vals) =>
        some (.ok (), ub',
          if phase = .Write then Decl.arrayOfObjects ord vals
          else Decl.arrayOfObjects ord elems)
termination_by (sizeOf t, 2)

/-- The canonical in-place reader for a whole field sequence: fields are
processed left to right; an error leaves the remaining fields untouched
(and, during `Write`, earlier fields already assigned). -/
def read_fields_inplace (m : StashMap) (phase : InplaceUnstashPhase) (ts : List Decl) (ub : UB) :
    Option (Except UnstashError Unit × UB × List Decl) :=
  match ts with
  | [] => some (.ok (), ub, [])
  | t :: ts =>
    match read_field_inplace m phase t ub with
    | none => none
    | some (.error e, ub', t') => some (.error e, ub', t' :: ts)
    | some (.ok _, ub', t') =>
      match read_fields_inplace m phase ts ub' with
      | none => none
      | some (.error e, ub'', ts') => some (.error e, ub'', t' :: ts')
      | some (.ok _, ub'', ts') => some (.ok (), ub'', t' :: ts')
termination_by (sizeOf ts, 0)

/-- `StashMap::unstash_inplace` (`lib.rs`) applied to the canonical
in-place reader: look the entry up (panicking when absent), run the
reader with the given phase, and fail with `NotFinished` unless both
cursors were fully consumed. -/
def map_unstash_inplace (m : StashMap) (h : Nat) (phase : InplaceUnstashPhase)
    (ts : List Decl) : Option (Except UnstashError Unit × List Decl) :=
  match lookupObj m h with
  | none => none
  | some obj =>
    match read_fields_inplace m phase ts ⟨obj.bytes, obj.dependencies⟩ with
    | none => none
    | some (.error e, _, ts') => some (.error e, ts')
    | some (.ok _, ub', ts') =>
      if ub'.is_finished then some (.ok (), ts') else some (.error .NotFinished, ts')
termination_by (sizeOf ts, 1)

end

/-- `Stash::unstash_inplace` (`lib.rs`): run the `Validate` phase first
and return its error without touching the `Write` phase when it fails;
only when validation succeeded run the `Write` phase over the same
stored data. -/
def Stash.unstash_inplace (m : StashMap) (h : Nat) (t : List Decl) :
    Option (Except UnstashError Unit × List Decl) :=
  match map_unstash_inplace m h .Validate t with
  | none => none
  | some (.error e, t1) => some (.error e, t1)
  | some (.ok _, t1) => map_unstash_inplace m h .Write t1

/-- `Stasher::u64` in hashing mode (tag byte, then the 8 value bytes). -/
def stasher_u64_hash (hs : HashingStasher) (x : Nat) : HashingStasher :=
  (hs.write_raw_bytes [(ValueType.Primitive .U64).to_byte]).write_raw_bytes (beBytes 8 x)

/-- `HashCache` (`cache.rs`): a wrapped value plus two cached
`(context_hash, object_hash)` entries. -/
structure HashCache where
  entry0 : Option (Nat × Nat)
  entry1 : Option (Nat × Nat)
  value : List Decl

/-- `HashCache::new`: the hash is not yet computed or cached. -/
def HashCache.new (v : List Decl) : HashCache := ⟨none, none, v⟩

/-- `DerefMut for HashCache`: any mutable access clears every cache
entry; the caller may afterwards replace the value arbitrarily. -/
def HashCache.deref_mut (_c : HashCache) (newValue : List Decl) : HashCache :=
  ⟨none, none, newValue⟩

/-- `Stashable::stash` for `HashCache` in hashing mode (`cache.rs`):
search the entries for one matching the context hash and contribute its
cached object hash via `stasher.u64`; otherwise recompute the wrapped
value's object hash, store it in the first empty entry (index 0 when
both are full), and contribute it the same way. -/
def HashCache.stash_hashing (c : HashCache) (context_hash : Nat) (hs : HashingStasher) :
    HashingStasher × HashCache :=
  let found : Option Nat :=
    match c.entry0 with
    | some e0 =>
      if e0.1 = context_hash then some e0.2
      else
        match c.entry1 with
        | some e1 => if e1.1 = context_hash then some e1.2 else none
        | none => none
    | none =>
      match c.entry1 with
      | some e1 => if e1.1 = context_hash then some e1.2 else none
      | none => none
  match found with
  | some oh => (stasher_u64_hash hs oh, c)
  | none =>
    let oh := object_hash c.value
    let next_empty : Nat :=
      match c.entry0, c.entry1 with
      | none, _ => 0
      | some _, none => 1
      | some _, some _ => 0
    ((stasher_u64_hash hs oh),
      if next_empty = 0 then { c with entry0 := some (context_hash, oh) }
      else { c with entry1 := some (context_hash, oh) })

/-- `Stashable::stash` for `HashCache` in serializing mode: just run the
wrapped value's real declaration against the serializing backend. -/
def HashCache.stash_serializing (c : HashCache) (m : StashMap) (data deps : List Nat) :
    List Nat × List Nat × StashMap :=
  serialize_fields m data deps c.value

/-- Every filled cache entry stores the wrapped value's object hash.
This is the invariant that holds whenever the value has not been mutably
accessed since the entry was filled. -/
def HashCache.Consistent (c : HashCache) : Prop :=
  (∀ ch oh, c.entry0 = some (ch, oh) → oh = object_hash c.value) ∧
  (∀ ch oh, c.entry1 = some (ch, oh) → oh = object_hash c.value)

/-- The tag a reader of the given declared shape expects to find. -/
def expected_tag : Decl → ValueType
  | .primBool _ => .Primitive .Bool
  | .primU8 _ => .Primitive .U8
  | .primU32 _ => .Primitive .U32
  | .primU64 _ => .Primitive .U64
  | .stringV _ => .String
  | .arrayU8 _ => .Array .U8
  | .object _ => .StashedObject
  | .arrayOfObjects _ _ => .ArrayOfObjects

/-- `decrease_refcounts_recursive` with the termination bookkeeping
stripped off, for reasoning. -/
def decOne (m : StashMap) (h : Nat) (acc : List Nat) : Option (StashMap × List Nat) :=
  (decrease_refcounts_recursive m h acc).map Subtype.val

/-- `decrease_refcounts_deps` with the termination bookkeeping stripped
off, for reasoning. -/
def decDeps (m : StashMap) (deps acc : List Nat) : Option (StashMap × List Nat) :=
  (decrease_refcounts_deps m deps acc).map Subtype.val

theorem decOne_eq (m : StashMap) (h : Nat) (acc : List Nat) :
    decOne m h acc =
      match lookupObj m h with
      | none => none
      | some obj =>
        if obj.reference_count = 0 then none
        else if obj.reference_count - 1 = 0 then
          decDeps (setRefcount m h (obj.reference_count - 1)) obj.dependencies (acc ++ [h])
        else some (setRefcount m h (obj.reference_count - 1), acc) := by
  unfold decOne decDeps
  rw [decrease_refcounts_recursive]
  split
  · rename_i hm
    simp [hm]
  · rename_i obj hm
    split
    · rename_i h0
      simp [hm, h0]
    · rename_i h0
      by_cases h1 : obj.reference_count - 1 = 0
      · simp only [h1, if_true, hm, h0, if_false]
        split
        · rename_i hd
          simp [hd]
        · rename_i r hr hd
          simp [hd]
      · simp [h1, hm, h0]

theorem decDeps_nil (m : StashMap) (acc : List Nat) : decDeps m [] acc = some (m, acc) := by
  unfold decDeps
  rw [decrease_refcounts_deps]
  simp

theorem decDeps_cons (m : StashMap) (d : Nat) (rest acc : List Nat) :
    decDeps m (d :: rest) acc =
      match decOne m d acc with
      | none => none
      | some r1 => decDeps r1.1 rest r1.2 := by
  unfold decDeps decOne
  rw [decrease_refcounts_deps]
  split
  · rename_i hd
    simp [hd]
  · rename_i r1 h1 hd
    simp only [hd, Option.map_some]
    split
    · rename_i hd2
      simp [hd2]
    · rename_i r hr hd2
      simp [hd2]

theorem remove_reference_eq (m : StashMap) (h : Nat) :
    remove_reference m h =
      match decOne m h [] with
      | none => none
      | some r => removeAll r.1 r.2 := by
  unfold remove_reference decOne
  split
  · rename_i hd
    simp [hd]
  · rename_i r hd
    simp [hd]



theorem beBytes_map_mod (n x : Nat) : (beBytes n x).map (· % 256) = beBytes n x := by
  induction n generalizing x with
  | zero => rfl
  | succ n ih => simp [beBytes, ih, Nat.mod_mod_of_dvd _ (dvd_refl 256)]

theorem stash_fst (m : StashMap) (ds : List Decl) :
    (stash_and_add_reference m ds).1 = object_hash ds := by
  rw [stash_and_add_reference]
  cases lookupObj m (object_hash ds) <;> simp

theorem serialize_elems_deps (es : List (List Decl)) :
    ∀ (m : StashMap) (deps : List Nat),
      (serialize_elems m deps es).1 = deps ++ es.map object_hash := by
  induction es with
  | nil => intro m deps; rw [serialize_elems]; simp
  | cons e es ih =>
    intro m deps
    rw [serialize_elems]
    simp only [ih, stash_fst, List.map_cons]
    simp

theorem lookupObj_append (m l : StashMap) (h : Nat) :
    lookupObj (m ++ l) h =
      match lookupObj m h with
      | some o => some o
      | none => lookupObj l h := by
  induction m with
  | nil => simp [lookupObj]
  | cons p rest ih =>
    obtain ⟨k, o⟩ := p
    by_cases hk : k = h <;> simp [lookupObj, hk, ih]

theorem setRefcount_lookup_ne (m : StashMap) (h h' rc : Nat) (hne : h' ≠ h) :
    lookupObj (setRefcount m h rc) h' = lookupObj m h' := by
  induction m with
  | nil => simp [setRefcount]
  | cons p rest ih =>
    obtain ⟨k, o⟩ := p
    by_cases hk : k = h
    · subst hk
      simp [setRefcount, lookupObj, Ne.symm hne]
    · by_cases hk' : k = h' <;> simp [setRefcount, lookupObj, hk, hk', hne, ih]

theorem setRefcount_lookup_self (m : StashMap) (h rc : Nat) (o : StashedObject)
    (hm : lookupObj m h = some o) :
    lookupObj (setRefcount m h rc) h = some { o with reference_count := rc } := by
  induction m with
  | nil => simp [lookupObj] at hm
  | cons p rest ih =>
    obtain ⟨k, o'⟩ := p
    by_cases hk : k = h
    · simp [lookupObj, hk] at hm
      subst hm
      simp [setRefcount, hk, lookupObj]
    · simp [lookupObj, hk] at hm
      simp [setRefcount, lookupObj, hk, ih hm]

theorem setRefcount_length (m : StashMap) (h rc : Nat) :
    (setRefcount m h rc).length = m.length := by
  induction m with
  | nil => rfl
  | cons p rest ih =>
    obtain ⟨k, o⟩ := p
    by_cases hk : k = h <;> simp [setRefcount, hk, ih]

theorem list_set_append_left (pre suf : List Nat) (i v : Nat) :
    (pre ++ suf).set (pre.length + i) v = pre ++ suf.set i v := by
  induction pre with
  | nil => simp
  | cons a rest ih => simp [List.set, Nat.succ_add, ih]

theorem exists_four {l : List Nat} (h : l.length = 4) : ∃ a b c d, l = [a, b, c, d] := by
  match l, h with
  | [a, b, c, d], _ => exact ⟨a, b, c, d, rfl⟩

theorem patch_u32_append (pre mid suf : List Nat) (len : Nat) (hmid : mid.length = 4) :
    patch_u32 (pre ++ (mid ++ suf)) pre.length len = pre ++ (beBytes 4 len ++ suf) := by
  obtain ⟨a, b, c, d, rfl⟩ := exists_four hmid
  obtain ⟨x0, x1, x2, x3, hbe⟩ := exists_four (beBytes_length 4 len)
  rw [patch_u32, hbe]
  have e0 : (pre ++ ([a, b, c, d] ++ suf)).set (pre.length + 0) x0
      = pre ++ ([x0, b, c, d] ++ suf) := by
    rw [list_set_append_left]
    simp
  have e1 : (pre ++ ([x0, b, c, d] ++ suf)).set (pre.length + 1) x1
      = pre ++ ([x0, x1, c, d] ++ suf) := by
    rw [list_set_append_left]
    simp
  have e2 : (pre ++ ([x0, x1, c, d] ++ suf)).set (pre.length + 2) x2
      = pre ++ ([x0, x1, x2, d] ++ suf) := by
    rw [list_set_append_left]
    simp
  have e3 : (pre ++ ([x0, x1, x2, d] ++ suf)).set (pre.length + 3) x3
      = pre ++ ([x0, x1, x2, x3] ++ suf) := by
    rw [list_set_append_left]
    simp
  simp [List.enum, List.enumFrom, List.foldl, e0, e1, e2, e3]

theorem foldl_swrite_beBytes1 (xs : List Nat) :
    ∀ data : List Nat,
      xs.foldl (fun dacc x => swrite dacc (beBytes 1 x)) data = data ++ xs.map (· % 256) := by
  induction xs with
  | nil => intro data; simp
  | cons x xs ih =>
    intro data
    simp only [List.foldl, ih, List.map_cons]
    simp [swrite, beBytes, Nat.mod_mod_of_dvd _ (dvd_refl 256)]

theorem serialize_field_spec (d : Decl) (m : StashMap) (data deps : List Nat) :
    (serialize_field m data deps d).1 = data ++ field_bytes d ∧
    (serialize_field m data deps d).2.1 = deps ++ field_deps d := by
  cases d with
  | primBool b =>
    rw [serialize_field]
    constructor
    · simp [swrite, field_bytes, ValueType.to_byte, PrimitiveType.to_nibble]
      cases b <;> simp
    · simp [field_deps]
  | primU8 x =>
    rw [serialize_field]
    refine ⟨?_, by simp [field_deps]⟩
    simp [swrite, field_bytes, ValueType.to_byte, PrimitiveType.to_nibble, beBytes_map_mod]
  | primU32 x =>
    rw [serialize_field]
    refine ⟨?_, by simp [field_deps]⟩
    simp [swrite, field_bytes, ValueType.to_byte, PrimitiveType.to_nibble, beBytes_map_mod]
  | primU64 x =>
    rw [serialize_field]
    refine ⟨?_, by simp [field_deps]⟩
    simp [swrite, field_bytes, ValueType.to_byte, PrimitiveType.to_nibble, beBytes_map_mod]
  | stringV bs =>
    rw [serialize_field]
    refine ⟨?_, by simp [field_deps]⟩
    have htag : swrite data [ValueType.String.to_byte] = data ++ [ValueType.String.to_byte] := by
      simp [swrite, ValueType.to_byte]
    simp only [htag]
    have harr : swrite ((data ++ [ValueType.String.to_byte]) ++ [0, 0, 0, 0]) bs
        = (data ++ [ValueType.String.to_byte]) ++ ([0, 0, 0, 0] ++ bs.map (· % 256)) := by
      simp [swrite]
    have hlen : (data ++ [ValueType.String.to_byte]).length = (swrite data [ValueType.String.to_byte]).length := by
      rw [htag]
    simp only [harr]
    rw [patch_u32_append _ _ _ _ (by simp)]
    simp [field_bytes]
  | arrayU8 xs =>
    rw [serialize_field]
    refine ⟨?_, by simp [field_deps]⟩
    have htag : swrite data [(ValueType.Array .U8).to_byte] = data ++ [(ValueType.Array .U8).to_byte] := by
      simp [swrite, ValueType.to_byte, PrimitiveType.to_nibble]
    simp only [htag, foldl_swrite_beBytes1]
    rw [show ((data ++ [(ValueType.Array .U8).to_byte]) ++ [0, 0, 0, 0]) ++ xs.map (· % 256)
        = (data ++ [(ValueType.Array .U8).to_byte]) ++ ([0, 0, 0, 0] ++ xs.map (· % 256)) from by simp]
    rw [patch_u32_append _ _ _ _ (by simp)]
    simp [field_bytes]
  | object fields =>
    rw [serialize_field]
    constructor
    · simp [swrite, field_bytes, ValueType.to_byte]
    · simp [field_deps, stash_fst]
  | arrayOfObjects ord elems =>
    rw [serialize_field]
    constructor
    · have htag : swrite data [ValueType.ArrayOfObjects.to_byte] = data ++ [ValueType.ArrayOfObjects.to_byte] := by
        simp [swrite, ValueType.to_byte]
      simp only [htag]
      rw [show (data ++ [ValueType.ArrayOfObjects.to_byte]) ++ [0, 0, 0, 0]
          = (data ++ [ValueType.ArrayOfObjects.to_byte]) ++ ([0, 0, 0, 0] ++ []) from by simp]
      rw [patch_u32_append _ _ _ _ (by simp)]
      simp [field_bytes]
    · simp [field_deps, serialize_elems_deps]

theorem serialize_fields_spec (ds : List Decl) :
    ∀ (m : StashMap) (data deps : List Nat),
      (serialize_fields m data deps ds).1 = data ++ serial_bytes ds ∧
      (serialize_fields m data deps ds).2.1 = deps ++ serial_deps ds := by
  induction ds with
  | nil =>
    intro m data deps
    rw [serialize_fields]
    simp [serial_bytes, serial_deps]
  | cons d ds ih =>
    intro m data deps
    rw [serialize_fields]
    have hf := serialize_field_spec d m data deps
    have hr := ih (serialize_field m data deps d).2.2 (serialize_field m data deps d).1
      (serialize_field m data deps d).2.1
    rw [hf.1, hf.2] at hr
    simp [hf.1, hf.2, hr.1, hr.2, serial_bytes, serial_deps, List.append_assoc]

theorem lookupObj_single_ne (h h' : Nat) (o : StashedObject) (hne : h' ≠ h) :
    lookupObj [(h, o)] h' = none := by
  simp [lookupObj, Ne.symm hne]

theorem lookup_preserved_all (n : Nat) :
    (∀ ds : List Decl, ∀ (m : StashMap) (data deps : List Nat) (h' : Nat),
      sizeOf ds ≤ n → h' ∉ nestedClosure ds →
      lookupObj (serialize_fields m data deps ds).2.2 h' = lookupObj m h') ∧
    (∀ d : Decl, ∀ (m : StashMap) (data deps : List Nat) (h' : Nat),
      sizeOf d ≤ n → h' ∉ fieldClosure d →
      lookupObj (serialize_field m data deps d).2.2 h' = lookupObj m h') ∧
    (∀ es : List (List Decl), ∀ (m : StashMap) (deps : List Nat) (h' : Nat),
      sizeOf es ≤ n → h' ∉ elemsClosure es →
      lookupObj (serialize_elems m deps es).2 h' = lookupObj m h') ∧
    (∀ ds : List Decl, ∀ (m : StashMap) (h' : Nat),
      sizeOf ds ≤ n → h' ≠ object_hash ds → h' ∉ nestedClosure ds →
      lookupObj (stash_and_add_reference m ds).2 h' = lookupObj m h') := by
  induction n using Nat.strong_induction_on with
  | _ n ih =>
  have hfld : ∀ d : Decl, ∀ (m : StashMap) (data deps : List Nat) (h' : Nat),
      sizeOf d ≤ n → h' ∉ fieldClosure d →
      lookupObj (serialize_field m data deps d).2.2 h' = lookupObj m h' := by
    intro d m data deps h' hsz hcl
    cases d with
    | primBool b => rw [serialize_field]
    | primU8 x => rw [serialize_field]
    | primU32 x => rw [serialize_field]
    | primU64 x => rw [serialize_field]
    | stringV bs => rw [serialize_field]
    | arrayU8 xs => rw [serialize_field]
    | object fields =>
      rw [serialize_field]
      have hlt : sizeOf fields < n := by
        have : sizeOf (Decl.object fields) = 1 + sizeOf fields := by simp
        omega
      have := (ih (sizeOf fields) hlt).2.2.2 fields m h' (le_refl _) ?_ ?_
      · simpa using this
      · intro hcon
        rw [fieldClosure] at hcl
        simp [hcon] at hcl
      · intro hcon
        rw [fieldClosure] at hcl
        simp [hcon] at hcl
    | arrayOfObjects ord elems =>
      rw [serialize_field]
      have hlt : sizeOf elems < n := by
        have : sizeOf (Decl.arrayOfObjects ord elems) = 1 + sizeOf ord + sizeOf elems := by simp
        omega
      have := (ih (sizeOf elems) hlt).2.2.1 elems m deps h' (le_refl _) ?_
      · simpa using this
      · rw [fieldClosure] at hcl
        exact hcl
  have hflds : ∀ ds : List Decl, ∀ (m : StashMap) (data deps : List Nat) (h' : Nat),
      sizeOf ds ≤ n → h' ∉ nestedClosure ds →
      lookupObj (serialize_fields m data deps ds).2.2 h' = lookupObj m h' := by
    intro ds m data deps h' hsz hcl
    cases ds with
    | nil => rw [serialize_fields]
    | cons d ds =>
      rw [serialize_fields]
      rw [nestedClosure] at hcl
      simp only [List.mem_append] at hcl
      push_neg at hcl
      have hszd : sizeOf d ≤ n := by
        have : sizeOf (d :: ds) = 1 + sizeOf d + sizeOf ds := by simp
        omega
      have hltds : sizeOf ds < n := by
        have : sizeOf (d :: ds) = 1 + sizeOf d + sizeOf ds := by simp
        omega
      have h1 := hfld d m data deps h' hszd hcl.1
      have h2 := (ih (sizeOf ds) hltds).1 ds (serialize_field m data deps d).2.2
        (serialize_field m data deps d).1 (serialize_field m data deps d).2.1 h'
        (le_refl _) hcl.2
      rw [h2, h1]
  have helems : ∀ es : List (List Decl), ∀ (m : StashMap) (deps : List Nat) (h' : Nat),
      sizeOf es ≤ n → h' ∉ elemsClosure es →
      lookupObj (serialize_elems m deps es).2 h' = lookupObj m h' := by
    intro es m deps h' hsz hcl
    cases es with
    | nil => rw [serialize_elems]
    | cons e es =>
      rw [serialize_elems]
      rw [elemsClosure] at hcl
      simp only [List.cons_append, List.mem_cons, List.mem_append] at hcl
      push_neg at hcl
      have hsze : sizeOf e < n := by
        have : sizeOf (e :: es) = 1 + sizeOf e + sizeOf es := by simp
        omega
      have hltes : sizeOf es < n := by
        have : sizeOf (e :: es) = 1 + sizeOf e + sizeOf es := by simp
        omega
      have h1 := (ih (sizeOf e) hsze).2.2.2 e m h' (le_refl _) hcl.1 ?_
      · have h2 := (ih (sizeOf es) hltes).2.2.1 es (stash_and_add_reference m e).2
          (deps ++ [(stash_and_add_reference m e).1]) h' (le_refl _) hcl.2.2
        rw [h2, h1]
      · intro hcon
        exact hcl.2.1 hcon
  refine ⟨hflds, hfld, helems, ?_⟩
  intro ds m h' hsz hne hcl
  rw [stash_and_add_reference]
  cases hm : lookupObj m (object_hash ds) with
  | some obj =>
    simp only []
    exact setRefcount_lookup_ne m (object_hash ds) h' _ hne
  | none =>
    simp only [insertObj]
    rw [lookupObj_append]
    rw [hflds ds m [] [] h' hsz hcl]
    cases hlk : lookupObj m h' with
    | some o => simp
    | none => simp [lookupObj_single_ne _ _ _ hne]

theorem serialize_fields_lookup_preserved (ds : List Decl) (m : StashMap)
    (data deps : List Nat) (h' : Nat) (hcl : h' ∉ nestedClosure ds) :
    lookupObj (serialize_fields m data deps ds).2.2 h' = lookupObj m h' :=
  (lookup_preserved_all (sizeOf ds)).1 ds m data deps h' (le_refl _) hcl

theorem stash_lookup_preserved (ds : List Decl) (m : StashMap) (h' : Nat)
    (hne : h' ≠ object_hash ds) (hcl : h' ∉ nestedClosure ds) :
    lookupObj (stash_and_add_reference m ds).2 h' = lookupObj m h' :=
  (lookup_preserved_all (sizeOf ds)).2.2.2 ds m h' (le_refl _) hne hcl

theorem stash_hit_spec (m : StashMap) (ds : List Decl) (obj : StashedObject)
    (hm : lookupObj m (object_hash ds) = some obj) :
    stash_and_add_reference m ds =
      (object_hash ds,
        setRefcount m (object_hash ds) ((obj.reference_count + 1) % 2 ^ 16)) := by
  rw [stash_and_add_reference]
  simp [hm]

theorem stash_miss_spec (m : StashMap) (ds : List Decl)
    (hm : lookupObj m (object_hash ds) = none) :
    stash_and_add_reference m ds =
      (object_hash ds,
        (serialize_fields m [] [] ds).2.2
          ++ [(object_hash ds, ⟨serial_bytes ds, 1, serial_deps ds⟩)]) := by
  rw [stash_and_add_reference]
  have hs := serialize_fields_spec ds m [] []
  simp [hm, insertObj, hs.1, hs.2]

theorem stash_miss_lookup_self (m : StashMap) (ds : List Decl)
    (hm : lookupObj m (object_hash ds) = none)
    (hfr : object_hash ds ∉ nestedClosure ds) :
    lookupObj (stash_and_add_reference m ds).2 (object_hash ds)
      = some ⟨serial_bytes ds, 1, serial_deps ds⟩ := by
  rw [stash_miss_spec m ds hm]
  rw [lookupObj_append]
  rw [serialize_fields_lookup_preserved ds m [] [] _ hfr, hm]
  simp [lookupObj]

theorem stashN_spec (ds : List Decl) (hfr : object_hash ds ∉ nestedClosure ds) :
    ∀ N, 1 ≤ N →
      lookupObj (stashN ds N) (object_hash ds)
        = some ⟨serial_bytes ds, N % 2 ^ 16, serial_deps ds⟩ ∧
      stashN ds (N + 1)
        = setRefcount (stashN ds N) (object_hash ds) ((N % 2 ^ 16 + 1) % 2 ^ 16) := by
  intro N
  induction N with
  | zero => omega
  | succ k ihk =>
    intro _
    rcases Nat.eq_zero_or_pos k with hk | hk
    · subst hk
      have hbase : lookupObj (stashN ds 1) (object_hash ds)
          = some ⟨serial_bytes ds, 1, serial_deps ds⟩ := by
        show lookupObj (Stash.stash (stashN ds 0) ds).2 _ = _
        exact stash_miss_lookup_self [] ds rfl hfr
      constructor
      · simpa using hbase
      · show (Stash.stash (stashN ds 1) ds).2 = _
        unfold Stash.stash
        rw [stash_hit_spec _ _ _ hbase]
        norm_num
    · have ih := ihk hk
      have hlk : lookupObj (stashN ds (k + 1)) (object_hash ds)
          = some ⟨serial_bytes ds, (k + 1) % 2 ^ 16, serial_deps ds⟩ := by
        rw [ih.2]
        have := setRefcount_lookup_self (stashN ds k) (object_hash ds)
          ((k % 2 ^ 16 + 1) % 2 ^ 16) _ ih.1
        rw [this]
        have : (k % 2 ^ 16 + 1) % 2 ^ 16 = (k + 1) % 2 ^ 16 := by
          conv_rhs => rw [Nat.add_mod]
          norm_num
        rw [this]
      refine ⟨hlk, ?_⟩
      show (Stash.stash (stashN ds (k + 1)) ds).2 = _
      unfold Stash.stash
      rw [stash_hit_spec _ _ _ hlk]

theorem serialize_elems_map_nil (m : StashMap) (deps : List Nat) :
    (serialize_elems m deps []).2 = m := by
  rw [serialize_elems]

theorem serialize_fields_no_deps (ds : List Decl) (hnd : serial_deps ds = []) :
    ∀ (m : StashMap) (data deps : List Nat), (serialize_fields m data deps ds).2.2 = m := by
  induction ds with
  | nil => intro m data deps; rw [serialize_fields]
  | cons d ds ih =>
    intro m data deps
    have hsplit : field_deps d = [] ∧ serial_deps ds = [] := by
      rw [serial_deps, List.flatMap_cons] at hnd
      exact List.append_eq_nil.mp hnd
    rw [serialize_fields]
    have hfield : (serialize_field m data deps d).2.2 = m := by
      cases d with
      | primBool b => rw [serialize_field]
      | primU8 x => rw [serialize_field]
      | primU32 x => rw [serialize_field]
      | primU64 x => rw [serialize_field]
      | stringV bs => rw [serialize_field]
      | arrayU8 xs => rw [serialize_field]
      | object fields => simp [field_deps] at hsplit
      | arrayOfObjects ord elems =>
        have helems : elems = [] := by
          have := hsplit.1
          simp [field_deps] at this
          exact this
        subst helems
        rw [serialize_field]
        simp [serialize_elems_map_nil]
    rw [ih hsplit.2]
    rw [hfield]

theorem stashN_num_objects (ds : List Decl) (hfr : object_hash ds ∉ nestedClosure ds) :
    ∀ N, 1 ≤ N → num_objects (stashN ds N) = num_objects (stashN ds 1) := by
  intro N
  induction N with
  | zero => omega
  | succ k ihk =>
    intro _
    rcases Nat.eq_zero_or_pos k with hk | hk
    · subst hk; rfl
    · rw [(stashN_spec ds hfr k hk).2]
      unfold num_objects
      rw [setRefcount_length]
      exact ihk hk

theorem stashN_flat (ds : List Decl) (hfr : object_hash ds ∉ nestedClosure ds)
    (hnd : serial_deps ds = []) :
    ∀ N, 1 ≤ N →
      stashN ds N = [(object_hash ds, ⟨serial_bytes ds, N % 2 ^ 16, serial_deps ds⟩)] := by
  intro N
  induction N with
  | zero => omega
  | succ k ihk =>
    intro _
    rcases Nat.eq_zero_or_pos k with hk | hk
    · subst hk
      show (Stash.stash (stashN ds 0) ds).2 = _
      unfold Stash.stash
      have h0 : stashN ds 0 = ([] : StashMap) := rfl
      rw [h0, stash_miss_spec [] ds rfl, serialize_fields_no_deps ds hnd]
      norm_num
    · rw [(stashN_spec ds hfr k hk).2, ihk hk]
      simp [setRefcount]

/-- **C1, counterexample.**  The claim "stashing N structurally identical
values yields an entry whose reference count is N, for every N ≥ 1" is
false: the reference count is a `u16`, and after `2 ^ 16` stashes of the
same `u8` value it has wrapped around to 0. -/
theorem C1_counterexample :
    ¬ (∀ (ds : List Decl) (N : Nat), 1 ≤ N →
        ∃ obj, lookupObj (stashN ds N) (object_hash ds) = some obj ∧
          obj.reference_count = N) := by
  intro hcl
  have hfr : object_hash [Decl.primU8 123] ∉ nestedClosure [Decl.primU8 123] := by
    simp [nestedClosure, fieldClosure]
  obtain ⟨obj, hobj, hrc⟩ := hcl [Decl.primU8 123] (2 ^ 16) (by norm_num)
  have := (stashN_spec [Decl.primU8 123] hfr (2 ^ 16) (by norm_num)).1
  rw [this] at hobj
  have : obj.reference_count = 2 ^ 16 % 2 ^ 16 := by
    cases hobj
    rfl
  omega

/-- **C1 (amended).**  For every value and every `N ≥ 1` (with the value
not pathologically containing its own hash among its nested hashes),
calling `Stash::stash` `N` times on identical content yields the same
`ObjectHash` every time, one stored entry for that hash whose reference
count is `N mod 2 ^ 16` (equal to `N` whenever `N ≤ 65535`), with bytes
and dependencies exactly those computed by the single first
serialization; after the first call a stash is a pure refcount bump (no
serialization, no new entries), the stored-entry count does not grow,
and for dependency-free content the store holds exactly one entry. -/
theorem C1_dedup_refcount (ds : List Decl) (N : Nat) (hN : 1 ≤ N)
    (hfr : object_hash ds ∉ nestedClosure ds) :
    (∀ m : StashMap, (stash_and_add_reference m ds).1 = object_hash ds) ∧
    lookupObj (stashN ds N) (object_hash ds)
      = some ⟨serial_bytes ds, N % 2 ^ 16, serial_deps ds⟩ ∧
    num_objects (stashN ds N) = num_objects (stashN ds 1) ∧
    (∀ (m : StashMap) (obj : StashedObject),
        lookupObj m (object_hash ds) = some obj →
        stash_and_add_reference m ds
          = (object_hash ds,
              setRefcount m (object_hash ds) ((obj.reference_count + 1) % 2 ^ 16))) ∧
    (serial_deps ds = [] →
      stashN ds N = [(object_hash ds, ⟨serial_bytes ds, N % 2 ^ 16, serial_deps ds⟩)]) := by
  refine ⟨fun m => stash_fst m ds, (stashN_spec ds hfr N hN).1,
    stashN_num_objects ds hfr N hN, fun m obj hm => stash_hit_spec m ds obj hm,
    fun hnd => stashN_flat ds hfr hnd N hN⟩

/-- **C1, witness.**  Three stashes of the single-field `u8` value `123`
from the empty stash: same hash, one entry, refcount 3, bytes `[0x02,
123]`, no dependencies. -/
theorem C1_witness :
    stashN [Decl.primU8 123] 3
      = [(object_hash [Decl.primU8 123], ⟨[0x02, 123], 3, []⟩)] ∧
    num_objects (stashN [Decl.primU8 123] 3) = 1 := by
  have h := C1_dedup_refcount [Decl.primU8 123] 3 (by norm_num)
    (by simp [nestedClosure, fieldClosure])
  have hflat := h.2.2.2.2 (by simp [serial_deps, field_deps])
  have hb : serial_bytes [Decl.primU8 123] = [0x02, 123] := by
    simp [serial_bytes, field_bytes, beBytes, ValueType.to_byte, PrimitiveType.to_nibble]
  have hd : serial_deps [Decl.primU8 123] = [] := by
    simp [serial_deps, field_deps]
  rw [hb, hd] at hflat
  norm_num at hflat
  rw [hflat]
  simp [num_objects]

/-- **C10.**  The reference count is a 16-bit counter bumped by an
unchecked `+ 1` on every stash of identical content and on every handle
clone (`add_reference`); accumulating `2 ^ 16` simultaneous references
wraps it to 0 (modulo `2 ^ 16`), after which removal accounting is
incorrect: the entry is still stored but has reference count 0, one more
stash records `1` reference, and releasing a reference hits the
`debug_assert!(refcount > 0)` / underflow (modelled as the panic value
`none`) instead of cleanly deleting the entry. -/
theorem C10_refcount_overflow (ds : List Decl)
    (hfr : object_hash ds ∉ nestedClosure ds) :
    lookupObj (stashN ds (2 ^ 16)) (object_hash ds)
      = some ⟨serial_bytes ds, 0, serial_deps ds⟩ ∧
    lookupObj (stashN ds (2 ^ 16 + 1)) (object_hash ds)
      = some ⟨serial_bytes ds, 1, serial_deps ds⟩ ∧
    (∀ (m : StashMap) (h : Nat) (obj : StashedObject),
        lookupObj m h = some obj →
        add_reference m h
          = some (setRefcount m h ((obj.reference_count + 1) % 2 ^ 16))) ∧
    remove_reference (stashN ds (2 ^ 16)) (object_hash ds) = none := by
  have h16 := (stashN_spec ds hfr (2 ^ 16) (by norm_num)).1
  have h17 := (stashN_spec ds hfr (2 ^ 16 + 1) (by norm_num)).1
  rw [show (2 ^ 16) % 2 ^ 16 = 0 from by norm_num] at h16
  rw [show (2 ^ 16 + 1) % 2 ^ 16 = 1 from by norm_num] at h17
  refine ⟨h16, h17, ?_, ?_⟩
  · intro m h obj hm
    simp [add_reference, hm]
  · rw [remove_reference_eq, decOne_eq, h16]
    simp

/-- **C10, witness.**  Concrete instance at the `u8` value 7. -/
theorem C10_witness :
    lookupObj (stashN [Decl.primU8 7] (2 ^ 16)) (object_hash [Decl.primU8 7])
      = some ⟨[0x02, 7], 0, []⟩ ∧
    remove_reference (stashN [Decl.primU8 7] (2 ^ 16)) (object_hash [Decl.primU8 7])
      = none := by
  have h := C10_refcount_overflow [Decl.primU8 7] (by simp [nestedClosure, fieldClosure])
  have hb : serial_bytes [Decl.primU8 7] = [0x02, 7] := by
    simp [serial_bytes, field_bytes, beBytes, ValueType.to_byte, PrimitiveType.to_nibble]
  have hd : serial_deps [Decl.primU8 7] = [] := by
    simp [serial_deps, field_deps]
  refine ⟨?_, h.2.2.2⟩
  have := h.1
  rw [hb, hd] at this
  exact this




theorem reset_on_error_restores {α : Type} (f : UB → Option (Except UnstashError α × UB))
    (ub ub' : UB) (e : UnstashError) (hr : reset_on_error f ub = some (.error e, ub')) :
    ub' = ub := by
  unfold reset_on_error at hr
  split at hr
  · exact absurd hr (by simp)
  · rename_i e' ub''
    simp at hr
    exact hr.2.symm
  · rename_i a ub''
    simp at hr

theorem read_primitive_error_restores (ub ub' : UB) (t : PrimitiveType) (e : UnstashError)
    (hr : ub.read_primitive t = some (.error e, ub')) : ub' = ub :=
  reset_on_error_restores _ ub ub' e hr

theorem read_primitive_array_error_restores (ub ub' : UB) (t : PrimitiveType) (e : UnstashError)
    (hr : ub.read_primitive_array t = some (.error e, ub')) : ub' = ub :=
  reset_on_error_restores _ ub ub' e hr

theorem read_string_error_restores (ub ub' : UB) (e : UnstashError)
    (hr : ub.read_string = some (.error e, ub')) : ub' = ub :=
  reset_on_error_restores _ ub ub' e hr

theorem read_field_error_restores (m : StashMap) (shape : Decl) (ub ub' : UB)
    (e : UnstashError)
    (hna : ∀ (ord : Order) (es : List (List Decl)), shape ≠ .arrayOfObjects ord es)
    (hr : read_field m shape ub = some (.error e, ub')) : ub' = ub := by
  cases shape with
  | primBool b =>
    rw [read_field] at hr
    split at hr <;> simp_all
    rename_i e' ub'' heq
    exact read_primitive_error_restores ub ub' .Bool e heq
  | primU8 x =>
    rw [read_field] at hr
    split at hr <;> simp_all
    rename_i e' ub'' heq
    exact read_primitive_error_restores ub ub' .U8 e heq
  | primU32 x =>
    rw [read_field] at hr
    split at hr <;> simp_all
    rename_i e' ub'' heq
    exact read_primitive_error_restores ub ub' .U32 e heq
  | primU64 x =>
    rw [read_field] at hr
    split at hr <;> simp_all
    rename_i e' ub'' heq
    exact read_primitive_error_restores ub ub' .U64 e heq
  | stringV bs =>
    rw [read_field] at hr
    split at hr <;> simp_all
    rename_i e' ub'' heq
    exact read_string_error_restores ub ub' e heq
  | arrayU8 xs =>
    rw [read_field] at hr
    split at hr <;> simp_all
    rename_i e' ub'' heq
    exact read_primitive_array_error_restores ub ub' .U8 e heq
  | object sub =>
    rw [read_field] at hr
    exact reset_on_error_restores _ ub ub' e hr
  | arrayOfObjects ord elems =>
    exact absurd rfl (hna ord elems)

theorem reset_on_error_in_restores {τ : Type} (f : UB → Option (Except UnstashError Unit × UB × τ))
    (ub ub' : UB) (e : UnstashError) (t : τ)
    (hr : reset_on_error_in f ub = some (.error e, ub', t)) : ub' = ub := by
  unfold reset_on_error_in at hr
  split at hr
  · exact absurd hr (by simp)
  · rename_i e' ub'' t''
    simp at hr
    exact hr.2.1.symm
  · rename_i a ub'' t''
    simp at hr

theorem read_field_inplace_error_restores (m : StashMap) (phase : InplaceUnstashPhase)
    (t : Decl) (ub ub' : UB) (e : UnstashError) (t' : Decl)
    (hna : ∀ (ord : Order) (es : List (List Decl)), t ≠ .arrayOfObjects ord es)
    (hr : read_field_inplace m phase t ub = some (.error e, ub', t')) : ub' = ub := by
  cases t with
  | primBool b =>
    rw [read_field_inplace] at hr
    split at hr <;> simp_all
    rename_i e' ub'' heq
    exact read_primitive_error_restores ub ub' .Bool e heq
  | primU8 x =>
    rw [read_field_inplace] at hr
    split at hr <;> simp_all
    rename_i e' ub'' heq
    exact read_primitive_error_restores ub ub' .U8 e heq
  | primU32 x =>
    rw [read_field_inplace] at hr
    split at hr <;> simp_all
    rename_i e' ub'' heq
    exact read_primitive_error_restores ub ub' .U32 e heq
  | primU64 x =>
    rw [read_field_inplace] at hr
    split at hr <;> simp_all
    rename_i e' ub'' heq
    exact read_primitive_error_restores ub ub' .U64 e heq
  | stringV bs =>
    rw [read_field_inplace] at hr
    split at hr <;> simp_all
    rename_i e' ub'' heq
    exact read_string_error_restores ub ub' e heq
  | arrayU8 xs =>
    rw [read_field_inplace] at hr
    split at hr <;> simp_all
    rename_i e' ub'' heq
    exact read_primitive_array_error_restores ub ub' .U8 e heq
  | object sub =>
    rw [read_field_inplace] at hr
    exact reset_on_error_in_restores _ ub ub' e t' hr
  | arrayOfObjects ord elems =>
    exact absurd rfl (hna ord elems)

theorem read_value_type_ok_cursor (ub : UB) (vt : ValueType) (ub1 : UB)
    (h : ub.read_value_type = (.ok vt, ub1)) :
    ub1 = ⟨ub.bytes.drop 1, ub.dependencies⟩ := by
  unfold UB.read_value_type UB.read_byte at h
  cases hb : ub.bytes with
  | nil =>
    rw [hb] at h
    simp at h
  | cons b rest =>
    rw [hb] at h
    simp only [Prod.mk.injEq] at h
    exact h.2.symm

theorem read_value_length_ok_cursor (ub : UB) (len : Nat) (ub2 : UB)
    (h : ub.read_value_length = (.ok len, ub2)) :
    ub2 = ⟨ub.bytes.drop 4, ub.dependencies⟩ := by
  unfold UB.read_value_length at h
  split at h
  · simp at h
  · simp only [Prod.mk.injEq] at h
    exact h.2.symm

/-- A completed object-array header read popped exactly the tag byte,
the four length bytes and the announced number of dependency hashes. -/
theorem read_array_header_ok (ub : UB) (hs : List Nat) (ub' : UB)
    (hr : read_array_of_object_header ub = some (.ok hs, ub')) :
    ∃ len, len ≤ ub.dependencies.length ∧ hs = ub.dependencies.take len ∧
      ub' = ⟨ub.bytes.drop 5, ub.dependencies.drop len⟩ := by
  unfold read_array_of_object_header reset_on_error at hr
  split at hr
  · exact absurd hr (by simp)
  · simp at hr
  · rename_i a ubx heq
    simp only [Option.some.injEq, Prod.mk.injEq, Except.ok.injEq] at hr
    obtain ⟨ha, hub⟩ := hr
    simp only [] at heq
    split at heq
    · simp at heq
    · rename_i vt ub1 hvt
      split at heq
      · simp at heq
      · split at heq
        · simp at heq
        · rename_i len ub2 hlen
          split at heq
          · rename_i hle
            simp only [Option.some.injEq, Prod.mk.injEq, Except.ok.injEq] at heq
            have hub1 := read_value_type_ok_cursor ub vt ub1 hvt
            have hub2 := read_value_length_ok_cursor ub1 len ub2 hlen
            have hdeps2 : ub2.dependencies = ub.dependencies := by
              rw [hub2, hub1]
            have hbytes2 : ub2.bytes = ub.bytes.drop 5 := by
              rw [hub2, hub1]
              simp [List.drop_drop]
            refine ⟨len, ?_, ?_, ?_⟩
            · rw [← hdeps2]
              exact hle
            · rw [← ha, ← heq.1, hdeps2]
            · rw [← hub, ← heq.2, hbytes2, hdeps2]
          · simp at heq

/-- The error half of the header read rolls the cursor back. -/
theorem read_array_header_error (ub : UB) (e : UnstashError) (ub' : UB)
    (hr : read_array_of_object_header ub = some (.error e, ub')) : ub' = ub := by
  unfold read_array_of_object_header at hr
  exact reset_on_error_restores _ ub ub' e hr

/-- A typed error from an object-array read either restored the cursor
(the failure was in the rolled-back header) or left exactly the tag, the
length and the popped dependency hashes consumed (the failure came from
an element read, which runs outside the rollback). -/
theorem read_field_array_error_cursor (m : StashMap) (ord : Order)
    (es : List (List Decl)) (ub ub' : UB) (e : UnstashError)
    (hr : read_field m (.arrayOfObjects ord es) ub = some (.error e, ub')) :
    ub' = ub ∨
    ∃ len, len ≤ ub.dependencies.length ∧
      ub' = ⟨ub.bytes.drop 5, ub.dependencies.drop len⟩ ∧
      read_elems m es (ub.dependencies.take len) = some (.error e) := by
  rw [read_field] at hr
  split at hr
  · exact absurd hr (by simp)
  · rename_i e0 ubx heq
    simp only [Option.some.injEq, Prod.mk.injEq] at hr
    left
    rw [← hr.2]
    exact read_array_header_error ub e0 ubx heq
  · rename_i hs ubx heq
    obtain ⟨len, hle, hhs, hubx⟩ := read_array_header_ok ub hs ubx heq
    split at hr
    · exact absurd hr (by simp)
    · rename_i e0 helems
      simp only [Option.some.injEq, Prod.mk.injEq, Except.error.injEq] at hr
      right
      refine ⟨len, hle, ?_, ?_⟩
      · rw [← hr.2]
        exact hubx
      · rw [← hhs, helems, hr.1]
    · simp at hr

/-- The in-place object-array read shows the same two outcomes. -/
theorem read_field_inplace_array_error_cursor (m : StashMap)
    (phase : InplaceUnstashPhase) (ord : Order) (es : List (List Decl))
    (ub ub' : UB) (e : UnstashError) (t' : Decl)
    (hr : read_field_inplace m phase (.arrayOfObjects ord es) ub
      = some (.error e, ub', t')) :
    ub' = ub ∨
    ∃ len, len ≤ ub.dependencies.length ∧
      ub' = ⟨ub.bytes.drop 5, ub.dependencies.drop len⟩ ∧
      read_elems m es (ub.dependencies.take len) = some (.error e) := by
  rw [read_field_inplace] at hr
  split at hr
  · exact absurd hr (by simp)
  · rename_i e0 ubx heq
    simp only [Option.some.injEq, Prod.mk.injEq] at hr
    left
    rw [← hr.2.1]
    exact read_array_header_error ub e0 ubx heq
  · rename_i hs ubx heq
    obtain ⟨len, hle, hhs, hubx⟩ := read_array_header_ok ub hs ubx heq
    split at hr
    · exact absurd hr (by simp)
    · rename_i e0 helems
      simp only [Option.some.injEq, Prod.mk.injEq, Except.error.injEq] at hr
      right
      refine ⟨len, hle, ?_, ?_⟩
      · rw [← hr.2.1]
        exact hubx
      · rw [← hhs, helems, hr.1]
    · simp at hr

/-- **C4, counterexample.**  The original claim promised cursor
restoration for object arrays too.  Reading a one-element object array
whose element entry holds no bytes fails with the typed error
`OutOfData` coming from the element read — and the cursor, instead of
being restored, has lost the tag byte, the four length bytes and the
popped dependency hash. -/
theorem C4_counterexample :
    read_field [(77, ⟨[], 0, []⟩)] (.arrayOfObjects .Ordered [[Decl.primU8 0]])
        ⟨[0x31, 0, 0, 0, 1], [77]⟩
      = some (.error .OutOfData, ⟨[], []⟩) ∧
    (⟨[], []⟩ : UB) ≠ ⟨[0x31, 0, 0, 0, 1], [77]⟩ := by
  constructor
  · rw [read_field]
    rw [show read_array_of_object_header ⟨[0x31, 0, 0, 0, 1], [77]⟩
        = some (.ok [77], ⟨[], []⟩) from rfl]
    simp only []
    rw [read_elems]
    rw [show map_unstash_with [(77, (⟨[], 0, []⟩ : StashedObject))] 77 [Decl.primU8 0]
        = some (.error .OutOfData) from by
      rw [map_unstash_with]
      rw [show lookupObj [(77, (⟨[], 0, []⟩ : StashedObject))] 77
          = some ⟨[], 0, []⟩ from rfl]
      simp only []
      rw [read_fields]
      rw [show read_field [(77, (⟨[], 0, []⟩ : StashedObject))] (Decl.primU8 0) ⟨[], []⟩
          = some (.error .OutOfData, ⟨[], []⟩) from by
        rw [read_field]
        rfl]]
  · simp

/-- **C4.**  A failed read restores the cursor for primitives, primitive
arrays, strings and single objects — out of place and in place (first
five conjuncts).  For arrays of objects only the header (tag, length,
dependency split) is rolled back: a typed error from an object-array
read either restored the cursor or, when an element read failed, left
exactly the tag byte, the four length bytes and the popped dependency
hashes consumed (last two conjuncts) — so a failed object-array read
can change the outcome of subsequent reads. -/
theorem C4_failed_read_restores_cursor :
    (∀ (ub ub' : UB) (t : PrimitiveType) (e : UnstashError),
      ub.read_primitive t = some (.error e, ub') → ub' = ub) ∧
    (∀ (ub ub' : UB) (t : PrimitiveType) (e : UnstashError),
      ub.read_primitive_array t = some (.error e, ub') → ub' = ub) ∧
    (∀ (ub ub' : UB) (e : UnstashError),
      ub.read_string = some (.error e, ub') → ub' = ub) ∧
    (∀ (m : StashMap) (shape : Decl) (ub ub' : UB) (e : UnstashError),
      (∀ (ord : Order) (es : List (List Decl)), shape ≠ .arrayOfObjects ord es) →
      read_field m shape ub = some (.error e, ub') → ub' = ub) ∧
    (∀ (m : StashMap) (phase : InplaceUnstashPhase) (t : Decl) (ub ub' : UB)
        (e : UnstashError) (t' : Decl),
      (∀ (ord : Order) (es : List (List Decl)), t ≠ .arrayOfObjects ord es) →
      read_field_inplace m phase t ub = some (.error e, ub', t') → ub' = ub) ∧
    (∀ (m : StashMap) (ord : Order) (es : List (List Decl)) (ub ub' : UB)
        (e : UnstashError),
      read_field m (.arrayOfObjects ord es) ub = some (.error e, ub') →
      ub' = ub ∨
      ∃ len, len ≤ ub.dependencies.length ∧
        ub' = ⟨ub.bytes.drop 5, ub.dependencies.drop len⟩ ∧
        read_elems m es (ub.dependencies.take len) = some (.error e)) ∧
    (∀ (m : StashMap) (phase : InplaceUnstashPhase) (ord : Order)
        (es : List (List Decl)) (ub ub' : UB) (e : UnstashError) (t' : Decl),
      read_field_inplace m phase (.arrayOfObjects ord es) ub = some (.error e, ub', t') →
      ub' = ub ∨
      ∃ len, len ≤ ub.dependencies.length ∧
        ub' = ⟨ub.bytes.drop 5, ub.dependencies.drop len⟩ ∧
        read_elems m es (ub.dependencies.take len) = some (.error e)) :=
  ⟨fun ub ub' t e hr => read_primitive_error_restores ub ub' t e hr,
    fun ub ub' t e hr => read_primitive_array_error_restores ub ub' t e hr,
    fun ub ub' e hr => read_string_error_restores ub ub' e hr,
    fun m shape ub ub' e hna hr => read_field_error_restores m shape ub ub' e hna hr,
    fun m phase t ub ub' e t' hna hr =>
      read_field_inplace_error_restores m phase t ub ub' e t' hna hr,
    fun m ord es ub ub' e hr => read_field_array_error_cursor m ord es ub ub' e hr,
    fun m phase ord es ub ub' e t' hr =>
      read_field_inplace_array_error_cursor m phase ord es ub ub' e t' hr⟩

/-- **C4, witness.**  Reading a `u8` primitive from a stream holding a
string tag fails with `WrongValueType` and leaves the cursor exactly
where it was (the tag byte, though consumed inside the attempt, is
rolled back). -/
theorem C4_witness :
    UB.read_primitive ⟨[0x20, 0, 0, 0, 0], [5]⟩ .U8
      = some (.error .WrongValueType, ⟨[0x20, 0, 0, 0, 0], [5]⟩) ∧
    (⟨[0x20, 0, 0, 0, 0], [5]⟩ : UB) = ⟨[0x20, 0, 0, 0, 0], [5]⟩ := by
  have hread : UB.read_primitive ⟨[0x20, 0, 0, 0, 0], [5]⟩ .U8
      = some (.error .WrongValueType, ⟨[0x20, 0, 0, 0, 0], [5]⟩) := by rfl
  exact ⟨hread, C4_failed_read_restores_cursor.1 _ _ .U8 .WrongValueType hread⟩

theorem from_byte_to_byte (vt : ValueType) : ValueType.from_byte vt.to_byte = .ok vt := by
  cases vt with
  | Primitive t => cases t <;> rfl
  | Array t => cases t <;> rfl
  | String => rfl
  | StashedObject => rfl
  | ArrayOfObjects => rfl

theorem from_nibble_error_is_corrupted (n : Nat) (e : UnstashError)
    (he : PrimitiveType.from_nibble n = .error e) : e = .Corrupted := by
  unfold PrimitiveType.from_nibble at he
  split at he <;> simp_all

theorem from_byte_error_is_corrupted (b : Nat) (e : UnstashError)
    (he : ValueType.from_byte b = .error e) : e = .Corrupted := by
  unfold ValueType.from_byte at he
  dsimp only at he
  split at he
  · cases hn : PrimitiveType.from_nibble (b &&& 0x0F) with
    | ok t => rw [hn] at he; simp [Except.map] at he
    | error e' =>
      rw [hn] at he
      simp [Except.map] at he
      rw [← he]
      exact from_nibble_error_is_corrupted _ _ hn
  · cases hn : PrimitiveType.from_nibble (b &&& 0x0F) with
    | ok t => rw [hn] at he; simp [Except.map] at he
    | error e' =>
      rw [hn] at he
      simp [Except.map] at he
      rw [← he]
      exact from_nibble_error_is_corrupted _ _ hn
  · simp_all
  · split at he <;> simp_all
  · simp_all

theorem rvt_nil (deps : List Nat) :
    UB.read_value_type ⟨[], deps⟩ = (.error .OutOfData, ⟨[], deps⟩) := rfl

theorem rvt_cons (b : Nat) (bs deps : List Nat) :
    UB.read_value_type ⟨b :: bs, deps⟩ = (ValueType.from_byte b, ⟨bs, deps⟩) := rfl

theorem read_primitive_nil (t : PrimitiveType) (deps : List Nat) :
    UB.read_primitive ⟨[], deps⟩ t = some (.error .OutOfData, ⟨[], deps⟩) := by
  unfold UB.read_primitive reset_on_error
  simp [rvt_nil]

theorem read_primitive_array_nil (t : PrimitiveType) (deps : List Nat) :
    UB.read_primitive_array ⟨[], deps⟩ t = some (.error .OutOfData, ⟨[], deps⟩) := by
  unfold UB.read_primitive_array reset_on_error
  simp [rvt_nil]

theorem read_string_nil (deps : List Nat) :
    UB.read_string ⟨[], deps⟩ = some (.error .OutOfData, ⟨[], deps⟩) := by
  unfold UB.read_string reset_on_error
  simp [rvt_nil]

theorem read_field_nil (m : StashMap) (shape : Decl) (deps : List Nat) :
    read_field m shape ⟨[], deps⟩ = some (.error .OutOfData, ⟨[], deps⟩) := by
  cases shape <;>
    rw [read_field] <;>
    simp [read_primitive_nil, read_primitive_array_nil, read_string_nil,
      read_array_of_object_header, reset_on_error, rvt_nil]

theorem read_primitive_bad_tag (t : PrimitiveType) (b : Nat) (bs deps : List Nat)
    (hb : ValueType.from_byte b = .error .Corrupted) :
    UB.read_primitive ⟨b :: bs, deps⟩ t = some (.error .Corrupted, ⟨b :: bs, deps⟩) := by
  unfold UB.read_primitive reset_on_error
  simp [rvt_cons, hb]

theorem read_primitive_array_bad_tag (t : PrimitiveType) (b : Nat) (bs deps : List Nat)
    (hb : ValueType.from_byte b = .error .Corrupted) :
    UB.read_primitive_array ⟨b :: bs, deps⟩ t = some (.error .Corrupted, ⟨b :: bs, deps⟩) := by
  unfold UB.read_primitive_array reset_on_error
  simp [rvt_cons, hb]

theorem read_string_bad_tag (b : Nat) (bs deps : List Nat)
    (hb : ValueType.from_byte b = .error .Corrupted) :
    UB.read_string ⟨b :: bs, deps⟩ = some (.error .Corrupted, ⟨b :: bs, deps⟩) := by
  unfold UB.read_string reset_on_error
  simp [rvt_cons, hb]

theorem read_field_bad_tag (m : StashMap) (shape : Decl) (b : Nat) (bs deps : List Nat)
    (hb : ValueType.from_byte b = .error .Corrupted) :
    read_field m shape ⟨b :: bs, deps⟩ = some (.error .Corrupted, ⟨b :: bs, deps⟩) := by
  cases shape <;>
    rw [read_field] <;>
    simp [read_primitive_bad_tag, read_primitive_array_bad_tag, read_string_bad_tag,
      read_array_of_object_header, reset_on_error, rvt_cons, hb]

theorem read_primitive_wrong_tag (t : PrimitiveType) (b : Nat) (vt : ValueType)
    (bs deps : List Nat) (hb : ValueType.from_byte b = .ok vt)
    (hne : vt ≠ .Primitive t) :
    UB.read_primitive ⟨b :: bs, deps⟩ t = some (.error .WrongValueType, ⟨b :: bs, deps⟩) := by
  unfold UB.read_primitive reset_on_error
  simp [rvt_cons, hb, hne]

theorem read_primitive_array_wrong_tag (t : PrimitiveType) (b : Nat) (vt : ValueType)
    (bs deps : List Nat) (hb : ValueType.from_byte b = .ok vt)
    (hne : vt ≠ .Array t) :
    UB.read_primitive_array ⟨b :: bs, deps⟩ t
      = some (.error .WrongValueType, ⟨b :: bs, deps⟩) := by
  unfold UB.read_primitive_array reset_on_error
  simp [rvt_cons, hb, hne]

theorem read_string_wrong_tag (b : Nat) (vt : ValueType) (bs deps : List Nat)
    (hb : ValueType.from_byte b = .ok vt) (hne : vt ≠ .String) :
    UB.read_string ⟨b :: bs, deps⟩ = some (.error .WrongValueType, ⟨b :: bs, deps⟩) := by
  unfold UB.read_string reset_on_error
  simp [rvt_cons, hb, hne]

theorem read_field_wrong_tag (m : StashMap) (shape : Decl) (b : Nat) (vt : ValueType)
    (bs deps : List Nat) (hb : ValueType.from_byte b = .ok vt)
    (hne : vt ≠ expected_tag shape) :
    read_field m shape ⟨b :: bs, deps⟩ = some (.error .WrongValueType, ⟨b :: bs, deps⟩) := by
  cases shape with
  | primBool v =>
    simp only [expected_tag] at hne
    rw [read_field]
    simp [read_primitive_wrong_tag _ b vt bs deps hb hne]
  | primU8 v =>
    simp only [expected_tag] at hne
    rw [read_field]
    simp [read_primitive_wrong_tag _ b vt bs deps hb hne]
  | primU32 v =>
    simp only [expected_tag] at hne
    rw [read_field]
    simp [read_primitive_wrong_tag _ b vt bs deps hb hne]
  | primU64 v =>
    simp only [expected_tag] at hne
    rw [read_field]
    simp [read_primitive_wrong_tag _ b vt bs deps hb hne]
  | stringV v =>
    simp only [expected_tag] at hne
    rw [read_field]
    simp [read_string_wrong_tag b vt bs deps hb hne]
  | arrayU8 v =>
    simp only [expected_tag] at hne
    rw [read_field]
    simp [read_primitive_array_wrong_tag _ b vt bs deps hb hne]
  | object sub =>
    simp only [expected_tag] at hne
    rw [read_field]
    simp [reset_on_error, rvt_cons, hb, hne]
  | arrayOfObjects ord elems =>
    simp only [expected_tag] at hne
    rw [read_field]
    simp [read_array_of_object_header, reset_on_error, rvt_cons, hb, hne]

theorem read_field_object_no_dependency (m : StashMap) (sub : List Decl) (bs : List Nat) :
    read_field m (.object sub) ⟨ValueType.StashedObject.to_byte :: bs, []⟩
      = some (.error .Corrupted, ⟨ValueType.StashedObject.to_byte :: bs, []⟩) := by
  rw [read_field]
  simp [reset_on_error, rvt_cons, from_byte_to_byte, UB.read_dependency]

theorem read_field_string_short_length (m : StashMap) (x : List Nat) (bs deps : List Nat)
    (hlen : bs.length < 4) :
    read_field m (.stringV x) ⟨ValueType.String.to_byte :: bs, deps⟩
      = some (.error .Corrupted, ⟨ValueType.String.to_byte :: bs, deps⟩) := by
  rw [read_field]
  unfold UB.read_string reset_on_error
  simp [rvt_cons, from_byte_to_byte, UB.read_value_length, hlen]

theorem read_primitive_truncated_payload (t : PrimitiveType) (bs deps : List Nat)
    (hlen : bs.length < t.size) :
    UB.read_primitive ⟨(ValueType.Primitive t).to_byte :: bs, deps⟩ t = none := by
  unfold UB.read_primitive reset_on_error
  simp [rvt_cons, from_byte_to_byte, hlen]

/-- **C6, counterexample.**  The claim assigns `OutOfData` to every
"stream shorter than the read requires".  But reading a string from the
stream `[0x20]` — a valid string tag whose 4-byte length prefix is
missing, i.e. a stream shorter than the read requires — fails with
`Corrupted`, not `OutOfData`. -/
theorem C6_counterexample :
    UB.read_string ⟨[0x20], []⟩ = some (.error .Corrupted, ⟨[0x20], []⟩) ∧
    UnstashError.Corrupted ≠ UnstashError.OutOfData := by
  constructor
  · rfl
  · simp

/-- **C6 (amended).**  Failed unstashing reads return typed recoverable
errors with this taxonomy: a missing tag byte (empty stream) yields
`OutOfData`; an unrecognized tag byte yields `Corrupted` (and `Corrupted`
is the only decoding error); a well-formed tag that mismatches the
expected value type yields `WrongValueType`; an exhausted dependency
list yields `Corrupted`; a truncated length prefix (and, in general, a
payload shorter than its prefix announces) yields `Corrupted` rather
than `OutOfData`.  The one non-recoverable exception: a primitive value
whose tag matches but whose payload bytes are truncated is read
unchecked and panics (`none`). -/
theorem C6_error_taxonomy :
    (∀ (m : StashMap) (shape : Decl) (deps : List Nat),
      read_field m shape ⟨[], deps⟩ = some (.error .OutOfData, ⟨[], deps⟩)) ∧
    (∀ (b : Nat) (e : UnstashError), ValueType.from_byte b = .error e → e = .Corrupted) ∧
    (∀ (m : StashMap) (shape : Decl) (b : Nat) (bs deps : List Nat),
      ValueType.from_byte b = .error .Corrupted →
      read_field m shape ⟨b :: bs, deps⟩ = some (.error .Corrupted, ⟨b :: bs, deps⟩)) ∧
    (∀ (m : StashMap) (shape : Decl) (b : Nat) (vt : ValueType) (bs deps : List Nat),
      ValueType.from_byte b = .ok vt → vt ≠ expected_tag shape →
      read_field m shape ⟨b :: bs, deps⟩ = some (.error .WrongValueType, ⟨b :: bs, deps⟩)) ∧
    (∀ (m : StashMap) (sub : List Decl) (bs : List Nat),
      read_field m (.object sub) ⟨ValueType.StashedObject.to_byte :: bs, []⟩
        = some (.error .Corrupted, ⟨ValueType.StashedObject.to_byte :: bs, []⟩)) ∧
    (∀ (m : StashMap) (x : List Nat) (bs deps : List Nat), bs.length < 4 →
      read_field m (.stringV x) ⟨ValueType.String.to_byte :: bs, deps⟩
        = some (.error .Corrupted, ⟨ValueType.String.to_byte :: bs, deps⟩)) ∧
    (∀ (t : PrimitiveType) (bs deps : List Nat), bs.length < t.size →
      UB.read_primitive ⟨(ValueType.Primitive t).to_byte :: bs, deps⟩ t = none) :=
  ⟨read_field_nil,
    from_byte_error_is_corrupted,
    fun m shape b bs deps hb => read_field_bad_tag m shape b bs deps hb,
    fun m shape b vt bs deps hb hne => read_field_wrong_tag m shape b vt bs deps hb hne,
    read_field_object_no_dependency,
    fun m x bs deps hlen => read_field_string_short_length m x bs deps hlen,
    fun t bs deps hlen => read_primitive_truncated_payload t bs deps hlen⟩

/-- **C6, witness.**  Concrete instances of each taxonomy case: an empty
stream (`OutOfData`), the invalid tag byte `0xFF` (`Corrupted`), a `u8`
read against a string tag (`WrongValueType`), an object read with no
dependencies left (`Corrupted`), a string with a truncated length prefix
(`Corrupted`), and a truncated `u64` payload (panic). -/
theorem C6_witness :
    read_field [] (.primU8 0) ⟨[], [7]⟩ = some (.error .OutOfData, ⟨[], [7]⟩) ∧
    read_field [] (.primU8 0) ⟨[0xFF, 3], []⟩ = some (.error .Corrupted, ⟨[0xFF, 3], []⟩) ∧
    read_field [] (.primU8 0) ⟨[0x20, 1], []⟩
      = some (.error .WrongValueType, ⟨[0x20, 1], []⟩) ∧
    read_field [] (.object []) ⟨[0x30], []⟩ = some (.error .Corrupted, ⟨[0x30], []⟩) ∧
    read_field [] (.stringV []) ⟨[0x20, 9], []⟩ = some (.error .Corrupted, ⟨[0x20, 9], []⟩) ∧
    UB.read_primitive ⟨[0x08, 1, 2, 3], []⟩ .U64 = none := by
  refine ⟨C6_error_taxonomy.1 [] (.primU8 0) [7],
    C6_error_taxonomy.2.2.1 [] (.primU8 0) 0xFF [3] [] (by rfl),
    C6_error_taxonomy.2.2.2.1 [] (.primU8 0) 0x20 .String [1] [] (by rfl) (by simp [expected_tag]),
    ?_,
    C6_error_taxonomy.2.2.2.2.2.1 [] [] [9] [] (by simp),
    C6_error_taxonomy.2.2.2.2.2.2 .U64 [1, 2, 3] [] (by simp [PrimitiveType.size])⟩
  exact C6_error_taxonomy.2.2.2.2.1 [] [] []




theorem foldl_pair_inj (n : Nat) : ∀ (l1 l2 : List Nat), l1.length = n → l2.length = n →
    ∀ z : Nat, l1.foldl Nat.pair z = l2.foldl Nat.pair z → l1 = l2 := by
  induction n with
  | zero =>
    intro l1 l2 h1 h2 z _
    rw [List.length_eq_zero.mp h1, List.length_eq_zero.mp h2]
  | succ k ih =>
    intro l1 l2 h1 h2 z heq
    rcases List.eq_nil_or_concat l1 with rfl | ⟨l1', x1, rfl⟩
    · exact absurd h1 (by simp)
    rcases List.eq_nil_or_concat l2 with rfl | ⟨l2', x2, rfl⟩
    · exact absurd h2 (by simp)
    simp only [List.concat_eq_append, List.foldl_append, List.foldl] at heq
    have hp := Nat.pair_eq_pair.mp heq
    simp only [List.concat_eq_append, List.length_append, List.length_singleton] at h1 h2
    have hrec := ih l1' l2' (by omega) (by omega) z hp.1
    rw [hrec, hp.2]

theorem foldl_encE_eq_map (t : List HEvent) (z : Nat) :
    t.foldl (fun a e => Nat.pair a (encE e)) z = (t.map encE).foldl Nat.pair z := by
  induction t generalizing z with
  | nil => rfl
  | cons e t ih => simp [List.foldl, ih]

theorem finishH_inj_map (t1 t2 : List HEvent) (h : finishH t1 = finishH t2) :
    t1.map encE = t2.map encE := by
  unfold finishH at h
  have hp := Nat.pair_eq_pair.mp h
  rw [foldl_encE_eq_map, foldl_encE_eq_map] at hp
  exact foldl_pair_inj t1.length (t1.map encE) (t2.map encE) (by simp) (by simp [← hp.1]) 0 hp.2

theorem hash_elems_unordered (es : List (List Decl)) :
    ∀ (tr : List HEvent) (u : Nat),
      hash_elems ⟨tr, some u⟩ es
        = ⟨tr, some (es.foldl (fun a e => a ^^^ object_hash e) u)⟩ := by
  induction es with
  | nil => intro tr u; rw [hash_elems]; simp
  | cons e es ih =>
    intro tr u
    rw [hash_elems]
    simp only [HashingStasher.stash_dependency]
    rw [ih tr (u ^^^ object_hash e)]
    simp

theorem hash_elems_ordered (es : List (List Decl)) :
    ∀ tr : List HEvent,
      hash_elems ⟨tr, none⟩ es
        = ⟨tr ++ es.map (fun e => HEvent.word64 (object_hash e)), none⟩ := by
  induction es with
  | nil => intro tr; rw [hash_elems]; simp
  | cons e es ih =>
    intro tr
    rw [hash_elems]
    simp only [HashingStasher.stash_dependency, HashingStasher.write_u64]
    rw [ih]
    simp

theorem hash_field_unordered_array (hs : HashingStasher) (es : List (List Decl))
    (hcur : hs.current_unordered_hash = none) :
    hash_field hs (.arrayOfObjects .Unordered es)
      = ⟨hs.trace ++ [.raw [ValueType.ArrayOfObjects.to_byte],
          .word64 (es.foldl (fun a e => a ^^^ object_hash e) 0),
          .word32 (es.length % 2 ^ 32)], none⟩ := by
  rw [hash_field]
  obtain ⟨tr, cur⟩ := hs
  simp only at hcur
  subst hcur
  simp only [HashingStasher.write_raw_bytes, HashingStasher.begin_sequence]
  rw [hash_elems_unordered]
  simp [HashingStasher.end_sequence, HashingStasher.write_u32, ValueType.to_byte]

theorem hash_field_ordered_array (hs : HashingStasher) (es : List (List Decl))
    (hcur : hs.current_unordered_hash = none) :
    hash_field hs (.arrayOfObjects .Ordered es)
      = ⟨hs.trace ++ [.raw [ValueType.ArrayOfObjects.to_byte]]
          ++ es.map (fun e => HEvent.word64 (object_hash e))
          ++ [.word32 (es.length % 2 ^ 32)], none⟩ := by
  rw [hash_field]
  obtain ⟨tr, cur⟩ := hs
  simp only at hcur
  subst hcur
  simp only [HashingStasher.write_raw_bytes, HashingStasher.begin_sequence]
  rw [hash_elems_ordered]
  simp [HashingStasher.end_sequence, HashingStasher.write_u32, ValueType.to_byte]

theorem hash_field_cur_none (hs : HashingStasher) (d : Decl)
    (hcur : hs.current_unordered_hash = none) :
    (hash_field hs d).current_unordered_hash = none := by
  obtain ⟨tr, cur⟩ := hs
  simp only at hcur
  subst hcur
  cases d with
  | primBool b => rw [hash_field]; rfl
  | primU8 x => rw [hash_field]; rfl
  | primU32 x => rw [hash_field]; rfl
  | primU64 x => rw [hash_field]; rfl
  | stringV bs =>
    rw [hash_field]
    simp [HashingStasher.write_raw_bytes, HashingStasher.begin_sequence,
      HashingStasher.end_sequence, HashingStasher.write_u32]
  | arrayU8 xs =>
    rw [hash_field]
    have hfold : ∀ (l : List Nat) (tr' : List HEvent),
        (l.foldl (fun h x => h.write_raw_bytes (beBytes 1 x))
          (⟨tr', none⟩ : HashingStasher)).current_unordered_hash = none := by
      intro l
      induction l with
      | nil => intro tr'; rfl
      | cons x l ih =>
        intro tr'
        simp only [List.foldl, HashingStasher.write_raw_bytes]
        exact ih _
    simp only [HashingStasher.write_raw_bytes, HashingStasher.begin_sequence]
    generalize hgen : (List.foldl _ _ xs : HashingStasher) = hsf
    have : hsf.current_unordered_hash = none := by
      rw [← hgen]
      exact hfold xs _
    obtain ⟨trf, curf⟩ := hsf
    simp only at this
    subst this
    simp [HashingStasher.end_sequence, HashingStasher.write_u32]
  | object fields =>
    rw [hash_field]
    simp [HashingStasher.write_raw_bytes, HashingStasher.stash_dependency,
      HashingStasher.write_u64]
  | arrayOfObjects ord elems =>
    cases ord with
    | Ordered => rw [hash_field_ordered_array _ _ rfl]
    | Unordered => rw [hash_field_unordered_array _ _ rfl]

theorem hash_fields_cur_none (ds : List Decl) :
    ∀ hs : HashingStasher, hs.current_unordered_hash = none →
      (hash_fields hs ds).current_unordered_hash = none := by
  induction ds with
  | nil => intro hs h; rw [hash_fields]; exact h
  | cons d ds ih =>
    intro hs h
    rw [hash_fields]
    exact ih _ (hash_field_cur_none hs d h)

theorem hash_fields_append (xs ys : List Decl) :
    ∀ hs : HashingStasher, hash_fields hs (xs ++ ys) = hash_fields (hash_fields hs xs) ys := by
  induction xs with
  | nil =>
    intro hs
    rw [show ([] : List Decl) ++ ys = ys from by simp,
      show hash_fields hs [] = hs from by rw [hash_fields]]
  | cons x xs ih =>
    intro hs
    rw [List.cons_append, hash_fields, hash_fields]
    exact ih _

theorem xorFold_perm (es es' : List (List Decl)) (p : es.Perm es') (u : Nat) :
    es.foldl (fun a e => a ^^^ object_hash e) u
      = es'.foldl (fun a e => a ^^^ object_hash e) u := by
  refine p.foldl_eq' ?_ u
  intro x _ y _ z
  dsimp only
  rw [Nat.xor_assoc, Nat.xor_assoc, Nat.xor_comm (object_hash x)]

/-- **C5.**  (1) Permuting the elements of an `Order::Unordered` array
of objects leaves the `ObjectHash` unchanged, in any surrounding
declaration context.  (2) Mechanism: the hashing backend combines the
element hashes with XOR and then folds the combined value and the
element count into the outer hash.  (3) An `Order::Ordered` array folds
the element hashes in traversal order, so two ordered arrays of equal
length whose element-hash sequences differ (in particular, the same
elements in an order that changes the hash sequence) hash differently.
-/
theorem C5_order_sensitivity :
    (∀ (pre post : List Decl) (es es' : List (List Decl)), es.Perm es' →
      object_hash (pre ++ .arrayOfObjects .Unordered es :: post)
        = object_hash (pre ++ .arrayOfObjects .Unordered es' :: post)) ∧
    (∀ (hs : HashingStasher) (es : List (List Decl)),
      hs.current_unordered_hash = none →
      hash_field hs (.arrayOfObjects .Unordered es)
        = ⟨hs.trace ++ [.raw [ValueType.ArrayOfObjects.to_byte],
            .word64 (es.foldl (fun a e => a ^^^ object_hash e) 0),
            .word32 (es.length % 2 ^ 32)], none⟩) ∧
    (∀ es es' : List (List Decl), es.length = es'.length →
      es.map object_hash ≠ es'.map object_hash →
      object_hash [.arrayOfObjects .Ordered es]
        ≠ object_hash [.arrayOfObjects .Ordered es']) := by
  refine ⟨?_, fun hs es h => hash_field_unordered_array hs es h, ?_⟩
  · intro pre post es es' p
    unfold object_hash
    rw [hash_fields_append, hash_fields_append]
    have hpre : (hash_fields ⟨[], none⟩ pre).current_unordered_hash = none :=
      hash_fields_cur_none pre _ rfl
    rw [show (Decl.arrayOfObjects Order.Unordered es :: post)
        = [Decl.arrayOfObjects Order.Unordered es] ++ post from rfl]
    rw [show (Decl.arrayOfObjects Order.Unordered es' :: post)
        = [Decl.arrayOfObjects Order.Unordered es'] ++ post from rfl]
    rw [hash_fields_append, hash_fields_append]
    rw [show ∀ hs d, hash_fields hs [d] = hash_field hs d from by
      intro hs d
      rw [hash_fields, hash_fields]]
    rw [show ∀ hs d, hash_fields hs [d] = hash_field hs d from by
      intro hs d
      rw [hash_fields, hash_fields]]
    rw [hash_field_unordered_array _ _ hpre, hash_field_unordered_array _ _ hpre]
    rw [xorFold_perm es es' p, p.length_eq]
  · intro es es' hlen hne hcon
    unfold object_hash at hcon
    rw [show ∀ (hs : HashingStasher) d, hash_fields hs [d] = hash_field hs d from by
      intro hs d
      rw [hash_fields, hash_fields]] at hcon
    rw [show ∀ (hs : HashingStasher) d, hash_fields hs [d] = hash_field hs d from by
      intro hs d
      rw [hash_fields, hash_fields]] at hcon
    rw [hash_field_ordered_array _ _ rfl, hash_field_ordered_array _ _ rfl] at hcon
    have hmap := finishH_inj_map _ _ hcon
    simp only [List.nil_append, List.map_append, List.map_map, List.map_cons,
      List.map_nil] at hmap
    have := List.append_inj hmap (by simp [hlen])
    have hmid := List.append_inj this.1 (by simp)
    have hinner := hmid.2
    apply hne
    have : es.map (encE ∘ fun e => HEvent.word64 (object_hash e))
        = es'.map (encE ∘ fun e => HEvent.word64 (object_hash e)) := hinner
    simp only [Function.comp, encE] at this
    have hmaps : es.map (fun e => 3 * object_hash e + 1)
        = es'.map (fun e => 3 * object_hash e + 1) := this
    have : es.map object_hash = es'.map object_hash := by
      have hinj : Function.Injective (fun x : Nat => 3 * x + 1) := by
        intro a b hab
        simp at hab
        omega
      have h1 : (es.map object_hash).map (fun x => 3 * x + 1)
          = (es'.map object_hash).map (fun x => 3 * x + 1) := by
        simp only [List.map_map]
        exact hmaps
      exact List.map_injective_iff.mpr hinj h1
    exact this

theorem oh_u8_ne : object_hash [Decl.primU8 1] ≠ object_hash [Decl.primU8 2] := by
  intro h
  rw [object_hash, object_hash] at h
  simp only [hash_fields, hash_field, HashingStasher.write_raw_bytes, beBytes] at h
  have hm := finishH_inj_map _ _ h
  simp [encE, encBytes] at hm

/-- **C5, witness.**  Two two-element object arrays with swapped
elements: equal hashes when declared `Unordered`, different hashes when
declared `Ordered`. -/
theorem C5_witness :
    object_hash [.arrayOfObjects .Unordered [[Decl.primU8 1], [Decl.primU8 2]]]
      = object_hash [.arrayOfObjects .Unordered [[Decl.primU8 2], [Decl.primU8 1]]] ∧
    object_hash [.arrayOfObjects .Ordered [[Decl.primU8 1], [Decl.primU8 2]]]
      ≠ object_hash [.arrayOfObjects .Ordered [[Decl.primU8 2], [Decl.primU8 1]]] := by
  constructor
  · have := C5_order_sensitivity.1 [] [] [[Decl.primU8 1], [Decl.primU8 2]]
      [[Decl.primU8 2], [Decl.primU8 1]] (List.Perm.swap _ _ _)
    simpa using this
  · apply C5_order_sensitivity.2.2 _ _ (by simp)
    intro hcon
    simp only [List.map_cons, List.map_nil, List.cons.injEq, and_true] at hcon
    exact oh_u8_ne hcon.1



theorem setRefcount_append_right (l1 l2 : StashMap) (h rc : Nat)
    (hn : lookupObj l1 h = none) :
    setRefcount (l1 ++ l2) h rc = l1 ++ setRefcount l2 h rc := by
  induction l1 with
  | nil => simp
  | cons p rest ih =>
    obtain ⟨k, o⟩ := p
    by_cases hk : k = h
    · simp [lookupObj, hk] at hn
    · simp [lookupObj, hk] at hn
      simp [setRefcount, hk, ih hn]

theorem removeObj_append_right (l1 l2 : StashMap) (h : Nat)
    (hn : lookupObj l1 h = none) :
    removeObj (l1 ++ l2) h = (removeObj l2 h).map (fun r => l1 ++ r) := by
  induction l1 with
  | nil => simp
  | cons p rest ih =>
    obtain ⟨k, o⟩ := p
    by_cases hk : k = h
    · simp [lookupObj, hk] at hn
    · simp [lookupObj, hk] at hn
      simp [removeObj, hk, ih hn]
      cases removeObj l2 h <;> simp

theorem removeAll_skip_head (p : Nat × StashedObject) (rest : StashMap) (ks : List Nat)
    (hk : ∀ k ∈ ks, k ≠ p.1) :
    removeAll (p :: rest) ks = (removeAll rest ks).map (fun r => p :: r) := by
  induction ks generalizing rest with
  | nil => rfl
  | cons k ks ih =>
    have hne : k ≠ p.1 := hk k (by simp)
    obtain ⟨k1, o1⟩ := p
    have hro : removeObj ((k1, o1) :: rest) k
        = (removeObj rest k).map (fun r => (k1, o1) :: r) := by
      have hkk : ¬ (k1 = k) := fun hc => hne (by simp [hc])
      simp [removeObj, hkk]
    rw [removeAll, hro]
    conv_rhs => rw [removeAll]
    cases hrem : removeObj rest k with
    | none => simp [hrem]
    | some rest' =>
      simp only [hrem, Option.map_some]
      exact ih rest' (fun k' hk' => hk k' (by simp [hk']))

theorem removeAll_filter (rows : StashMap) (p : Nat × StashedObject → Bool)
    (hnd : (rows.map Prod.fst).Nodup) :
    removeAll rows ((rows.filter p).map Prod.fst)
      = some (rows.filter (fun r => ! p r)) := by
  induction rows with
  | nil => rfl
  | cons r rest ih =>
    simp only [List.map_cons, List.nodup_cons] at hnd
    by_cases hp : p r
    · rw [List.filter_cons_of_pos hp, List.map_cons, removeAll]
      have hro : removeObj (r :: rest) r.1 = some rest := by
        obtain ⟨k, o⟩ := r
        simp [removeObj]
      rw [hro, List.filter_cons_of_neg (by simp [hp])]
      exact ih hnd.2
    · rw [List.filter_cons_of_neg hp]
      rw [removeAll_skip_head r rest _ ?_]
      · rw [ih hnd.2, List.filter_cons_of_pos (by simp [hp])]
        rfl
      · intro k hkmem
        simp only [List.mem_map] at hkmem
        obtain ⟨q, hq, rfl⟩ := hkmem
        intro hcon
        exact hnd.1 (by
          rw [← hcon]
          exact List.mem_map_of_mem Prod.fst (List.mem_of_mem_filter hq))

/-- One leaf-row decrement step of the dependency loop: the rows sit
contiguously in the map, each with no dependencies of its own and a
positive refcount; processing their hashes decrements each once and
records for removal exactly those whose count was 1. -/
theorem decDeps_leafrow (rows : List (Nat × StashedObject)) :
    ∀ (front back : StashMap) (acc : List Nat),
    (∀ q ∈ rows, lookupObj front q.1 = none) →
    ((rows.map Prod.fst).Nodup) →
    (∀ q ∈ rows, q.2.dependencies = [] ∧ 1 ≤ q.2.reference_count) →
    decDeps (front ++ rows ++ back) (rows.map Prod.fst) acc
      = some (front ++ rows.map
            (fun q => (q.1, { q.2 with reference_count := q.2.reference_count - 1 })) ++ back,
          acc ++ (rows.filter (fun q => q.2.reference_count == 1)).map Prod.fst) := by
  induction rows with
  | nil =>
    intro front back acc _ _ _
    simp [decDeps_nil]
  | cons r rest ih =>
    intro front back acc hfr hnd hrows
    obtain ⟨k, o⟩ := r
    simp only [List.map_cons, List.nodup_cons] at hnd
    have hok := hrows (k, o) (by simp)
    have hlk : lookupObj (front ++ (k, o) :: rest ++ back) k = some o := by
      rw [show front ++ (k, o) :: rest ++ back = front ++ ((k, o) :: (rest ++ back)) from by simp]
      rw [lookupObj_append]
      rw [hfr (k, o) (by simp)]
      simp [lookupObj]
    have hset : ∀ rc, setRefcount (front ++ (k, o) :: rest ++ back) k rc
        = front ++ (k, { o with reference_count := rc }) :: rest ++ back := by
      intro rc
      rw [show front ++ (k, o) :: rest ++ back = front ++ ((k, o) :: (rest ++ back)) from by simp]
      rw [setRefcount_append_right _ _ _ _ (hfr (k, o) (by simp))]
      simp [setRefcount]
    have hok2 : 1 ≤ o.reference_count := hok.2
    have hdeps : o.dependencies = [] := hok.1
    rw [List.map_cons, decDeps_cons, decOne_eq, hlk]
    have hrc1 : ¬ (o.reference_count = 0) := by omega
    simp only [hrc1, if_false]
    have hfrg : ∀ (e : StashedObject), ∀ q ∈ rest,
        lookupObj (front ++ [(k, e)]) q.1 = none := by
      intro e q hq
      rw [lookupObj_append, hfr q (by simp [hq])]
      have hkne : ¬ (k = q.1) := by
        intro hcon
        exact hnd.1 (hcon ▸ List.mem_map_of_mem Prod.fst hq)
      simp [lookupObj, hkne]
    by_cases hone : o.reference_count - 1 = 0
    · -- refcount was 1: push k and recurse into o's empty dependency list
      have hrcone : o.reference_count = 1 := by omega
      simp only [hone, if_true, hset, hdeps, decDeps_nil]
      rw [show front ++ (k, (⟨o.bytes, 0, []⟩ : StashedObject)) :: rest ++ back
          = (front ++ [(k, (⟨o.bytes, 0, []⟩ : StashedObject))]) ++ rest ++ back from by simp]
      rw [ih (front ++ [(k, (⟨o.bytes, 0, []⟩ : StashedObject))]) back (acc ++ [k])
        (hfrg _) hnd.2 (fun q hq => hrows q (by simp [hq]))]
      rw [List.filter_cons_of_pos (by simp [hrcone])]
      simp [hrcone, hdeps]
    · -- refcount was greater than 1: decrement only
      simp only [hone, if_false, hset]
      rw [show front ++ (k, (⟨o.bytes, o.reference_count - 1, o.dependencies⟩ : StashedObject)) :: rest ++ back
          = (front ++ [(k, (⟨o.bytes, o.reference_count - 1, o.dependencies⟩ : StashedObject))]) ++ rest ++ back from by simp]
      rw [ih (front ++ [(k, (⟨o.bytes, o.reference_count - 1, o.dependencies⟩ : StashedObject))]) back acc
        (hfrg _) hnd.2 (fun q hq => hrows q (by simp [hq]))]
      rw [List.filter_cons_of_neg (by simp; omega)]
      simp

theorem remove_reference_decOne_some {m : StashMap} {h : Nat} {m' : StashMap}
    {tr : List Nat} (hd : decOne m h [] = some (m', tr)) :
    remove_reference m h = removeAll m' tr := by
  rw [remove_reference_eq, hd]

theorem serial_deps_map_object (subs : List (List Decl)) :
    serial_deps (subs.map Decl.object) = subs.map object_hash := by
  induction subs with
  | nil => rfl
  | cons s subs ih =>
    simp only [List.map_cons, serial_deps, List.flatMap_cons, field_deps]
    simp only [serial_deps] at ih
    rw [ih]
    rfl

theorem lookupObj_entry_rows (e : List Decl → StashedObject) (subs : List (List Decl))
    (h : Nat) (hne : h ∉ subs.map object_hash) :
    lookupObj (subs.map (fun s => (object_hash s, e s))) h = none := by
  induction subs with
  | nil => rfl
  | cons s subs ih =>
    simp only [List.map_cons, List.mem_cons, not_or] at hne
    have hx : ¬ (object_hash s = h) := fun hc => hne.1 hc.symm
    simp [lookupObj, hx, ih hne.2]

theorem lookupObj_eq_none_iff (m : StashMap) (h : Nat) :
    lookupObj m h = none ↔ h ∉ m.map Prod.fst := by
  induction m with
  | nil => simp [lookupObj]
  | cons p rest ih =>
    obtain ⟨k, o⟩ := p
    by_cases hk : k = h
    · simp [lookupObj, hk]
    · simp only [lookupObj, hk, if_false, List.map_cons, List.mem_cons, not_or]
      rw [ih]
      exact ⟨fun hnm => ⟨fun hc => hk hc.symm, hnm⟩, fun hp => hp.2⟩

theorem setRefcount_mid (l1 l2 : StashMap) (k rc : Nat) (o : StashedObject)
    (hn : lookupObj l1 k = none) :
    setRefcount (l1 ++ (k, o) :: l2) k rc
      = l1 ++ (k, { o with reference_count := rc }) :: l2 := by
  rw [setRefcount_append_right _ _ _ _ hn]
  simp [setRefcount]

theorem stash_objects_map (subs : List (List Decl)) :
    ∀ (m : StashMap) (data deps : List Nat),
    (∀ s ∈ subs, serial_deps s = []) →
    ((subs.map object_hash).Nodup) →
    (∀ s ∈ subs, lookupObj m (object_hash s) = none) →
    (serialize_fields m data deps (subs.map Decl.object)).2.2
      = m ++ subs.map (fun s => (object_hash s, ⟨serial_bytes s, 1, serial_deps s⟩)) := by
  induction subs with
  | nil =>
    intro m data deps _ _ _
    rw [List.map_nil, serialize_fields]
    simp
  | cons s subs ih =>
    intro m data deps hflat hnd hfresh
    simp only [List.map_cons, List.nodup_cons] at hnd ⊢
    rw [serialize_fields]
    have hfield : (serialize_field m data deps (Decl.object s)).2.2
        = m ++ [(object_hash s, ⟨serial_bytes s, 1, serial_deps s⟩)] := by
      rw [serialize_field]
      simp only []
      rw [stash_miss_spec m s (hfresh s (by simp))]
      rw [serialize_fields_no_deps s (hflat s (by simp))]
    have hbytes := serialize_field_spec (Decl.object s) m data deps
    rw [ih (serialize_field m data deps (Decl.object s)).2.2
      (serialize_field m data deps (Decl.object s)).1
      (serialize_field m data deps (Decl.object s)).2.1
      (fun s' hs' => hflat s' (by simp [hs']))
      hnd.2 ?_]
    · rw [hfield]
      simp
    · intro s' hs'
      rw [hfield, lookupObj_append, hfresh s' (by simp [hs'])]
      have hne : ¬ (object_hash s = object_hash s') := by
        intro hc
        exact hnd.1 (hc ▸ List.mem_map_of_mem object_hash hs')
      simp [lookupObj, hne]

/-- **C3.**  A composite whose fields are `M` flat nested sub-objects
with pairwise distinct hashes (all distinct from the composite's own
hash) yields `1 + M` stored entries when stashed into an empty stash.
Releasing the composite's only handle deletes its entry and recursively
decrements each recorded dependency, deleting exactly the entries whose
count reaches zero: with no other references the store becomes empty,
and when one sub-object also holds an independent reference (a second
stash), that entry alone survives, with its count back at 1 and its
bytes and dependencies untouched. -/
theorem C3_cascading_release (subs : List (List Decl))
    (hflat : ∀ s ∈ subs, serial_deps s = [])
    (hnd : (subs.map object_hash).Nodup)
    (hfrH : object_hash (subs.map Decl.object) ∉ subs.map object_hash) :
    num_objects (Stash.stash [] (subs.map Decl.object)).2 = 1 + subs.length ∧
    remove_reference (Stash.stash [] (subs.map Decl.object)).2
      (object_hash (subs.map Decl.object)) = some [] ∧
    (∀ A s B, subs = A ++ s :: B →
      remove_reference
        (stash_and_add_reference (Stash.stash [] (subs.map Decl.object)).2 s).2
        (object_hash (subs.map Decl.object))
        = some [(object_hash s, ⟨serial_bytes s, 1, serial_deps s⟩)]) := by
  set ds := subs.map Decl.object with hds
  set H := object_hash ds with hH
  set rows := subs.map (fun s => (object_hash s, (⟨serial_bytes s, 1, serial_deps s⟩ : StashedObject))) with hrows
  have hrowfst : rows.map Prod.fst = subs.map object_hash := by
    rw [hrows]
    simp
  have hm1 : (Stash.stash [] ds).2
      = rows ++ [(H, ⟨serial_bytes ds, 1, subs.map object_hash⟩)] := by
    unfold Stash.stash
    rw [stash_miss_spec [] ds rfl]
    rw [show (serialize_fields [] [] [] ds).2.2 = [] ++ rows from
      stash_objects_map subs [] [] [] hflat hnd (fun s _ => rfl)]
    rw [serial_deps_map_object]
    simp
  have hlookH : ∀ comp : StashedObject, lookupObj (rows ++ [(H, comp)]) H = some comp := by
    intro comp
    rw [lookupObj_append]
    rw [show lookupObj rows H = none from by
      rw [hrows]
      exact lookupObj_entry_rows _ subs H hfrH]
    simp [lookupObj]
  have hrowcond : ∀ q ∈ rows, q.2.dependencies = [] ∧ 1 ≤ q.2.reference_count := by
    intro q hq
    rw [hrows] at hq
    simp only [List.mem_map] at hq
    obtain ⟨s, hs, rfl⟩ := hq
    exact ⟨hflat s hs, by simp⟩
  have hrowsDec : rows.map (fun q => (q.1, { q.2 with reference_count := q.2.reference_count - 1 }))
      = subs.map (fun s => (object_hash s, (⟨serial_bytes s, 0, serial_deps s⟩ : StashedObject))) := by
    rw [hrows, List.map_map]
    rfl
  refine ⟨?_, ?_, ?_⟩
  · rw [hm1]
    unfold num_objects
    rw [hrows]
    simp [Nat.add_comm]
  · -- releasing the only handle empties the store
    have hfilter : rows.filter (fun q => q.2.reference_count == 1) = rows := by
      rw [List.filter_eq_self]
      intro q hq
      rw [hrows] at hq
      simp only [List.mem_map] at hq
      obtain ⟨s, _, rfl⟩ := hq
      simp
    have hdec : decOne (rows ++ [(H, ⟨serial_bytes ds, 1, subs.map object_hash⟩)]) H []
        = some ([] ++ rows.map (fun q => (q.1, { q.2 with reference_count := q.2.reference_count - 1 }))
              ++ [(H, ⟨serial_bytes ds, 0, rows.map Prod.fst⟩)],
            ([] ++ [H]) ++ (rows.filter (fun q => q.2.reference_count == 1)).map Prod.fst) := by
      rw [decOne_eq, hlookH]
      simp only []
      rw [show setRefcount (rows ++ [(H, (⟨serial_bytes ds, 1, subs.map object_hash⟩ : StashedObject))]) H 0
          = rows ++ [(H, ⟨serial_bytes ds, 0, subs.map object_hash⟩)] from by
        rw [setRefcount_append_right _ _ _ _ (by
          rw [hrows]
          exact lookupObj_entry_rows _ subs H hfrH)]
        simp [setRefcount]]
      rw [if_neg (show ¬ (1 : Nat) = 0 from by norm_num)]
      simp only [Nat.sub_self, if_true]
      rw [show (rows : StashMap) ++ [(H, (⟨serial_bytes ds, 0, subs.map object_hash⟩ : StashedObject))]
          = [] ++ rows ++ [(H, ⟨serial_bytes ds, 0, subs.map object_hash⟩)] from by simp]
      rw [show subs.map object_hash = rows.map Prod.fst from hrowfst.symm]
      rw [decDeps_leafrow rows [] [(H, ⟨serial_bytes ds, 0, rows.map Prod.fst⟩)] ([] ++ [H])
        (fun q _ => rfl) (by rw [hrowfst]; exact hnd) hrowcond]
    rw [hm1, remove_reference_decOne_some hdec]
    rw [hfilter]
    simp only [List.nil_append, List.singleton_append]
    rw [removeAll]
    rw [removeObj_append_right _ _ _ (by
      rw [hrowsDec]
      exact lookupObj_entry_rows _ subs H hfrH)]
    rw [show removeObj [(H, (⟨serial_bytes ds, 0, rows.map Prod.fst⟩ : StashedObject))] H = some [] from by
      simp [removeObj]]
    simp only [Option.map_some', List.append_nil]
    rw [show rows.map Prod.fst
        = ((rows.map (fun q => (q.1, { q.2 with reference_count := q.2.reference_count - 1 }))).filter
            (fun _ => true)).map Prod.fst from by simp]
    rw [removeAll_filter _ _ (by
      rw [hrowsDec]
      rw [show (subs.map fun s => (object_hash s, (⟨serial_bytes s, 0, serial_deps s⟩ : StashedObject))).map Prod.fst
          = subs.map object_hash from by simp]
      exact hnd)]
    simp
  · -- a sub-object with an extra reference survives with refcount 1
    intro A s B hsubs
    have hsmemm : s ∈ subs := by
      rw [hsubs]
      simp
    have hndm : ((object_hash s :: (A.map object_hash ++ B.map object_hash)).Nodup) := by
      rw [hsubs] at hnd
      simp only [List.map_append, List.map_cons] at hnd
      exact (List.nodup_middle).mp hnd
    simp only [List.nodup_cons, List.mem_append, not_or] at hndm
    have hAne : object_hash s ∉ A.map object_hash := hndm.1.1
    have hlks : lookupObj (Stash.stash [] ds).2 (object_hash s)
        = some ⟨serial_bytes s, 1, serial_deps s⟩ := by
      rw [hm1, hrows, hsubs]
      simp only [List.map_append, List.map_cons]
      rw [List.append_assoc, lookupObj_append]
      rw [lookupObj_entry_rows _ A (object_hash s) hAne]
      simp [lookupObj]
    rw [stash_hit_spec _ s _ hlks]
    simp only []
    have hsetm2 : setRefcount (Stash.stash [] ds).2 (object_hash s)
          ((1 + 1) % 2 ^ 16)
        = (A.map (fun t => (object_hash t, (⟨serial_bytes t, 1, serial_deps t⟩ : StashedObject)))
            ++ (object_hash s, (⟨serial_bytes s, 2, serial_deps s⟩ : StashedObject))
            :: B.map (fun t => (object_hash t, (⟨serial_bytes t, 1, serial_deps t⟩ : StashedObject))))
          ++ [(H, ⟨serial_bytes ds, 1, subs.map object_hash⟩)] := by
      rw [hm1, hrows, hsubs]
      simp only [List.map_append, List.map_cons, List.append_assoc, List.cons_append]
      rw [show ((1 + 1) % 2 ^ 16) = 2 from by norm_num]
      rw [setRefcount_mid _ _ _ _ _ (lookupObj_entry_rows _ A (object_hash s) hAne)]
    rw [hsetm2]
    set rows2 := A.map (fun t => (object_hash t, (⟨serial_bytes t, 1, serial_deps t⟩ : StashedObject)))
        ++ (object_hash s, (⟨serial_bytes s, 2, serial_deps s⟩ : StashedObject))
        :: B.map (fun t => (object_hash t, (⟨serial_bytes t, 1, serial_deps t⟩ : StashedObject))) with hrows2
    have hrows2fst : rows2.map Prod.fst = subs.map object_hash := by
      rw [hrows2, hsubs]
      simp only [List.map_append, List.map_cons, List.map_map]
      rfl
    have hlkH2 : lookupObj (rows2 ++ [(H, (⟨serial_bytes ds, 1, subs.map object_hash⟩ : StashedObject))]) H
        = some ⟨serial_bytes ds, 1, subs.map object_hash⟩ := by
      rw [lookupObj_append]
      rw [show lookupObj rows2 H = none from by
        rw [lookupObj_eq_none_iff, hrows2fst]
        exact hfrH]
      simp [lookupObj]
    have hcond3 : ∀ q ∈ rows2, q.2.dependencies = [] ∧ 1 ≤ q.2.reference_count := by
      intro q hq
      rw [hrows2] at hq
      simp only [List.mem_append, List.mem_cons, List.mem_map] at hq
      rcases hq with ⟨t, ht, rfl⟩ | hq2
      · exact ⟨hflat t (by rw [hsubs]; simp [ht]), by simp⟩
      rcases hq2 with rfl | ⟨t, ht, rfl⟩
      · exact ⟨hflat s hsmemm, by simp⟩
      · exact ⟨hflat t (by rw [hsubs]; simp [ht]), by simp⟩
    have hdec3 : decOne (rows2 ++ [(H, ⟨serial_bytes ds, 1, subs.map object_hash⟩)]) H []
        = some ([] ++ rows2.map (fun q => (q.1, { q.2 with reference_count := q.2.reference_count - 1 }))
              ++ [(H, ⟨serial_bytes ds, 0, rows2.map Prod.fst⟩)],
            ([] ++ [H]) ++ (rows2.filter (fun q => q.2.reference_count == 1)).map Prod.fst) := by
      rw [decOne_eq, hlkH2]
      simp only []
      rw [show setRefcount (rows2 ++ [(H, (⟨serial_bytes ds, 1, subs.map object_hash⟩ : StashedObject))]) H 0
          = rows2 ++ [(H, ⟨serial_bytes ds, 0, subs.map object_hash⟩)] from by
        rw [setRefcount_append_right _ _ _ _ (by
          rw [lookupObj_eq_none_iff, hrows2fst]
          exact hfrH)]
        simp [setRefcount]]
      rw [if_neg (show ¬ (1 : Nat) = 0 from by norm_num)]
      simp only [Nat.sub_self, if_true]
      rw [show (rows2 : StashMap) ++ [(H, (⟨serial_bytes ds, 0, subs.map object_hash⟩ : StashedObject))]
          = [] ++ rows2 ++ [(H, ⟨serial_bytes ds, 0, subs.map object_hash⟩)] from by simp]
      rw [show subs.map object_hash = rows2.map Prod.fst from hrows2fst.symm]
      rw [decDeps_leafrow rows2 [] [(H, ⟨serial_bytes ds, 0, rows2.map Prod.fst⟩)] ([] ++ [H])
        (fun q _ => rfl) (by rw [hrows2fst]; exact hnd) hcond3]
    rw [remove_reference_decOne_some hdec3]
    have hfilter2 : rows2.filter (fun q => q.2.reference_count == 1)
        = A.map (fun t => (object_hash t, (⟨serial_bytes t, 1, serial_deps t⟩ : StashedObject)))
          ++ B.map (fun t => (object_hash t, (⟨serial_bytes t, 1, serial_deps t⟩ : StashedObject))) := by
      rw [hrows2]
      rw [List.filter_append, List.filter_cons_of_neg (by simp)]
      rw [List.filter_eq_self.mpr (by
        intro q hq
        simp only [List.mem_map] at hq
        obtain ⟨t, _, rfl⟩ := hq
        simp)]
      rw [List.filter_eq_self.mpr (by
        intro q hq
        simp only [List.mem_map] at hq
        obtain ⟨t, _, rfl⟩ := hq
        simp)]
    rw [hfilter2]
    simp only [List.nil_append, List.singleton_append]
    rw [removeAll]
    have hdec2 : rows2.map (fun q => (q.1, { q.2 with reference_count := q.2.reference_count - 1 }))
        = A.map (fun t => (object_hash t, (⟨serial_bytes t, 0, serial_deps t⟩ : StashedObject)))
          ++ (object_hash s, (⟨serial_bytes s, 1, serial_deps s⟩ : StashedObject))
          :: B.map (fun t => (object_hash t, (⟨serial_bytes t, 0, serial_deps t⟩ : StashedObject))) := by
      rw [hrows2]
      simp only [List.map_append, List.map_cons, List.map_map]
      rfl
    rw [removeObj_append_right _ _ _ (by
      rw [hdec2, lookupObj_eq_none_iff]
      rw [show (A.map (fun t => (object_hash t, (⟨serial_bytes t, 0, serial_deps t⟩ : StashedObject)))
            ++ (object_hash s, (⟨serial_bytes s, 1, serial_deps s⟩ : StashedObject))
            :: B.map (fun t => (object_hash t, (⟨serial_bytes t, 0, serial_deps t⟩ : StashedObject)))).map Prod.fst
          = subs.map object_hash from by rw [hsubs]; simp only [List.map_append, List.map_cons, List.map_map]; rfl]
      exact hfrH)]
    rw [show removeObj [(H, (⟨serial_bytes ds, 0, rows2.map Prod.fst⟩ : StashedObject))] H = some [] from by
      simp [removeObj]]
    simp only [Option.map_some', List.append_nil]
    rw [hdec2]
    have hfinal : removeAll
          (A.map (fun t => (object_hash t, (⟨serial_bytes t, 0, serial_deps t⟩ : StashedObject)))
            ++ (object_hash s, (⟨serial_bytes s, 1, serial_deps s⟩ : StashedObject))
            :: B.map (fun t => (object_hash t, (⟨serial_bytes t, 0, serial_deps t⟩ : StashedObject))))
          (A.map object_hash ++ B.map object_hash)
        = some [(object_hash s, ⟨serial_bytes s, 1, serial_deps s⟩)] := by
      have hkeq : A.map object_hash ++ B.map object_hash
          = ((A.map (fun t => (object_hash t, (⟨serial_bytes t, 0, serial_deps t⟩ : StashedObject)))
            ++ (object_hash s, (⟨serial_bytes s, 1, serial_deps s⟩ : StashedObject))
            :: B.map (fun t => (object_hash t, (⟨serial_bytes t, 0, serial_deps t⟩ : StashedObject)))).filter
              (fun q => q.2.reference_count == 0)).map Prod.fst := by
        rw [List.filter_append, List.filter_cons_of_neg (by simp)]
        rw [List.filter_eq_self.mpr (by
          intro q hq
          simp only [List.mem_map] at hq
          obtain ⟨t, _, rfl⟩ := hq
          simp)]
        rw [List.filter_eq_self.mpr (by
          intro q hq
          simp only [List.mem_map] at hq
          obtain ⟨t, _, rfl⟩ := hq
          simp)]
        simp only [List.map_append, List.map_map]
        rfl
      rw [hkeq]
      rw [removeAll_filter _ _ (by
        rw [show ((A.map (fun t => (object_hash t, (⟨serial_bytes t, 0, serial_deps t⟩ : StashedObject)))
            ++ (object_hash s, (⟨serial_bytes s, 1, serial_deps s⟩ : StashedObject))
            :: B.map (fun t => (object_hash t, (⟨serial_bytes t, 0, serial_deps t⟩ : StashedObject)))).map Prod.fst)
            = subs.map object_hash from by
          rw [hsubs]
          simp only [List.map_append, List.map_cons, List.map_map]
          rfl]
        exact hnd)]
      rw [List.filter_append, List.filter_cons_of_pos (by simp)]
      rw [List.filter_eq_nil.mpr (by
        intro q hq
        simp only [List.mem_map] at hq
        obtain ⟨t, _, rfl⟩ := hq
        simp)]
      rw [List.filter_eq_nil.mpr (by
        intro q hq
        simp only [List.mem_map] at hq
        obtain ⟨t, _, rfl⟩ := hq
        simp)]
      simp
    rw [show (A.map (fun t => (object_hash t, (⟨serial_bytes t, 1, serial_deps t⟩ : StashedObject)))
          ++ B.map (fun t => (object_hash t, (⟨serial_bytes t, 1, serial_deps t⟩ : StashedObject)))).map Prod.fst
        = A.map object_hash ++ B.map object_hash from by
      simp only [List.map_append, List.map_map]
      rfl]
    exact hfinal


/-- The composite of two nested objects hashes a four-event trace while
a single `u8` field hashes a two-event trace, so the two hashes differ. -/
theorem oh_composite_ne (v : Nat) :
    object_hash [Decl.object [Decl.primU8 1], Decl.object [Decl.primU8 2]]
      ≠ object_hash [Decl.primU8 v] := by
  intro h
  rw [object_hash, object_hash] at h
  simp only [hash_fields, hash_field, HashingStasher.write_raw_bytes,
    HashingStasher.stash_dependency, HashingStasher.write_u64, beBytes] at h
  have hm := finishH_inj_map _ _ h
  simp at hm

/-- **C3, witness.**  Concretely: a composite of two distinct `u8`
sub-objects stores three entries; releasing its only handle empties the
store; and after a second stash of the first sub-object, releasing the
composite leaves exactly that sub-object with reference count 1. -/
theorem C3_witness :
    num_objects (Stash.stash []
        ([[Decl.primU8 1], [Decl.primU8 2]].map Decl.object)).2 = 3 ∧
    remove_reference (Stash.stash []
        ([[Decl.primU8 1], [Decl.primU8 2]].map Decl.object)).2
      (object_hash ([[Decl.primU8 1], [Decl.primU8 2]].map Decl.object)) = some [] ∧
    remove_reference
      (stash_and_add_reference (Stash.stash []
          ([[Decl.primU8 1], [Decl.primU8 2]].map Decl.object)).2 [Decl.primU8 1]).2
      (object_hash ([[Decl.primU8 1], [Decl.primU8 2]].map Decl.object))
      = some [(object_hash [Decl.primU8 1],
          ⟨serial_bytes [Decl.primU8 1], 1, serial_deps [Decl.primU8 1]⟩)] := by
  have h := C3_cascading_release [[Decl.primU8 1], [Decl.primU8 2]]
    (by
      intro s hs
      simp only [List.mem_cons, List.not_mem_nil, or_false] at hs
      rcases hs with rfl | rfl <;> rfl)
    (by
      simp only [List.map_cons, List.map_nil, List.nodup_cons, List.mem_cons,
        List.not_mem_nil, or_false, List.nodup_nil, and_true]
      exact ⟨oh_u8_ne, not_false⟩)
    (by
      intro hmem
      simp only [List.map_cons, List.map_nil, List.mem_cons,
        List.not_mem_nil, or_false] at hmem
      rcases hmem with h1 | h2
      · exact oh_composite_ne 1 h1
      · exact oh_composite_ne 2 h2)
  refine ⟨by simpa using h.1, h.2.1, ?_⟩
  exact h.2.2 [] [Decl.primU8 1] [[Decl.primU8 2]] rfl


mutual

/-- `decrease_refcounts_recursive` under an explicit native-call-stack
budget.  The Rust function in `lib.rs` recurses once for every dependency
edge of the cascade; here each nested invocation consumes one stack
frame, outer `none` models stack exhaustion, and `some r` a completed
call returning `r` (itself optional exactly as in the unbounded model). -/
def decOneFuel (fuel : Nat) (m : StashMap) (h : Nat) (acc : List Nat) :
    Option (Option (StashMap × List Nat)) :=
  match fuel with
  | 0 => none
  | fuel + 1 =>
    match lookupObj m h with
    | none => some none
    | some obj =>
      if obj.reference_count = 0 then some none
      else if obj.reference_count - 1 = 0 then
        decDepsFuel fuel (setRefcount m h (obj.reference_count - 1))
          obj.dependencies (acc ++ [h])
      else some (some (setRefcount m h (obj.reference_count - 1), acc))
termination_by (fuel, 0)

/-- The dependency loop of `decOneFuel`: the `for` loop runs inside the
caller's frame, so each nested call gets the caller's remaining budget. -/
def decDepsFuel (fuel : Nat) (m : StashMap) (deps acc : List Nat) :
    Option (Option (StashMap × List Nat)) :=
  match deps with
  | [] => some (some (m, acc))
  | d :: rest =>
    match decOneFuel fuel m d acc with
    | none => none
    | some none => some none
    | some (some r1) => decDepsFuel fuel r1.1 rest r1.2
termination_by (fuel, 1 + deps.length)

end

/-- A linear dependency chain of `n` stashed objects with keys
`k, k+1, …, k+n-1`, each holding one reference and each depending on the
next: the deepest object graph on `n` entries. -/
def chainFrom (k n : Nat) : StashMap :=
  match n with
  | 0 => []
  | 1 => [(k, ⟨[], 1, []⟩)]
  | n + 2 => (k, ⟨[], 1, [k + 1]⟩) :: chainFrom (k + 1) (n + 1)

/-- The chain with every reference count already at zero. -/
def chainZero (k n : Nat) : StashMap :=
  match n with
  | 0 => []
  | 1 => [(k, ⟨[], 0, []⟩)]
  | n + 2 => (k, ⟨[], 0, [k + 1]⟩) :: chainZero (k + 1) (n + 1)

/-- A budget-limited run that completes agrees with the unbounded
recursion: the fuel model only adds the possibility of exhaustion. -/
theorem decOneFuel_sound (fuel : Nat) :
    (∀ m h acc r, decOneFuel fuel m h acc = some r → decOne m h acc = r) ∧
    (∀ m deps acc r, decDepsFuel fuel m deps acc = some r → decDeps m deps acc = r) := by
  induction fuel with
  | zero =>
    constructor
    · intro m h acc r hr
      rw [decOneFuel] at hr
      exact absurd hr (by simp)
    · intro m deps acc r hr
      induction deps generalizing m acc with
      | nil =>
        rw [decDepsFuel] at hr
        rw [decDeps_nil]
        simpa using hr
      | cons d rest ih =>
        rw [decDepsFuel] at hr
        rw [decOneFuel] at hr
        simp only [] at hr
        exact absurd hr (by simp)
  | succ fuel ih =>
    have hone : ∀ m h acc r, decOneFuel (fuel + 1) m h acc = some r → decOne m h acc = r := by
      intro m h acc r hr
      rw [decOneFuel] at hr
      rw [decOne_eq]
      cases hm : lookupObj m h with
      | none =>
        rw [hm] at hr
        simp only [] at hr ⊢
        simpa using hr
      | some obj =>
        rw [hm] at hr
        simp only [] at hr ⊢
        by_cases h0 : obj.reference_count = 0
        · rw [if_pos h0] at hr ⊢
          simpa using hr
        · rw [if_neg h0] at hr ⊢
          by_cases h1 : obj.reference_count - 1 = 0
          · rw [if_pos h1] at hr ⊢
            exact ih.2 _ _ _ _ hr
          · rw [if_neg h1] at hr ⊢
            simpa using hr
    refine ⟨hone, ?_⟩
    intro m deps acc r hr
    induction deps generalizing m acc with
    | nil =>
      rw [decDepsFuel] at hr
      rw [decDeps_nil]
      simpa using hr
    | cons d rest ihd =>
      rw [decDepsFuel] at hr
      rw [decDeps_cons]
      cases hd : decOneFuel (fuel + 1) m d acc with
      | none =>
        rw [hd] at hr
        simp only [] at hr
        exact absurd hr (by simp)
      | some r1 =>
        have hdec := hone m d acc r1 hd
        cases r1 with
        | none =>
          rw [hd] at hr
          simp only [] at hr
          rw [hdec]
          simp only []
          simpa using hr
        | some p =>
          rw [hd] at hr
          simp only [] at hr
          rw [hdec]
          simp only []
          exact ihd p.1 p.2 hr

/-- On a chain of `n + 1` objects, a budget of `n` frames is exhausted:
the recursion needs one nested call per chain edge.  `front` carries the
already-decremented entries (with smaller keys) past the induction. -/
theorem chain_overflow (n : Nat) :
    ∀ fuel front k acc, fuel ≤ n →
      (∀ j, k ≤ j → lookupObj front j = none) →
      decOneFuel fuel (front ++ chainFrom k (n + 1)) k acc = none := by
  induction n with
  | zero =>
    intro fuel front k acc hfuel _
    interval_cases fuel
    rw [decOneFuel]
  | succ n ih =>
    intro fuel front k acc hfuel hfr
    cases fuel with
    | zero => rw [decOneFuel]
    | succ fuel =>
      have hchain : chainFrom k (n + 1 + 1)
          = (k, ⟨[], 1, [k + 1]⟩) :: chainFrom (k + 1) (n + 1) := by
        rw [chainFrom]
      have hlk : lookupObj (front ++ (k, (⟨[], 1, [k + 1]⟩ : StashedObject))
            :: chainFrom (k + 1) (n + 1)) k = some ⟨[], 1, [k + 1]⟩ := by
        rw [lookupObj_append, hfr k le_rfl]
        simp [lookupObj]
      rw [decOneFuel, hchain, hlk]
      show decDepsFuel fuel
          (setRefcount (front ++ (k, ⟨[], 1, [k + 1]⟩) :: chainFrom (k + 1) (n + 1)) k 0)
          [k + 1] (acc ++ [k]) = none
      rw [setRefcount_append_right _ _ _ _ (hfr k le_rfl)]
      rw [show setRefcount ((k, (⟨[], 1, [k + 1]⟩ : StashedObject))
            :: chainFrom (k + 1) (n + 1)) k 0
          = (k, ⟨[], 0, [k + 1]⟩) :: chainFrom (k + 1) (n + 1) from by
        simp [setRefcount]]
      rw [decDepsFuel]
      rw [show (front ++ (k, (⟨[], 0, [k + 1]⟩ : StashedObject)) :: chainFrom (k + 1) (n + 1))
          = (front ++ [(k, ⟨[], 0, [k + 1]⟩)]) ++ chainFrom (k + 1) (n + 1) from by simp]
      rw [ih fuel (front ++ [(k, (⟨[], 0, [k + 1]⟩ : StashedObject))]) (k + 1) (acc ++ [k])
        (by omega)
        (by
          intro j hj
          rw [lookupObj_append, hfr j (by omega)]
          simp only []
          simp only [lookupObj]
          rw [if_neg (by omega)])]

/-- The unbounded recursion does cascade down the whole chain: every
entry is decremented to zero and every key is recorded for removal. -/
theorem chain_decOne (n : Nat) :
    ∀ front k acc,
      (∀ j, k ≤ j → lookupObj front j = none) →
      decOne (front ++ chainFrom k (n + 1)) k acc
        = some (front ++ chainZero k (n + 1), acc ++ List.range' k (n + 1)) := by
  induction n with
  | zero =>
    intro front k acc hfr
    have hchain : chainFrom k 1 = [(k, ⟨[], 1, []⟩)] := by rw [chainFrom]
    have hlk : lookupObj (front ++ [(k, (⟨[], 1, []⟩ : StashedObject))]) k
        = some ⟨[], 1, []⟩ := by
      rw [lookupObj_append, hfr k le_rfl]
      simp [lookupObj]
    rw [decOne_eq, hchain, hlk]
    show decDeps (setRefcount (front ++ [(k, ⟨[], 1, []⟩)]) k 0) [] (acc ++ [k])
        = some (front ++ chainZero k 1, acc ++ List.range' k 1)
    rw [decDeps_nil]
    rw [setRefcount_append_right _ _ _ _ (hfr k le_rfl)]
    rw [show chainZero k 1 = [(k, ⟨[], 0, []⟩)] from by rw [chainZero]]
    simp [setRefcount, List.range']
  | succ n ih =>
    intro front k acc hfr
    have hchain : chainFrom k (n + 1 + 1)
        = (k, ⟨[], 1, [k + 1]⟩) :: chainFrom (k + 1) (n + 1) := by
      rw [chainFrom]
    have hlk : lookupObj (front ++ (k, (⟨[], 1, [k + 1]⟩ : StashedObject))
          :: chainFrom (k + 1) (n + 1)) k = some ⟨[], 1, [k + 1]⟩ := by
      rw [lookupObj_append, hfr k le_rfl]
      simp [lookupObj]
    rw [decOne_eq, hchain, hlk]
    show decDeps
        (setRefcount (front ++ (k, ⟨[], 1, [k + 1]⟩) :: chainFrom (k + 1) (n + 1)) k 0)
        [k + 1] (acc ++ [k])
        = some (front ++ chainZero k (n + 1 + 1), acc ++ List.range' k (n + 1 + 1))
    rw [setRefcount_append_right _ _ _ _ (hfr k le_rfl)]
    rw [show setRefcount ((k, (⟨[], 1, [k + 1]⟩ : StashedObject))
          :: chainFrom (k + 1) (n + 1)) k 0
        = (k, ⟨[], 0, [k + 1]⟩) :: chainFrom (k + 1) (n + 1) from by
      simp [setRefcount]]
    rw [decDeps_cons]
    rw [show (front ++ (k, (⟨[], 0, [k + 1]⟩ : StashedObject)) :: chainFrom (k + 1) (n + 1))
        = (front ++ [(k, ⟨[], 0, [k + 1]⟩)]) ++ chainFrom (k + 1) (n + 1) from by simp]
    rw [ih (front ++ [(k, (⟨[], 0, [k + 1]⟩ : StashedObject))]) (k + 1) (acc ++ [k])
      (by
        intro j hj
        rw [lookupObj_append, hfr j (by omega)]
        simp only []
        simp only [lookupObj]
        rw [if_neg (by omega)])]
    simp only []
    rw [decDeps_nil]
    rw [show chainZero k (n + 1 + 1) = (k, ⟨[], 0, [k + 1]⟩) :: chainZero (k + 1) (n + 1)
      from by rw [chainZero]]
    rw [show List.range' k (n + 1 + 1) = k :: List.range' (k + 1) (n + 1) from
      List.range'_succ k (n + 1) 1]
    simp

/-- Removing the recorded keys deletes the whole zeroed chain. -/
theorem chainZero_removeAll (n : Nat) :
    ∀ k, removeAll (chainZero k (n + 1)) (List.range' k (n + 1)) = some [] := by
  induction n with
  | zero =>
    intro k
    rw [show chainZero k 1 = [(k, ⟨[], 0, []⟩)] from by rw [chainZero]]
    simp [List.range', removeAll, removeObj]
  | succ n ih =>
    intro k
    rw [show chainZero k (n + 1 + 1) = (k, ⟨[], 0, [k + 1]⟩) :: chainZero (k + 1) (n + 1)
      from by rw [chainZero]]
    rw [show List.range' k (n + 1 + 1) = k :: List.range' (k + 1) (n + 1) from
      List.range'_succ k (n + 1) 1]
    rw [removeAll]
    rw [show removeObj ((k, (⟨[], 0, [k + 1]⟩ : StashedObject)) :: chainZero (k + 1) (n + 1)) k
        = some (chainZero (k + 1) (n + 1)) from by simp [removeObj]]
    exact ih (k + 1)

/-- **C7.**  The claim's explicit work-list does not exist:
`decrease_refcounts_recursive` in `lib.rs` recurses on the native call
stack, one nested call per dependency edge (`objects_to_remove` only
defers the deletions).  Formally: on a linear dependency chain of `n + 1`
objects a stack budget of `n` frames is exhausted (first conjunct), even
though any budgeted run that does complete agrees with the unbounded
recursion (second conjunct) and the unbounded recursion itself releases
the whole chain without error (third conjunct) — so the required stack
depth grows without bound in the depth of the stored object graph. -/
theorem C7_callstack_recursion (n : Nat) :
    decOneFuel n (chainFrom 0 (n + 1)) 0 [] = none ∧
    (∀ m h acc r, decOneFuel n m h acc = some r → decOne m h acc = r) ∧
    remove_reference (chainFrom 0 (n + 1)) 0 = some [] := by
  refine ⟨?_, (decOneFuel_sound n).1, ?_⟩
  · have := chain_overflow n n [] 0 [] le_rfl (by intro j _; rfl)
    simpa using this
  · have hdec := chain_decOne n [] 0 [] (by intro j _; rfl)
    simp only [List.nil_append] at hdec
    rw [remove_reference_decOne_some hdec]
    simpa using chainZero_removeAll n 0

/-- During the `Validate` phase no in-place reader assigns to its
target: whatever the cursor does, the returned target is the one passed
in, at every level (single field, field sequence, whole object).  Strong
induction on the size of the declaration. -/
theorem validate_preserves (n : Nat) :
    (∀ t : Decl, sizeOf t ≤ n → ∀ (m : StashMap) (ub : UB) r,
      read_field_inplace m .Validate t ub = some r → r.2.2 = t) ∧
    (∀ ts : List Decl, sizeOf ts ≤ n → ∀ (m : StashMap) (ub : UB) r,
      read_fields_inplace m .Validate ts ub = some r → r.2.2 = ts) ∧
    (∀ ts : List Decl, sizeOf ts ≤ n → ∀ (m : StashMap) (h : Nat) r,
      map_unstash_inplace m h .Validate ts = some r → r.2 = ts) := by
  induction n using Nat.strong_induction_on with
  | _ n ih =>
    have hfield : ∀ t : Decl, sizeOf t ≤ n → ∀ (m : StashMap) (ub : UB) r,
        read_field_inplace m .Validate t ub = some r → r.2.2 = t := by
      intro t hsz m ub r hr
      obtain ⟨st, ub2, t2⟩ := r
      cases t with
      | primBool b =>
        rw [read_field_inplace] at hr
        clear ih hsz
        split at hr <;> simp_all
      | primU8 x =>
        rw [read_field_inplace] at hr
        clear ih hsz
        split at hr <;> simp_all
      | primU32 x =>
        rw [read_field_inplace] at hr
        clear ih hsz
        split at hr <;> simp_all
      | primU64 x =>
        rw [read_field_inplace] at hr
        clear ih hsz
        split at hr <;> simp_all
      | stringV bs =>
        rw [read_field_inplace] at hr
        clear ih hsz
        split at hr <;> simp_all
      | arrayU8 xs =>
        rw [read_field_inplace] at hr
        clear ih hsz
        split at hr <;> simp_all
      | object sub =>
        have hsub : sizeOf sub < n := by
          have h1 : sizeOf sub < sizeOf (Decl.object sub) := by
            simp only [Decl.object.sizeOf_spec]
            omega
          omega
        have ihsub : ∀ (m' : StashMap) (h' : Nat) (st' : Except UnstashError Unit)
            (sub' : List Decl),
            map_unstash_inplace m' h' .Validate sub = some (st', sub') → sub' = sub := by
          intro m' h' st' sub' hmm
          exact (ih (sizeOf sub) hsub).2.2 sub le_rfl m' h' _ hmm
        clear ih hsz
        rw [read_field_inplace] at hr
        unfold reset_on_error_in at hr
        split at hr
        · exact absurd hr (by simp)
        · rename_i e ubx tx heq
          simp only [Option.some.injEq, Prod.mk.injEq] at hr
          obtain ⟨-, -, ht2⟩ := hr
          simp only [] at heq
          split at heq <;> try simp_all
          rename_i vt ub1 hvt
          split at heq <;> try simp_all
          split at heq <;> try simp_all
          rename_i hdep
          split at heq
          · exact absurd heq (by simp)
          · rename_i e2 sub2 hmap
            have hs := ihsub _ _ _ _ hmap
            simp only [Option.some.injEq, Prod.mk.injEq] at heq
            simp_all
          · rename_i sub2 hmap
            have hs := ihsub _ _ _ _ hmap
            simp only [Option.some.injEq, Prod.mk.injEq] at heq
            simp_all
        · rename_i a ubx tx heq
          simp only [Option.some.injEq, Prod.mk.injEq] at hr
          obtain ⟨-, -, ht2⟩ := hr
          simp only [] at heq
          split at heq <;> try simp_all
          rename_i vt ub1 hvt
          split at heq <;> try simp_all
          split at heq <;> try simp_all
          rename_i hdep
          split at heq
          · exact absurd heq (by simp)
          · rename_i e2 sub2 hmap
            have hs := ihsub _ _ _ _ hmap
            simp only [Option.some.injEq, Prod.mk.injEq] at heq
            simp_all
          · rename_i sub2 hmap
            have hs := ihsub _ _ _ _ hmap
            simp only [Option.some.injEq, Prod.mk.injEq] at heq
            simp_all
      | arrayOfObjects ord elems =>
        rw [read_field_inplace] at hr
        clear ih hsz
        split at hr
        · exact absurd hr (by simp)
        · simp only [Option.some.injEq, Prod.mk.injEq] at hr
          obtain ⟨-, -, ht2⟩ := hr
          simp [← ht2]
        · split at hr
          · exact absurd hr (by simp)
          · simp only [Option.some.injEq, Prod.mk.injEq] at hr
            obtain ⟨-, -, ht2⟩ := hr
            simp [← ht2]
          · simp only [Option.some.injEq, Prod.mk.injEq] at hr
            obtain ⟨-, -, ht2⟩ := hr
            simp [← ht2]
    have hfields : ∀ ts : List Decl, sizeOf ts ≤ n → ∀ (m : StashMap) (ub : UB) r,
        read_fields_inplace m .Validate ts ub = some r → r.2.2 = ts := by
      intro ts
      induction ts with
      | nil =>
        intro _ m ub r hr
        obtain ⟨st, ub2, ts2⟩ := r
        rw [read_fields_inplace] at hr
        simp only [Option.some.injEq, Prod.mk.injEq] at hr
        obtain ⟨-, -, h⟩ := hr
        simp [← h]
      | cons t ts iht =>
        intro hsz m ub r hr
        obtain ⟨st, ub2, ts2⟩ := r
        have hszs : sizeOf t ≤ n ∧ sizeOf ts ≤ n := by
          simp at hsz
          omega
        rw [read_fields_inplace] at hr
        split at hr
        · exact absurd hr (by simp)
        · rename_i e ubx tx heq
          have hx := hfield t hszs.1 m ub _ heq
          simp at hx
          simp only [Option.some.injEq, Prod.mk.injEq] at hr
          obtain ⟨-, -, hts2⟩ := hr
          simp [← hts2, hx]
        · rename_i ubx tx heq
          have hx := hfield t hszs.1 m ub _ heq
          simp at hx
          split at hr
          · exact absurd hr (by simp)
          · rename_i e ubs tss heqs
            have hs := iht hszs.2 m ubx _ heqs
            simp at hs
            simp only [Option.some.injEq, Prod.mk.injEq] at hr
            obtain ⟨-, -, hts2⟩ := hr
            simp [← hts2, hx, hs]
          · rename_i ubs tss heqs
            have hs := iht hszs.2 m ubx _ heqs
            simp at hs
            simp only [Option.some.injEq, Prod.mk.injEq] at hr
            obtain ⟨-, -, hts2⟩ := hr
            simp [← hts2, hx, hs]
    refine ⟨hfield, hfields, ?_⟩
    intro ts hsz m h r hr
    obtain ⟨st, ts2⟩ := r
    rw [map_unstash_inplace] at hr
    split at hr
    · exact absurd hr (by simp)
    · rename_i obj hobj
      split at hr
      · exact absurd hr (by simp)
      · rename_i e ubx tsx heq
        have hx := hfields ts hsz m _ _ heq
        simp at hx
        simp only [Option.some.injEq, Prod.mk.injEq] at hr
        obtain ⟨-, hts2⟩ := hr
        simp [← hts2, hx]
      · rename_i ubx tsx heq
        have hx := hfields ts hsz m _ _ heq
        simp at hx
        split at hr <;>
          · simp only [Option.some.injEq, Prod.mk.injEq] at hr
            obtain ⟨-, hts2⟩ := hr
            simp [← hts2, hx]

/-- **C2.**  The `Validate` pass never writes to the target: any result
it returns carries the target unchanged (first conjunct); when it fails,
`Stash::unstash_inplace` returns exactly that error with the target
untouched and the `Write` pass is never run (second conjunct); the
`Write` pass runs only after the `Validate` pass succeeded, on the
unchanged target (third conjunct). -/
theorem C2_validate_pass_pure (m : StashMap) (h : Nat) (t : List Decl) :
    (∀ r, map_unstash_inplace m h .Validate t = some r → r.2 = t) ∧
    (∀ e t1, map_unstash_inplace m h .Validate t = some (.error e, t1) →
      Stash.unstash_inplace m h t = some (.error e, t)) ∧
    (∀ t1, map_unstash_inplace m h .Validate t = some (.ok (), t1) →
      Stash.unstash_inplace m h t = map_unstash_inplace m h .Write t) := by
  have hpres := (validate_preserves (sizeOf t)).2.2 t le_rfl m h
  refine ⟨fun r hr => hpres r hr, ?_, ?_⟩
  · intro e t1 hr
    have ht1 : t1 = t := hpres _ hr
    unfold Stash.unstash_inplace
    rw [hr]
    simp only []
    rw [ht1]
  · intro t1 hr
    have ht1 : t1 = t := hpres _ hr
    unfold Stash.unstash_inplace
    rw [hr]
    simp only []
    rw [ht1]

/-- **C2, witness.**  A stored `bool` under a target declared `u8`: the
`Validate` pass fails with `WrongValueType` and `unstash_inplace`
returns that error with the target exactly as it was. -/
theorem C2_witness :
    Stash.unstash_inplace [(9, ⟨[0x01, 1], 1, []⟩)] 9 [Decl.primU8 5]
      = some (.error .WrongValueType, [Decl.primU8 5]) := by
  have hval : map_unstash_inplace [(9, ⟨[0x01, 1], 1, []⟩)] 9 .Validate [Decl.primU8 5]
      = some (.error .WrongValueType, [Decl.primU8 5]) := by
    rw [map_unstash_inplace]
    rw [show lookupObj [(9, (⟨[0x01, 1], 1, []⟩ : StashedObject))] 9
        = some ⟨[0x01, 1], 1, []⟩ from rfl]
    simp only []
    rw [read_fields_inplace.eq_def]
    simp only []
    rw [read_field_inplace]
    rfl
  exact (C2_validate_pass_pure _ _ _).2.1 _ _ hval

/-- **C9.**  A fresh or mutably-accessed `HashCache` has every entry
cleared, so its cached-hash invariant holds vacuously (first two
conjuncts); hashing-mode stashing keeps the invariant and the wrapped
value (third and fifth conjuncts) and — whenever the invariant holds,
i.e. the value was not mutably accessed since the entries were filled —
contributes exactly the wrapped value's object hash via `stasher.u64`,
identically on a cache hit and on a recomputation (fourth conjunct);
serializing-mode stashing always runs the wrapped value's real
declaration sequence (last conjunct). -/
theorem C9_hashcache_transparent (v newV : List Decl) (c : HashCache) (ch : Nat)
    (hs : HashingStasher) (hc : c.Consistent) :
    (HashCache.new v).Consistent ∧
    (c.deref_mut newV).Consistent ∧
    (c.stash_hashing ch hs).2.Consistent ∧
    (c.stash_hashing ch hs).1 = stasher_u64_hash hs (object_hash c.value) ∧
    (c.stash_hashing ch hs).2.value = c.value ∧
    ∀ (m : StashMap) (data deps : List Nat),
      c.stash_serializing m data deps = serialize_fields m data deps c.value := by
  obtain ⟨e0, e1, val⟩ := c
  obtain ⟨hc0, hc1⟩ := hc
  have hnew : (HashCache.new v).Consistent := by
    constructor <;> (intro ch' oh' h; simp [HashCache.new] at h)
  have hmut : (HashCache.deref_mut ⟨e0, e1, val⟩ newV).Consistent := by
    constructor <;> (intro ch' oh' h; simp [HashCache.deref_mut] at h)
  have key : ((⟨e0, e1, val⟩ : HashCache).stash_hashing ch hs).2.Consistent ∧
      ((⟨e0, e1, val⟩ : HashCache).stash_hashing ch hs).1
        = stasher_u64_hash hs (object_hash val) ∧
      ((⟨e0, e1, val⟩ : HashCache).stash_hashing ch hs).2.value = val := by
    cases e0 with
    | some p0 =>
      obtain ⟨a0, b0⟩ := p0
      by_cases h0 : a0 = ch
      · -- hit in entry 0
        subst h0
        have hb0 : b0 = object_hash val := hc0 a0 b0 rfl
        have hres : (⟨some (a0, b0), e1, val⟩ : HashCache).stash_hashing a0 hs
            = (stasher_u64_hash hs b0, ⟨some (a0, b0), e1, val⟩) := by
          simp [HashCache.stash_hashing]
        rw [hres]
        exact ⟨⟨hc0, hc1⟩, by rw [hb0], rfl⟩
      · cases e1 with
        | some p1 =>
          obtain ⟨a1, b1⟩ := p1
          by_cases h1 : a1 = ch
          · -- hit in entry 1
            subst h1
            have hb1 : b1 = object_hash val := hc1 a1 b1 rfl
            have hres : (⟨some (a0, b0), some (a1, b1), val⟩ : HashCache).stash_hashing a1 hs
                = (stasher_u64_hash hs b1, ⟨some (a0, b0), some (a1, b1), val⟩) := by
              simp [HashCache.stash_hashing, h0]
            rw [hres]
            exact ⟨⟨hc0, hc1⟩, by rw [hb1], rfl⟩
          · -- miss with both entries full: recompute into entry 0
            have hres : (⟨some (a0, b0), some (a1, b1), val⟩ : HashCache).stash_hashing ch hs
                = (stasher_u64_hash hs (object_hash val),
                  ⟨some (ch, object_hash val), some (a1, b1), val⟩) := by
              simp [HashCache.stash_hashing, h0, h1]
            rw [hres]
            refine ⟨⟨?_, ?_⟩, rfl, rfl⟩
            · intro ch' oh' h
              simp at h
              exact h.2.symm
            · intro ch' oh' h
              exact hc1 ch' oh' h
        | none =>
          -- miss with an empty entry 1: recompute into entry 1
          have hres : (⟨some (a0, b0), none, val⟩ : HashCache).stash_hashing ch hs
              = (stasher_u64_hash hs (object_hash val),
                ⟨some (a0, b0), some (ch, object_hash val), val⟩) := by
            simp [HashCache.stash_hashing, h0]
          rw [hres]
          refine ⟨⟨?_, ?_⟩, rfl, rfl⟩
          · intro ch' oh' h
            exact hc0 ch' oh' h
          · intro ch' oh' h
            simp at h
            exact h.2.symm
    | none =>
      cases e1 with
      | some p1 =>
        obtain ⟨a1, b1⟩ := p1
        by_cases h1 : a1 = ch
        · subst h1
          have hb1 : b1 = object_hash val := hc1 a1 b1 rfl
          have hres : (⟨none, some (a1, b1), val⟩ : HashCache).stash_hashing a1 hs
              = (stasher_u64_hash hs b1, ⟨none, some (a1, b1), val⟩) := by
            simp [HashCache.stash_hashing]
          rw [hres]
          exact ⟨⟨hc0, hc1⟩, by rw [hb1], rfl⟩
        · have hres : (⟨none, some (a1, b1), val⟩ : HashCache).stash_hashing ch hs
              = (stasher_u64_hash hs (object_hash val),
                ⟨some (ch, object_hash val), some (a1, b1), val⟩) := by
            simp [HashCache.stash_hashing, h1]
          rw [hres]
          refine ⟨⟨?_, ?_⟩, rfl, rfl⟩
          · intro ch' oh' h
            simp at h
            exact h.2.symm
          · intro ch' oh' h
            exact hc1 ch' oh' h
      | none =>
        have hres : (⟨none, none, val⟩ : HashCache).stash_hashing ch hs
            = (stasher_u64_hash hs (object_hash val),
              ⟨some (ch, object_hash val), none, val⟩) := by
          simp [HashCache.stash_hashing]
        rw [hres]
        refine ⟨⟨?_, ?_⟩, rfl, rfl⟩
        · intro ch' oh' h
          simp at h
          exact h.2.symm
        · intro ch' oh' h
          simp at h
  exact ⟨hnew, hmut, key.1, key.2.1, key.2.2, fun m data deps => rfl⟩

/-- **C9, witness.**  A freshly created cache over a one-field value is
consistent, and its first hashing-mode stash contributes exactly
`stasher.u64(object_hash value)`. -/
theorem C9_witness :
    (HashCache.new [Decl.primU8 3]).Consistent ∧
    ((HashCache.new [Decl.primU8 3]).stash_hashing 7 ⟨[], none⟩).1
      = stasher_u64_hash ⟨[], none⟩ (object_hash [Decl.primU8 3]) := by
  have hc : (HashCache.new [Decl.primU8 3]).Consistent := by
    constructor <;> (intro ch' oh' h; simp [HashCache.new] at h)
  exact ⟨hc,
    (C9_hashcache_transparent [] [] (HashCache.new [Decl.primU8 3]) 7 ⟨[], none⟩ hc).2.2.2.1⟩

theorem beToNat_beBytes (n x : Nat) : beToNat (beBytes n x) = x % 256 ^ n := by
  induction n generalizing x with
  | zero => simp [beBytes, beToNat, Nat.mod_one]
  | succ n ih =>
    rw [beBytes]
    unfold beToNat
    rw [List.foldl_append]
    have hfold : (beBytes n (x / 256)).foldl (fun a b => a * 256 + b) 0
        = (x / 256) % 256 ^ n := ih (x / 256)
    unfold beToNat at hfold
    rw [hfold]
    simp only [List.foldl_cons, List.foldl_nil]
    rw [show (256 : Nat) ^ (n + 1) = 256 * 256 ^ n from by ring, Nat.mod_mul]
    omega

/-- Reading a primitive from its stored layout: matching tag byte, then
exactly `t.size` payload bytes. -/
theorem read_primitive_stored (t : PrimitiveType) (payload rest dd : List Nat)
    (hlen : payload.length = t.size) :
    UB.read_primitive ⟨(ValueType.Primitive t).to_byte :: (payload ++ rest), dd⟩ t
      = some (.ok (beToNat payload), ⟨rest, dd⟩) := by
  unfold UB.read_primitive reset_on_error
  simp only [UB.read_value_type, UB.read_byte, from_byte_to_byte]
  rw [if_neg (by simp)]
  rw [if_neg (by simp [hlen])]
  rw [List.take_left' hlen, List.drop_left' hlen]

/-- Reading a string from its stored layout: tag, 4-byte big-endian
length, then the bytes themselves, which must be valid UTF-8. -/
theorem read_string_stored (s rest dd : List Nat)
    (hlen : s.length < 2 ^ 32) (hval : utf8Valid (s.map (· % 256)) = true) :
    UB.read_string ⟨ValueType.String.to_byte :: (beBytes 4 s.length ++ (s.map (· % 256) ++ rest)), dd⟩
      = some (.ok (s.map (· % 256)), ⟨rest, dd⟩) := by
  unfold UB.read_string reset_on_error
  simp only [UB.read_value_type, UB.read_byte, from_byte_to_byte]
  rw [if_neg (by simp)]
  simp only [UB.read_value_length]
  rw [if_neg (by simp [beBytes_length])]
  rw [List.take_left' (beBytes_length 4 s.length), List.drop_left' (beBytes_length 4 s.length)]
  rw [beToNat_beBytes]
  rw [Nat.mod_eq_of_lt (by norm_num at hlen ⊢; omega)]
  simp only []
  simp only [UB.read_raw_bytes]
  rw [if_pos (by simp)]
  rw [List.take_left' (by simp), List.drop_left' (by simp)]
  simp only []
  rw [if_pos hval]

/-- Reading a `u8` array from its stored layout: tag, 4-byte length,
then one byte per element. -/
theorem read_primitive_array_stored (xs rest dd : List Nat)
    (hlen : xs.length < 2 ^ 32) :
    UB.read_primitive_array ⟨(ValueType.Array .U8).to_byte :: (beBytes 4 xs.length ++ (xs.map (· % 256) ++ rest)), dd⟩ .U8
      = some (.ok (takeChunks (xs.map (· % 256) ++ rest) 1 xs.length), ⟨rest, dd⟩) := by
  unfold UB.read_primitive_array reset_on_error
  simp only [UB.read_value_type, UB.read_byte, from_byte_to_byte]
  rw [if_neg (by simp)]
  simp only [UB.read_value_length]
  rw [if_neg (by simp [beBytes_length])]
  rw [List.take_left' (beBytes_length 4 xs.length), List.drop_left' (beBytes_length 4 xs.length)]
  rw [beToNat_beBytes]
  rw [Nat.mod_eq_of_lt (by norm_num at hlen ⊢; omega)]
  simp only []
  rw [if_neg (by simp [PrimitiveType.size])]
  simp only [PrimitiveType.size, Nat.mul_one]
  rw [List.drop_left' (show (List.map (fun x => x % 256) xs).length = xs.length from by simp)]

/-- A stored object-array header reads back exactly: matching tag,
four-byte length, then the announced number of dependency hashes are
popped and returned. -/
theorem read_array_header_stored (L : Nat) (hs restB restD : List Nat)
    (hL : hs.length = L) (h32 : L < 2 ^ 32) :
    read_array_of_object_header
        ⟨ValueType.ArrayOfObjects.to_byte :: (beBytes 4 L ++ restB), hs ++ restD⟩
      = some (.ok hs, ⟨restB, restD⟩) := by
  unfold read_array_of_object_header reset_on_error
  simp only [UB.read_value_type, UB.read_byte, from_byte_to_byte]
  rw [if_neg (by simp)]
  simp only [UB.read_value_length]
  rw [if_neg (by simp [beBytes_length])]
  rw [List.take_left' (beBytes_length 4 L), List.drop_left' (beBytes_length 4 L)]
  rw [beToNat_beBytes]
  rw [Nat.mod_eq_of_lt (by norm_num at h32 ⊢; omega)]
  simp only []
  rw [if_pos (by simp [hL])]
  rw [List.take_left' hL, List.drop_left' hL]


mutual

/-- The stored data for one declared field reads back exactly: strings
fit their four-byte length and are valid UTF-8, arrays fit their length,
and every nested object's serialization is present in the map under its
hash, recursively. -/
def ReadsBackF (m : StashMap) (d : Decl) : Prop :=
  match d with
  | .stringV bs => bs.length < 2 ^ 32 ∧ utf8Valid (bs.map (· % 256)) = true
  | .arrayU8 xs => xs.length < 2 ^ 32
  | .object fields =>
      (∃ rc, lookupObj m (object_hash fields)
        = some ⟨serial_bytes fields, rc, serial_deps fields⟩) ∧ ReadsBackL m fields
  | .arrayOfObjects _ elems => elems.length < 2 ^ 32 ∧ ReadsBackE m elems
  | _ => True
termination_by (sizeOf d, 1)

/-- `ReadsBackF` over a field sequence. -/
def ReadsBackL (m : StashMap) (ds : List Decl) : Prop :=
  match ds with
  | [] => True
  | d :: ds => ReadsBackF m d ∧ ReadsBackL m ds
termination_by (sizeOf ds, 0)

/-- `ReadsBackF` over the elements of an array of objects, each of which
must itself be stored in the map. -/
def ReadsBackE (m : StashMap) (es : List (List Decl)) : Prop :=
  match es with
  | [] => True
  | e :: es => ((∃ rc, lookupObj m (object_hash e)
      = some ⟨serial_bytes e, rc, serial_deps e⟩) ∧ ReadsBackL m e) ∧ ReadsBackE m es
termination_by (sizeOf es, 2)

end

/-- The canonical readers consume exactly what stashing stored: on a
cursor holding a declaration sequence's serialized bytes and dependency
hashes followed by anything else, the reader for that sequence succeeds
and leaves the cursor exactly at the leftovers — out of place and in
place, in either phase.  Strong induction on the declaration size. -/
theorem reads_back_exact (n : Nat) :
    (∀ d : Decl, sizeOf d ≤ n → ∀ m : StashMap, ReadsBackF m d →
      ∀ restB restD : List Nat, ∃ v,
        read_field m d ⟨field_bytes d ++ restB, field_deps d ++ restD⟩
          = some (.ok v, ⟨restB, restD⟩)) ∧
    (∀ ds : List Decl, sizeOf ds ≤ n → ∀ m : StashMap, ReadsBackL m ds →
      ∀ restB restD : List Nat, ∃ vs,
        read_fields m ds ⟨serial_bytes ds ++ restB, serial_deps ds ++ restD⟩
          = some (.ok vs, ⟨restB, restD⟩)) ∧
    (∀ es : List (List Decl), sizeOf es ≤ n → ∀ m : StashMap, ReadsBackE m es →
      ∃ vs, read_elems m es (es.map object_hash) = some (.ok vs)) ∧
    (∀ ds : List Decl, sizeOf ds ≤ n → ∀ (m : StashMap) (h rc : Nat),
      lookupObj m h = some ⟨serial_bytes ds, rc, serial_deps ds⟩ → ReadsBackL m ds →
      ∃ vs, map_unstash_with m h ds = some (.ok vs)) ∧
    (∀ d : Decl, sizeOf d ≤ n → ∀ (m : StashMap) (phase : InplaceUnstashPhase),
      ReadsBackF m d → ∀ restB restD : List Nat, ∃ t2,
        read_field_inplace m phase d ⟨field_bytes d ++ restB, field_deps d ++ restD⟩
          = some (.ok (), ⟨restB, restD⟩, t2)) ∧
    (∀ ds : List Decl, sizeOf ds ≤ n → ∀ (m : StashMap) (phase : InplaceUnstashPhase),
      ReadsBackL m ds → ∀ restB restD : List Nat, ∃ ts2,
        read_fields_inplace m phase ds ⟨serial_bytes ds ++ restB, serial_deps ds ++ restD⟩
          = some (.ok (), ⟨restB, restD⟩, ts2)) ∧
    (∀ ds : List Decl, sizeOf ds ≤ n → ∀ (m : StashMap) (h rc : Nat)
        (phase : InplaceUnstashPhase),
      lookupObj m h = some ⟨serial_bytes ds, rc, serial_deps ds⟩ → ReadsBackL m ds →
      ∃ ts2, map_unstash_inplace m h phase ds = some (.ok (), ts2)) := by
  induction n using Nat.strong_induction_on with
  | _ n ih =>
    have hfield : ∀ d : Decl, sizeOf d ≤ n → ∀ m : StashMap, ReadsBackF m d →
        ∀ restB restD : List Nat, ∃ v,
          read_field m d ⟨field_bytes d ++ restB, field_deps d ++ restD⟩
            = some (.ok v, ⟨restB, restD⟩) := by
      intro d hsz m hrb restB restD
      cases d with
      | primBool b =>
        exact ⟨_, by
          rw [show field_bytes (Decl.primBool b) ++ restB
              = (ValueType.Primitive .Bool).to_byte :: ([if b then 1 else 0] ++ restB) from by
            simp [field_bytes]]
          rw [show field_deps (Decl.primBool b) ++ restD = restD from by simp [field_deps]]
          rw [read_field]
          rw [read_primitive_stored .Bool [if b then 1 else 0] restB restD
            (by simp [PrimitiveType.size])]⟩
      | primU8 x =>
        exact ⟨_, by
          rw [show field_bytes (Decl.primU8 x) ++ restB
              = (ValueType.Primitive .U8).to_byte :: (beBytes 1 x ++ restB) from by
            simp [field_bytes]]
          rw [show field_deps (Decl.primU8 x) ++ restD = restD from by simp [field_deps]]
          rw [read_field]
          rw [read_primitive_stored .U8 (beBytes 1 x) restB restD
            (by simp [beBytes_length, PrimitiveType.size])]⟩
      | primU32 x =>
        exact ⟨_, by
          rw [show field_bytes (Decl.primU32 x) ++ restB
              = (ValueType.Primitive .U32).to_byte :: (beBytes 4 x ++ restB) from by
            simp [field_bytes]]
          rw [show field_deps (Decl.primU32 x) ++ restD = restD from by simp [field_deps]]
          rw [read_field]
          rw [read_primitive_stored .U32 (beBytes 4 x) restB restD
            (by simp [beBytes_length, PrimitiveType.size])]⟩
      | primU64 x =>
        exact ⟨_, by
          rw [show field_bytes (Decl.primU64 x) ++ restB
              = (ValueType.Primitive .U64).to_byte :: (beBytes 8 x ++ restB) from by
            simp [field_bytes]]
          rw [show field_deps (Decl.primU64 x) ++ restD = restD from by simp [field_deps]]
          rw [read_field]
          rw [read_primitive_stored .U64 (beBytes 8 x) restB restD
            (by simp [beBytes_length, PrimitiveType.size])]⟩
      | stringV bs =>
        rw [ReadsBackF] at hrb
        exact ⟨_, by
          rw [show field_bytes (Decl.stringV bs) ++ restB
              = ValueType.String.to_byte :: (beBytes 4 bs.length ++ (bs.map (· % 256) ++ restB))
              from by simp [field_bytes]]
          rw [show field_deps (Decl.stringV bs) ++ restD = restD from by simp [field_deps]]
          rw [read_field]
          rw [read_string_stored bs restB restD hrb.1 hrb.2]⟩
      | arrayU8 xs =>
        rw [ReadsBackF] at hrb
        exact ⟨_, by
          rw [show field_bytes (Decl.arrayU8 xs) ++ restB
              = (ValueType.Array .U8).to_byte :: (beBytes 4 xs.length ++ (xs.map (· % 256) ++ restB))
              from by simp [field_bytes]]
          rw [show field_deps (Decl.arrayU8 xs) ++ restD = restD from by simp [field_deps]]
          rw [read_field]
          rw [read_primitive_array_stored xs restB restD hrb]⟩
      | object sub =>
        rw [ReadsBackF] at hrb
        obtain ⟨⟨rc, hlk⟩, hsubrb⟩ := hrb
        have hlt : sizeOf sub < n := by
          have h1 : sizeOf sub < sizeOf (Decl.object sub) := by
            simp only [Decl.object.sizeOf_spec]
            omega
          omega
        obtain ⟨vals, hvals⟩ :=
          (ih (sizeOf sub) hlt).2.2.2.1 sub le_rfl m (object_hash sub) rc hlk hsubrb
        exact ⟨_, by
          rw [show field_bytes (Decl.object sub) ++ restB
              = ValueType.StashedObject.to_byte :: restB from by simp [field_bytes]]
          rw [show field_deps (Decl.object sub) ++ restD = object_hash sub :: restD from by
            simp [field_deps]]
          rw [read_field]
          unfold reset_on_error
          simp only [UB.read_value_type, UB.read_byte, from_byte_to_byte]
          rw [if_neg (by simp)]
          simp only [UB.read_dependency]
          rw [hvals]⟩
      | arrayOfObjects ord elems =>
        rw [ReadsBackF] at hrb
        obtain ⟨h32, hrbe⟩ := hrb
        have hlt : sizeOf elems < n := by
          have h1 : sizeOf elems < sizeOf (Decl.arrayOfObjects ord elems) := by
            simp only [Decl.arrayOfObjects.sizeOf_spec]
            omega
          omega
        obtain ⟨vals, hvals⟩ := (ih (sizeOf elems) hlt).2.2.1 elems le_rfl m hrbe
        exact ⟨_, by
          rw [show field_bytes (Decl.arrayOfObjects ord elems) ++ restB
              = ValueType.ArrayOfObjects.to_byte :: (beBytes 4 elems.length ++ restB) from by
            simp [field_bytes]]
          rw [show field_deps (Decl.arrayOfObjects ord elems) ++ restD
              = elems.map object_hash ++ restD from by simp [field_deps]]
          rw [read_field]
          rw [read_array_header_stored elems.length (elems.map object_hash) restB restD
            (by simp) h32]
          simp only []
          rw [hvals]⟩
    have hfields : ∀ ds : List Decl, sizeOf ds ≤ n → ∀ m : StashMap, ReadsBackL m ds →
        ∀ restB restD : List Nat, ∃ vs,
          read_fields m ds ⟨serial_bytes ds ++ restB, serial_deps ds ++ restD⟩
            = some (.ok vs, ⟨restB, restD⟩) := by
      intro ds
      induction ds with
      | nil =>
        intro _ m _ restB restD
        refine ⟨[], ?_⟩
        rw [read_fields]
        simp [serial_bytes, serial_deps]
      | cons d ds iht =>
        intro hsz m hrb restB restD
        rw [ReadsBackL] at hrb
        have hszs : sizeOf d ≤ n ∧ sizeOf ds ≤ n := by
          simp at hsz
          omega
        obtain ⟨v, hv⟩ := hfield d hszs.1 m hrb.1 (serial_bytes ds ++ restB)
          (serial_deps ds ++ restD)
        obtain ⟨vs, hvs⟩ := iht hszs.2 m hrb.2 restB restD
        refine ⟨v :: vs, ?_⟩
        rw [show serial_bytes (d :: ds) ++ restB
            = field_bytes d ++ (serial_bytes ds ++ restB) from by
          simp [serial_bytes, List.flatMap_cons]]
        rw [show serial_deps (d :: ds) ++ restD
            = field_deps d ++ (serial_deps ds ++ restD) from by
          simp [serial_deps, List.flatMap_cons]]
        rw [read_fields, hv]
        simp only []
        rw [hvs]
    have helems : ∀ es : List (List Decl), sizeOf es ≤ n → ∀ m : StashMap, ReadsBackE m es →
        ∃ vs, read_elems m es (es.map object_hash) = some (.ok vs) := by
      intro es
      induction es with
      | nil =>
        intro _ m _
        refine ⟨[], ?_⟩
        simp only [List.map_nil]
        rw [read_elems]
      | cons e es iht =>
        intro hsz m hrb
        rw [ReadsBackE] at hrb
        obtain ⟨⟨⟨rc, hlk⟩, hrbl⟩, hrbe⟩ := hrb
        have hlt : sizeOf e < n := by
          have h1 : sizeOf e < sizeOf (e :: es) := by
            simp only [List.cons.sizeOf_spec]
            omega
          omega
        obtain ⟨v, hv⟩ := (ih (sizeOf e) hlt).2.2.2.1 e le_rfl m (object_hash e) rc hlk hrbl
        obtain ⟨vs, hvs⟩ := iht (by simp at hsz; omega) m hrbe
        refine ⟨v :: vs, ?_⟩
        simp only [List.map_cons]
        rw [read_elems, hv]
        simp only []
        rw [hvs]
    have hmap : ∀ ds : List Decl, sizeOf ds ≤ n → ∀ (m : StashMap) (h rc : Nat),
        lookupObj m h = some ⟨serial_bytes ds, rc, serial_deps ds⟩ → ReadsBackL m ds →
        ∃ vs, map_unstash_with m h ds = some (.ok vs) := by
      intro ds hsz m h rc hlk hrb
      obtain ⟨vs, hvs⟩ := hfields ds hsz m hrb [] []
      simp only [List.append_nil] at hvs
      refine ⟨vs, ?_⟩
      rw [map_unstash_with, hlk]
      simp only []
      rw [hvs]
      rfl
    have hfieldI : ∀ d : Decl, sizeOf d ≤ n → ∀ (m : StashMap) (phase : InplaceUnstashPhase),
        ReadsBackF m d → ∀ restB restD : List Nat, ∃ t2,
          read_field_inplace m phase d ⟨field_bytes d ++ restB, field_deps d ++ restD⟩
            = some (.ok (), ⟨restB, restD⟩, t2) := by
      intro d hsz m phase hrb restB restD
      cases d with
      | primBool b =>
        exact ⟨_, by
          rw [show field_bytes (Decl.primBool b) ++ restB
              = (ValueType.Primitive .Bool).to_byte :: ([if b then 1 else 0] ++ restB) from by
            simp [field_bytes]]
          rw [show field_deps (Decl.primBool b) ++ restD = restD from by simp [field_deps]]
          rw [read_field_inplace]
          rw [read_primitive_stored .Bool [if b then 1 else 0] restB restD
            (by simp [PrimitiveType.size])]⟩
      | primU8 x =>
        exact ⟨_, by
          rw [show field_bytes (Decl.primU8 x) ++ restB
              = (ValueType.Primitive .U8).to_byte :: (beBytes 1 x ++ restB) from by
            simp [field_bytes]]
          rw [show field_deps (Decl.primU8 x) ++ restD = restD from by simp [field_deps]]
          rw [read_field_inplace]
          rw [read_primitive_stored .U8 (beBytes 1 x) restB restD
            (by simp [beBytes_length, PrimitiveType.size])]⟩
      | primU32 x =>
        exact ⟨_, by
          rw [show field_bytes (Decl.primU32 x) ++ restB
              = (ValueType.Primitive .U32).to_byte :: (beBytes 4 x ++ restB) from by
            simp [field_bytes]]
          rw [show field_deps (Decl.primU32 x) ++ restD = restD from by simp [field_deps]]
          rw [read_field_inplace]
          rw [read_primitive_stored .U32 (beBytes 4 x) restB restD
            (by simp [beBytes_length, PrimitiveType.size])]⟩
      | primU64 x =>
        exact ⟨_, by
          rw [show field_bytes (Decl.primU64 x) ++ restB
              = (ValueType.Primitive .U64).to_byte :: (beBytes 8 x ++ restB) from by
            simp [field_bytes]]
          rw [show field_deps (Decl.primU64 x) ++ restD = restD from by simp [field_deps]]
          rw [read_field_inplace]
          rw [read_primitive_stored .U64 (beBytes 8 x) restB restD
            (by simp [beBytes_length, PrimitiveType.size])]⟩
      | stringV bs =>
        rw [ReadsBackF] at hrb
        exact ⟨_, by
          rw [show field_bytes (Decl.stringV bs) ++ restB
              = ValueType.String.to_byte :: (beBytes 4 bs.length ++ (bs.map (· % 256) ++ restB))
              from by simp [field_bytes]]
          rw [show field_deps (Decl.stringV bs) ++ restD = restD from by simp [field_deps]]
          rw [read_field_inplace]
          rw [read_string_stored bs restB restD hrb.1 hrb.2]⟩
      | arrayU8 xs =>
        rw [ReadsBackF] at hrb
        exact ⟨_, by
          rw [show field_bytes (Decl.arrayU8 xs) ++ restB
              = (ValueType.Array .U8).to_byte :: (beBytes 4 xs.length ++ (xs.map (· % 256) ++ restB))
              from by simp [field_bytes]]
          rw [show field_deps (Decl.arrayU8 xs) ++ restD = restD from by simp [field_deps]]
          rw [read_field_inplace]
          rw [read_primitive_array_stored xs restB restD hrb]⟩
      | object sub =>
        rw [ReadsBackF] at hrb
        obtain ⟨⟨rc, hlk⟩, hsubrb⟩ := hrb
        have hlt : sizeOf sub < n := by
          have h1 : sizeOf sub < sizeOf (Decl.object sub) := by
            simp only [Decl.object.sizeOf_spec]
            omega
          omega
        obtain ⟨ts2, hts2⟩ :=
          (ih (sizeOf sub) hlt).2.2.2.2.2.2 sub le_rfl m (object_hash sub) rc phase hlk hsubrb
        exact ⟨_, by
          rw [show field_bytes (Decl.object sub) ++ restB
              = ValueType.StashedObject.to_byte :: restB from by simp [field_bytes]]
          rw [show field_deps (Decl.object sub) ++ restD = object_hash sub :: restD from by
            simp [field_deps]]
          rw [read_field_inplace]
          unfold reset_on_error_in
          simp only [UB.read_value_type, UB.read_byte, from_byte_to_byte]
          rw [if_neg (by simp)]
          simp only [UB.read_dependency]
          rw [hts2]⟩
      | arrayOfObjects ord elems =>
        rw [ReadsBackF] at hrb
        obtain ⟨h32, hrbe⟩ := hrb
        have hlt : sizeOf elems < n := by
          have h1 : sizeOf elems < sizeOf (Decl.arrayOfObjects ord elems) := by
            simp only [Decl.arrayOfObjects.sizeOf_spec]
            omega
          omega
        obtain ⟨vals, hvals⟩ := (ih (sizeOf elems) hlt).2.2.1 elems le_rfl m hrbe
        exact ⟨_, by
          rw [show field_bytes (Decl.arrayOfObjects ord elems) ++ restB
              = ValueType.ArrayOfObjects.to_byte :: (beBytes 4 elems.length ++ restB) from by
            simp [field_bytes]]
          rw [show field_deps (Decl.arrayOfObjects ord elems) ++ restD
              = elems.map object_hash ++ restD from by simp [field_deps]]
          rw [read_field_inplace]
          rw [read_array_header_stored elems.length (elems.map object_hash) restB restD
            (by simp) h32]
          simp only []
          rw [hvals]⟩
    have hfieldsI : ∀ ds : List Decl, sizeOf ds ≤ n →
        ∀ (m : StashMap) (phase : InplaceUnstashPhase),
        ReadsBackL m ds → ∀ restB restD : List Nat, ∃ ts2,
          read_fields_inplace m phase ds ⟨serial_bytes ds ++ restB, serial_deps ds ++ restD⟩
            = some (.ok (), ⟨restB, restD⟩, ts2) := by
      intro ds
      induction ds with
      | nil =>
        intro _ m phase _ restB restD
        refine ⟨[], ?_⟩
        rw [read_fields_inplace]
        simp [serial_bytes, serial_deps]
      | cons d ds iht =>
        intro hsz m phase hrb restB restD
        rw [ReadsBackL] at hrb
        have hszs : sizeOf d ≤ n ∧ sizeOf ds ≤ n := by
          simp at hsz
          omega
        obtain ⟨t2, ht2⟩ := hfieldI d hszs.1 m phase hrb.1 (serial_bytes ds ++ restB)
          (serial_deps ds ++ restD)
        obtain ⟨ts2, hts2⟩ := iht hszs.2 m phase hrb.2 restB restD
        refine ⟨t2 :: ts2, ?_⟩
        rw [show serial_bytes (d :: ds) ++ restB
            = field_bytes d ++ (serial_bytes ds ++ restB) from by
          simp [serial_bytes, List.flatMap_cons]]
        rw [show serial_deps (d :: ds) ++ restD
            = field_deps d ++ (serial_deps ds ++ restD) from by
          simp [serial_deps, List.flatMap_cons]]
        rw [read_fields_inplace, ht2]
        simp only []
        rw [hts2]
    have hmapI : ∀ ds : List Decl, sizeOf ds ≤ n → ∀ (m : StashMap) (h rc : Nat)
        (phase : InplaceUnstashPhase),
        lookupObj m h = some ⟨serial_bytes ds, rc, serial_deps ds⟩ → ReadsBackL m ds →
        ∃ ts2, map_unstash_inplace m h phase ds = some (.ok (), ts2) := by
      intro ds hsz m h rc phase hlk hrb
      obtain ⟨ts2, hts2⟩ := hfieldsI ds hsz m phase hrb [] []
      simp only [List.append_nil] at hts2
      refine ⟨ts2, ?_⟩
      rw [map_unstash_inplace, hlk]
      simp only []
      rw [hts2]
      rfl
    exact ⟨hfield, hfields, helems, hmap, hfieldI, hfieldsI, hmapI⟩


/-- **C8.**  With a reader that itself succeeds, `NotFinished` is
reported exactly when the cursor is not fully consumed: `is_finished`
means no leftover bytes and no leftover dependencies (first conjunct);
`StashMap::unstash` returns `NotFinished` iff the successful reader left
something unconsumed, and the reader's value otherwise (second and third
conjuncts); the same holds for a phase of `unstash_inplace` (fourth and
fifth conjuncts).  A reader that consumes exactly the declared sequence
never triggers `NotFinished`: on a stored entry holding a declaration
sequence's exact serialization, both `unstash` with the canonical reader
and the two-phase `unstash_inplace` return success (last two
conjuncts). -/
theorem C8_notfinished_iff_leftover :
    (∀ ub : UB, ub.is_finished = true ↔ (ub.bytes = [] ∧ ub.dependencies = [])) ∧
    (∀ {α : Type} (m : StashMap) (h : Nat) (f : UB → Option (Except UnstashError α × UB))
        (obj : StashedObject) (a : α) (ub' : UB),
      lookupObj m h = some obj →
      f ⟨obj.bytes, obj.dependencies⟩ = some (.ok a, ub') →
      (StashMap.unstash m h f = some (.error .NotFinished)
        ↔ ¬(ub'.bytes = [] ∧ ub'.dependencies = []))) ∧
    (∀ {α : Type} (m : StashMap) (h : Nat) (f : UB → Option (Except UnstashError α × UB))
        (obj : StashedObject) (a : α) (ub' : UB),
      lookupObj m h = some obj →
      f ⟨obj.bytes, obj.dependencies⟩ = some (.ok a, ub') →
      ub'.bytes = [] → ub'.dependencies = [] →
      StashMap.unstash m h f = some (.ok a)) ∧
    (∀ (m : StashMap) (h : Nat) (phase : InplaceUnstashPhase) (ts : List Decl)
        (obj : StashedObject) (ub' : UB) (ts' : List Decl),
      lookupObj m h = some obj →
      read_fields_inplace m phase ts ⟨obj.bytes, obj.dependencies⟩ = some (.ok (), ub', ts') →
      (map_unstash_inplace m h phase ts = some (.error .NotFinished, ts')
        ↔ ¬(ub'.bytes = [] ∧ ub'.dependencies = []))) ∧
    (∀ (m : StashMap) (h : Nat) (phase : InplaceUnstashPhase) (ts : List Decl)
        (obj : StashedObject) (ub' : UB) (ts' : List Decl),
      lookupObj m h = some obj →
      read_fields_inplace m phase ts ⟨obj.bytes, obj.dependencies⟩ = some (.ok (), ub', ts') →
      ub'.bytes = [] → ub'.dependencies = [] →
      map_unstash_inplace m h phase ts = some (.ok (), ts')) ∧
    (∀ (ds : List Decl) (m : StashMap) (h rc : Nat),
      lookupObj m h = some ⟨serial_bytes ds, rc, serial_deps ds⟩ → ReadsBackL m ds →
      ∃ vs, StashMap.unstash m h (read_fields m ds) = some (.ok vs)) ∧
    (∀ (ds : List Decl) (m : StashMap) (h rc : Nat),
      lookupObj m h = some ⟨serial_bytes ds, rc, serial_deps ds⟩ → ReadsBackL m ds →
      ∃ ts2, Stash.unstash_inplace m h ds = some (.ok (), ts2)) := by
  have hfin : ∀ ub : UB, ub.is_finished = true ↔ (ub.bytes = [] ∧ ub.dependencies = []) := by
    intro ub
    simp [UB.is_finished, List.isEmpty_iff]
  have hgen : ∀ {α : Type} (m : StashMap) (h : Nat)
      (f : UB → Option (Except UnstashError α × UB))
      (obj : StashedObject) (a : α) (ub' : UB),
      lookupObj m h = some obj →
      f ⟨obj.bytes, obj.dependencies⟩ = some (.ok a, ub') →
      StashMap.unstash m h f
        = if ub'.is_finished then some (.ok a) else some (.error .NotFinished) := by
    intro α m h f obj a ub' hlk hf
    rw [StashMap.unstash, hlk]
    simp only []
    rw [hf]
  have hgenI : ∀ (m : StashMap) (h : Nat) (phase : InplaceUnstashPhase) (ts : List Decl)
      (obj : StashedObject) (ub' : UB) (ts' : List Decl),
      lookupObj m h = some obj →
      read_fields_inplace m phase ts ⟨obj.bytes, obj.dependencies⟩ = some (.ok (), ub', ts') →
      map_unstash_inplace m h phase ts
        = if ub'.is_finished then some (.ok (), ts') else some (.error .NotFinished, ts') := by
    intro m h phase ts obj ub' ts' hlk hf
    rw [map_unstash_inplace, hlk]
    simp only []
    rw [hf]
  refine ⟨hfin, ?_, ?_, ?_, ?_, ?_, ?_⟩
  · intro α m h f obj a ub' hlk hf
    rw [hgen m h f obj a ub' hlk hf]
    rw [← hfin ub']
    by_cases hc : ub'.is_finished
    · simp [hc]
    · simp [hc]
  · intro α m h f obj a ub' hlk hf hb hd
    rw [hgen m h f obj a ub' hlk hf]
    rw [if_pos ((hfin ub').mpr ⟨hb, hd⟩)]
  · intro m h phase ts obj ub' ts' hlk hf
    rw [hgenI m h phase ts obj ub' ts' hlk hf]
    rw [← hfin ub']
    by_cases hc : ub'.is_finished
    · simp [hc]
    · simp [hc]
  · intro m h phase ts obj ub' ts' hlk hf hb hd
    rw [hgenI m h phase ts obj ub' ts' hlk hf]
    rw [if_pos ((hfin ub').mpr ⟨hb, hd⟩)]
  · intro ds m h rc hlk hrb
    obtain ⟨vs, hvs⟩ := (reads_back_exact (sizeOf ds)).2.1 ds le_rfl m hrb [] []
    simp only [List.append_nil] at hvs
    refine ⟨vs, ?_⟩
    rw [StashMap.unstash, hlk]
    simp only []
    rw [hvs]
    rfl
  · intro ds m h rc hlk hrb
    obtain ⟨tsv, htsv⟩ := (reads_back_exact (sizeOf ds)).2.2.2.2.2.2 ds le_rfl m h rc
      .Validate hlk hrb
    have hv := (validate_preserves (sizeOf ds)).2.2 ds le_rfl m h _ htsv
    simp only [] at hv
    obtain ⟨tsw, htsw⟩ := (reads_back_exact (sizeOf ds)).2.2.2.2.2.2 ds le_rfl m h rc
      .Write hlk hrb
    refine ⟨tsw, ?_⟩
    rw [Stash.unstash_inplace, htsv]
    simp only []
    rw [hv]
    exact htsw

/-- **C8, witness.**  A stored `u8` field read back with its declared
shape consumes everything and returns success in all three entry points,
while an entry holding one extra trailing byte makes the same reader
leave that byte unconsumed and yields exactly `NotFinished`. -/
theorem C8_witness :
    (∃ vs, StashMap.unstash
        [(5, ⟨serial_bytes [Decl.primU8 3], 1, serial_deps [Decl.primU8 3]⟩)] 5
        (read_fields [(5, ⟨serial_bytes [Decl.primU8 3], 1, serial_deps [Decl.primU8 3]⟩)]
          [Decl.primU8 3])
      = some (.ok vs)) ∧
    (∃ ts2, Stash.unstash_inplace
        [(5, ⟨serial_bytes [Decl.primU8 3], 1, serial_deps [Decl.primU8 3]⟩)] 5
        [Decl.primU8 3]
      = some (.ok (), ts2)) ∧
    StashMap.unstash [(5, ⟨serial_bytes [Decl.primU8 3] ++ [0], 1, []⟩)] 5
        (read_fields [(5, ⟨serial_bytes [Decl.primU8 3] ++ [0], 1, []⟩)] [Decl.primU8 3])
      = some (.error .NotFinished) := by
  have hrb : ReadsBackL [(5, (⟨serial_bytes [Decl.primU8 3], 1,
      serial_deps [Decl.primU8 3]⟩ : StashedObject))] [Decl.primU8 3] := by
    rw [ReadsBackL]
    constructor
    · rw [ReadsBackF] <;> simp
    · rw [ReadsBackL]
      trivial
  refine ⟨?_, ?_, ?_⟩
  · exact C8_notfinished_iff_leftover.2.2.2.2.2.1 [Decl.primU8 3] _ 5 1 rfl hrb
  · exact C8_notfinished_iff_leftover.2.2.2.2.2.2 [Decl.primU8 3] _ 5 1 rfl hrb
  · have hrb2 : ReadsBackL [(5, (⟨serial_bytes [Decl.primU8 3] ++ [0], 1,
        []⟩ : StashedObject))] [Decl.primU8 3] := by
      rw [ReadsBackL]
      constructor
      · rw [ReadsBackF] <;> simp
      · rw [ReadsBackL]
        trivial
    obtain ⟨vs, hvs⟩ := (reads_back_exact (sizeOf [Decl.primU8 3])).2.1 [Decl.primU8 3]
      le_rfl [(5, ⟨serial_bytes [Decl.primU8 3] ++ [0], 1, []⟩)] hrb2 [0] []
    simp only [List.append_nil] at hvs
    have := C8_notfinished_iff_leftover.2.1
      [(5, ⟨serial_bytes [Decl.primU8 3] ++ [0], 1, []⟩)] 5
      (read_fields [(5, ⟨serial_bytes [Decl.primU8 3] ++ [0], 1, []⟩)] [Decl.primU8 3])
      ⟨serial_bytes [Decl.primU8 3] ++ [0], 1, []⟩ vs ⟨[0], []⟩ rfl
      (by
        rw [show (serial_deps [Decl.primU8 3] : List Nat) = [] from rfl] at hvs
        exact hvs)
    rw [this]
    simp
end Hashstash
